import Mathlib

/-!
# Car-chase tracking system: the tracking engine

A shallow embedding of the basic tracker, `src/src/TrackingSystem.cpp` and
`src/src/TrackingSystem.h`, and of the advanced layer built on it,
`src/src/AdvancedTrackingSystem.cpp` and `src/src/AdvancedTrackingSystem.h`, with the
properties of the association engine, of the track lifecycle, of the occlusion estimator
and of the reacquisition of the primary target.

Modelling conventions.
* `int` values are mathematical integers (`Int`): signed overflow is undefined
  behaviour in C++ and is outside the model.
* The values of type `float` that decide which detection a track is matched to and
  whether a detection spawns a track, those of `calculateIoU` and of `bestIoU`, follow
  IEEE 754 binary32: `Binary32` has NaN and the infinities, `intToFloat` and
  `roundToFloat` round to nearest with ties to even, and `calculateIoUFloat` is the
  value `calculateIoU` returns (NaN for `0.0f / 0.0f`). The parameter `iouThreshold_`
  is a finite `float`, given by the rational it represents; the `0.3f` of the
  constructor is `5033165 / 2 ^ 24`.
  The arithmetic is that of a platform which evaluates `float` expressions in
  binary32 (`FLT_EVAL_METHOD == 0`), as x86-64 and AArch64 do.
* The other `float` values (confidences, velocities, visibility ratios, descriptors
  and their scores) are exact rationals (`ℚ`), so there `0.3f` is `3 / 10`, rounding is
  outside the model and a division by zero gives `0`. `calculateIoU` is the quotient of
  `calculateIoUFloat` in this exact arithmetic.
* `cv::KalmanFilter` belongs to OpenCV, not to this repository: the three ways the
  tracker uses it are the fields of `KalmanOps`, and the theorems hold for every choice
  of them.
* The other functions of OpenCV that the advanced layer calls on images and descriptors
  are the fields of `VisionOps`. A call of OpenCV is a total function: the exceptions
  that OpenCV throws (`cv::cvtColor` on an image without data, `cv::Mat::dot` on
  descriptors of different lengths) are outside the model.
* A member function takes the object as an explicit argument and returns the new
  object; a loop is a recursive function over what it iterates on.
-/

namespace CarChase

/-- The integer rectangle `cv::Rect`. -/
structure Rect where
  x : Int
  y : Int
  width : Int
  height : Int
deriving DecidableEq, Repr, Inhabited

/-- The `Detection` struct of `VehicleDetector.h`. -/
structure Detection where
  boundingBox : Rect
  confidence : ℚ
  classId : Int
  label : String
deriving DecidableEq, Repr, Inhabited

/-- The `TrackedVehicle` struct of `TrackingSystem.h`; `K` is the type of the
motion-model state (`cv::KalmanFilter`). -/
structure TrackedVehicle (K : Type) where
  id : Int
  boundingBox : Rect
  velocity : ℚ × ℚ
  confidence : ℚ
  age : Int
  totalHits : Int
  consecutiveHits : Int
  consecutiveMisses : Int
  kalmanFilter : K
  label : String
  isActive : Bool

/-- The uses the tracker makes of `cv::KalmanFilter`.
* `fromBox b`: `createKalmanFilter()` followed by setting `statePre` and `statePost`
  to `[b.x, b.y, b.width, b.height, 0, 0, 0, 0]` (`createNewTracks`, lines 220-229);
* `predictCopy kf`: `tempKF = kf; prediction = tempKF.predict()` (`predictTracks`,
  lines 136-137): the filter the track holds afterwards and the entries of
  `prediction`. Whether predicting on the copy advances the filter of the track is
  OpenCV's matter (a copied `cv::Mat` shares its buffer), so the field returns the
  filter too;
* `correct kf b`: `kf.correct(measurement)` with the measurement built from `b`
  (`updateKalmanFilter`, lines 271-279). -/
structure KalmanOps (K : Type) where
  fromBox : Rect → K
  predictCopy : K → K × (Nat → ℚ)
  correct : K → Rect → K

/-- The conversion `static_cast<int>(float)`: truncation toward zero. -/
def toInt (q : ℚ) : Int := Int.tdiv q.num q.den

/-- The default constructor `TrackedVehicle()` (`TrackingSystem.h`, lines 22-23),
holding the filter `kf`. -/
def TrackedVehicle.new {K : Type} (kf : K) : TrackedVehicle K :=
  { id := -1, boundingBox := ⟨0, 0, 0, 0⟩, velocity := (0, 0), confidence := 0, age := 0,
    totalHits := 0, consecutiveHits := 0, consecutiveMisses := 0, kalmanFilter := kf,
    label := "", isActive := false }

/-- The data members of class `TrackingSystem`. -/
structure TrackingSystem (K : Type) where
  tracks_ : List (TrackedVehicle K)
  nextId_ : Int
  maxAge_ : Int
  minHits_ : Int
  iouThreshold_ : ℚ

/-- The constructor `TrackingSystem::TrackingSystem()`; its `iouThreshold_(0.3f)` is
the `float` nearest to 0.3, which is `5033165 / 2 ^ 24`. -/
def TrackingSystem.new (K : Type) : TrackingSystem K :=
  { tracks_ := [], nextId_ := 0, maxAge_ := 30, minHits_ := 3,
    iouThreshold_ := 5033165 / 16777216 }

/-- `TrackingSystem::initialize` (lines 12-15). -/
def TrackingSystem.initialize {K : Type} (s : TrackingSystem K) : TrackingSystem K :=
  { s with tracks_ := [], nextId_ := 0 }

/-- `TrackingSystem::reset` (lines 80-83). -/
def TrackingSystem.reset {K : Type} (s : TrackingSystem K) : TrackingSystem K :=
  { s with tracks_ := [], nextId_ := 0 }

/-- `TrackingSystem::setMaxAge` (lines 85-87). -/
def TrackingSystem.setMaxAge {K : Type} (s : TrackingSystem K) (maxAge : Int) :
    TrackingSystem K :=
  { s with maxAge_ := maxAge }

/-- `TrackingSystem::setMinHits` (lines 89-91). -/
def TrackingSystem.setMinHits {K : Type} (s : TrackingSystem K) (minHits : Int) :
    TrackingSystem K :=
  { s with minHits_ := minHits }

/-- `TrackingSystem::setIoUThreshold` (lines 93-95). -/
def TrackingSystem.setIoUThreshold {K : Type} (s : TrackingSystem K) (threshold : ℚ) :
    TrackingSystem K :=
  { s with iouThreshold_ := threshold }

/-- `TrackingSystem::calculateIoU` (lines 248-262) in exact arithmetic: the quotient
of line 261 as a rational number, without the rounding of `float` (and 0 for `0 / 0`).
What the function returns as a `float` is `calculateIoUFloat`. -/
def calculateIoU (rect1 rect2 : Rect) : ℚ :=
  let x1 := max rect1.x rect2.x
  let y1 := max rect1.y rect2.y
  let x2 := min (rect1.x + rect1.width) (rect2.x + rect2.width)
  let y2 := min (rect1.y + rect1.height) (rect2.y + rect2.height)
  if x2 < x1 ∨ y2 < y1 then 0
  else
    let intersection := (x2 - x1) * (y2 - y1)
    let area1 := rect1.width * rect1.height
    let area2 := rect2.width * rect2.height
    let union_area := area1 + area2 - intersection
    (intersection : ℚ) / (union_area : ℚ)

/-- The recursion of `natLog2`, bounded by `fuel`. -/
def log2Fuel : Nat → Nat → Nat
  | 0, _ => 0
  | fuel + 1, n => if n < 2 then 0 else log2Fuel fuel (n / 2) + 1

/-- The position of the leading bit of `n`: the floor of its binary logarithm. -/
def natLog2 (n : Nat) : Nat := log2Fuel n n

/-- The floor of the binary logarithm of `|q|`, for `q ≠ 0`. -/
def floorLog2 (q : ℚ) : Int :=
  let k : Int := (natLog2 q.num.natAbs : Int) - (natLog2 q.den : Int)
  if |q| < 2 ^ k then k - 1 else k

/-- Rounding to the nearest integer, a tie going to the even one. -/
def roundHalfEven (x : ℚ) : Int :=
  let f := ⌊x⌋
  let r := x - f
  if r < 1 / 2 then f else if r > 1 / 2 then f + 1 else if f % 2 = 0 then f else f + 1

/-- Rounding to the nearest multiple of `2 ^ e`, a tie going to the even multiple. -/
def roundAt (e : Int) (q : ℚ) : ℚ := (roundHalfEven (q / 2 ^ e) : ℚ) * 2 ^ e

/-- The exponent of the unit in the last place of binary32 at the magnitude of `q`:
24 significant bits, and no exponent below that of the subnormal numbers. -/
def ulpExponent (q : ℚ) : Int := max (floorLog2 q - 23) (-149)

/-- Rounding of `q` to binary32 with an unbounded exponent range upwards (round to
nearest, ties to even). -/
def roundNearestEven (q : ℚ) : ℚ := roundAt (ulpExponent q) q

/-- A value of the type `float` (IEEE 754 binary32): NaN, an infinity, or a finite
value, given by the rational number it represents. The sign of a zero is not kept: the
tracker only compares and divides these values, and its divisors come from integers,
whose conversion never gives a negative zero. -/
inductive Binary32 where
  | nan
  | negInf
  | finite (q : ℚ)
  | posInf
deriving DecidableEq

/-- The comparison `a < b` of two `float` values: false when either is NaN. -/
def Binary32.lt : Binary32 → Binary32 → Bool
  | .negInf, .finite _ => true
  | .negInf, .posInf => true
  | .finite _, .posInf => true
  | .finite a, .finite b => decide (a < b)
  | _, _ => false

/-- The comparison `a <= b` of two `float` values: false when either is NaN. -/
def Binary32.le : Binary32 → Binary32 → Bool
  | .negInf, .negInf => true
  | .negInf, .finite _ => true
  | .negInf, .posInf => true
  | .finite _, .posInf => true
  | .posInf, .posInf => true
  | .finite a, .finite b => decide (a ≤ b)
  | _, _ => false

instance : LT Binary32 := ⟨fun a b => Binary32.lt a b = true⟩

instance : LE Binary32 := ⟨fun a b => Binary32.le a b = true⟩

instance (a b : Binary32) : Decidable (a < b) :=
  inferInstanceAs (Decidable (Binary32.lt a b = true))

instance (a b : Binary32) : Decidable (a ≤ b) :=
  inferInstanceAs (Decidable (Binary32.le a b = true))

/-- The `float` nearest to the rational `q` (round to nearest, ties to even), with
overflow to an infinity. -/
def roundToFloat (q : ℚ) : Binary32 :=
  let r := roundNearestEven q
  if 2 ^ 128 ≤ r then Binary32.posInf
  else if r ≤ -(2 ^ 128) then Binary32.negInf
  else Binary32.finite r

/-- The conversion `static_cast<float>(int)`: the nearest `float`, as a rational. An
`int` is below `2 ^ 31` in absolute value, far from the overflow threshold of `float`. -/
def intToFloat (n : Int) : ℚ := roundNearestEven n

/-- The division of two finite `float` values, the divisor not being a negative
zero. -/
def floatDiv (a b : ℚ) : Binary32 :=
  if b = 0 then
    if a = 0 then Binary32.nan else if 0 < a then Binary32.posInf else Binary32.negInf
  else roundToFloat (a / b)

/-- `TrackingSystem::calculateIoU` (lines 248-262): the `float` it returns. The two
areas are converted to `float` and divided as `float` values (line 261). -/
def calculateIoUFloat (rect1 rect2 : Rect) : Binary32 :=
  let x1 := max rect1.x rect2.x
  let y1 := max rect1.y rect2.y
  let x2 := min (rect1.x + rect1.width) (rect2.x + rect2.width)
  let y2 := min (rect1.y + rect1.height) (rect2.y + rect2.height)
  if x2 < x1 ∨ y2 < y1 then Binary32.finite 0
  else
    let intersection := (x2 - x1) * (y2 - y1)
    let area1 := rect1.width * rect1.height
    let area2 := rect2.width * rect2.height
    let union_area := area1 + area2 - intersection
    floatDiv (intToFloat intersection) (intToFloat union_area)

/-- The body of the loop of `TrackingSystem::predictTracks` (lines 134-151). -/
def predictTrack {K : Type} (ops : KalmanOps K) (track : TrackedVehicle K) :
    TrackedVehicle K :=
  if track.isActive then
    let r := ops.predictCopy track.kalmanFilter
    { track with
      kalmanFilter := r.1
      boundingBox := ⟨toInt (r.2 0), toInt (r.2 1), toInt (r.2 2), toInt (r.2 3)⟩
      velocity := (r.2 4, r.2 5)
      age := track.age + 1
      consecutiveMisses := track.consecutiveMisses + 1 }
  else track

/-- `TrackingSystem::predictTracks` (lines 132-153). -/
def predictTracks {K : Type} (ops : KalmanOps K) (s : TrackingSystem K) : TrackingSystem K :=
  { s with tracks_ := s.tracks_.map (predictTrack ops) }

/-- One iteration of the inner loop of `updateTracks` (lines 166-172) at index `i`;
the state is `(bestIoU, bestDetectionIdx)`, with `none` for the index `-1`. -/
def scanStep (iouThreshold : ℚ) (box : Rect) (detections : List Detection)
    (detectionMatched : List Bool) (st : Binary32 × Option Nat) (i : Nat) :
    Binary32 × Option Nat :=
  if detectionMatched.getD i false then st
  else
    let iou := calculateIoUFloat box (detections.getD i default).boundingBox
    if iou > st.1 ∧ iou > Binary32.finite iouThreshold then (iou, some i) else st

/-- The state of the inner loop of `updateTracks` (lines 161-173) after its first `n`
iterations. -/
def scanDetections (iouThreshold : ℚ) (box : Rect) (detections : List Detection)
    (detectionMatched : List Bool) : Nat → Binary32 × Option Nat
  | 0 => (Binary32.finite 0, none)
  | n + 1 =>
    scanStep iouThreshold box detections detectionMatched
      (scanDetections iouThreshold box detections detectionMatched n) n

/-- The value of `bestDetectionIdx` when the inner loop of `updateTracks` ends
(line 175). -/
def bestDetection (iouThreshold : ℚ) (box : Rect) (detections : List Detection)
    (detectionMatched : List Bool) : Option Nat :=
  (scanDetections iouThreshold box detections detectionMatched detections.length).2

/-- The update of a track with its matched detection (`updateTracks`, lines 177-186). -/
def hitUpdate {K : Type} (ops : KalmanOps K) (track : TrackedVehicle K)
    (detection : Detection) : TrackedVehicle K :=
  { track with
    kalmanFilter := ops.correct track.kalmanFilter detection.boundingBox
    boundingBox := detection.boundingBox
    confidence := detection.confidence
    label := detection.label
    totalHits := track.totalHits + 1
    consecutiveHits := track.consecutiveHits + 1
    consecutiveMisses := 0
    isActive := true }

/-- The treatment of a track with no matched detection (`updateTracks`,
lines 190-193). -/
def missUpdate {K : Type} (maxAge : Int) (track : TrackedVehicle K) : TrackedVehicle K :=
  if track.consecutiveMisses > maxAge then { track with isActive := false } else track

/-- What `updateTracks` does to a track once `bestDetectionIdx` is known
(lines 175-194). -/
def applyMatch {K : Type} (ops : KalmanOps K) (maxAge : Int) (detections : List Detection)
    (track : TrackedVehicle K) : Option Nat → TrackedVehicle K
  | some idx => hitUpdate ops track (detections.getD idx default)
  | none => missUpdate maxAge track

/-- The detection index chosen for a track by one iteration of the outer loop of
`updateTracks`: none for a track that is skipped (line 159) or finds no detection. -/
def matchOf {K : Type} (iouThreshold : ℚ) (detections : List Detection)
    (track : TrackedVehicle K) (detectionMatched : List Bool) : Option Nat :=
  if track.isActive then
    bestDetection iouThreshold track.boundingBox detections detectionMatched
  else none

/-- The vector `detectionMatched` after one iteration of the outer loop of
`updateTracks` (line 188). -/
def markMatched (detectionMatched : List Bool) : Option Nat → List Bool
  | some idx => detectionMatched.set idx true
  | none => detectionMatched

/-- One iteration of the outer loop of `updateTracks` (lines 159-194): the track and
the vector `detectionMatched` afterwards. -/
def updateTrack {K : Type} (ops : KalmanOps K) (maxAge : Int) (iouThreshold : ℚ)
    (detections : List Detection) (track : TrackedVehicle K) (detectionMatched : List Bool) :
    TrackedVehicle K × List Bool :=
  if track.isActive then
    let best := bestDetection iouThreshold track.boundingBox detections detectionMatched
    (applyMatch ops maxAge detections track best, markMatched detectionMatched best)
  else (track, detectionMatched)

/-- The outer loop of `updateTracks` (lines 158-195) over the stored tracks, from a
given vector `detectionMatched`. -/
def updateTracksLoop {K : Type} (ops : KalmanOps K) (maxAge : Int) (iouThreshold : ℚ)
    (detections : List Detection) :
    List (TrackedVehicle K) → List Bool → List (TrackedVehicle K) × List Bool
  | [], detectionMatched => ([], detectionMatched)
  | track :: rest, detectionMatched =>
    let r := updateTrack ops maxAge iouThreshold detections track detectionMatched
    let r' := updateTracksLoop ops maxAge iouThreshold detections rest r.2
    (r.1 :: r'.1, r'.2)

/-- `TrackingSystem::updateTracks` (lines 155-196). -/
def updateTracks {K : Type} (ops : KalmanOps K) (s : TrackingSystem K)
    (detections : List Detection) : TrackingSystem K :=
  { s with
    tracks_ := (updateTracksLoop ops s.maxAge_ s.iouThreshold_ detections s.tracks_
      (List.replicate detections.length false)).1 }

/-- The vector `detectionMatched` when `updateTracks` ends. -/
def matchedFlags {K : Type} (ops : KalmanOps K) (s : TrackingSystem K)
    (detections : List Detection) : List Bool :=
  (updateTracksLoop ops s.maxAge_ s.iouThreshold_ detections s.tracks_
    (List.replicate detections.length false)).2

/-- The values of `bestDetectionIdx` of the successive iterations of the outer loop of
`updateTracks`, one per stored track, from a given vector `detectionMatched`. -/
def matchLogFrom {K : Type} (iouThreshold : ℚ) (detections : List Detection) :
    List (TrackedVehicle K) → List Bool → List (Option Nat)
  | [], _ => []
  | track :: rest, detectionMatched =>
    matchOf iouThreshold detections track detectionMatched ::
      matchLogFrom iouThreshold detections rest
        (markMatched detectionMatched (matchOf iouThreshold detections track detectionMatched))

/-- The values of `bestDetectionIdx` during a call of `updateTracks`: entry `i` is the
index of the detection matched to the `i`-th stored track, if any. -/
def matchLog {K : Type} (s : TrackingSystem K) (detections : List Detection) :
    List (Option Nat) :=
  matchLogFrom s.iouThreshold_ detections s.tracks_ (List.replicate detections.length false)

/-- The track built by `createNewTracks` for a detection (lines 215-231). -/
def newTrack {K : Type} (ops : KalmanOps K) (id : Int) (detection : Detection) :
    TrackedVehicle K :=
  { TrackedVehicle.new (ops.fromBox detection.boundingBox) with
    id := id
    boundingBox := detection.boundingBox
    confidence := detection.confidence
    label := detection.label
    isActive := true }

/-- The flag `matched` of `createNewTracks` when its inner loop ends (lines 200-211). -/
def overlapsActiveTrack {K : Type} (iouThreshold : ℚ) (tracks : List (TrackedVehicle K))
    (box : Rect) : Bool :=
  tracks.any fun track =>
    track.isActive &&
      decide (calculateIoUFloat track.boundingBox box > Binary32.finite iouThreshold)

/-- One iteration of the outer loop of `createNewTracks` (lines 200-233). -/
def createStep {K : Type} (ops : KalmanOps K) (s : TrackingSystem K) (detection : Detection) :
    TrackingSystem K :=
  if overlapsActiveTrack s.iouThreshold_ s.tracks_ detection.boundingBox then s
  else
    { s with
      tracks_ := s.tracks_ ++ [newTrack ops s.nextId_ detection]
      nextId_ := s.nextId_ + 1 }

/-- `TrackingSystem::createNewTracks` (lines 198-235). -/
def createNewTracks {K : Type} (ops : KalmanOps K) (s : TrackingSystem K)
    (detections : List Detection) : TrackingSystem K :=
  detections.foldl (createStep ops) s

/-- The predicate of `remove_if` in `removeStaleTracks` (lines 241-242). -/
def isStale {K : Type} (maxAge minHits : Int) (track : TrackedVehicle K) : Bool :=
  !track.isActive ||
    (decide (track.consecutiveMisses > maxAge) && decide (track.totalHits < minHits))

/-- `TrackingSystem::removeStaleTracks` (lines 237-246). -/
def removeStaleTracks {K : Type} (s : TrackingSystem K) : TrackingSystem K :=
  { s with tracks_ := s.tracks_.filter fun track => !isStale s.maxAge_ s.minHits_ track }

/-- `TrackingSystem::update` (lines 17-40): the tracker afterwards and the returned
list `activeTracks`. The argument `frame` is unused by the code and is omitted. -/
def update {K : Type} (ops : KalmanOps K) (s : TrackingSystem K) (detections : List Detection) :
    TrackingSystem K × List (TrackedVehicle K) :=
  let s1 := predictTracks ops s
  let s2 := updateTracks ops s1 detections
  let s3 := createNewTracks ops s2 detections
  let s4 := removeStaleTracks s3
  (s4, s4.tracks_.filter fun track => track.isActive)

/-- A constant-velocity filter with value semantics whose correction keeps the stored
state: the state is `[x, y, w, h, vx, vy, vw, vh]`, and the prediction is
`[x + vx, y + vy, w + vw, h + vh, vx, vy, vw, vh]`. It instantiates the theorems on
concrete inputs. -/
def simpleKalman : KalmanOps (Nat → ℚ) where
  fromBox b := fun i =>
    match i with
    | 0 => b.x
    | 1 => b.y
    | 2 => b.width
    | 3 => b.height
    | _ => 0
  predictCopy st := (st, fun i => if i < 4 then st i + st (i + 4) else st i)
  correct st _ := st

/-- The IoU of `box` with the `k`-th detection, as the inner loop of `updateTracks`
computes it (line 168). -/
def iouAt (box : Rect) (detections : List Detection) (k : Nat) : Binary32 :=
  calculateIoUFloat box (detections.getD k default).boundingBox

/-- The vector `detectionMatched` after the outer loop of `updateTracks` has run over
the given tracks. -/
def flagsAfter {K : Type} (iouThreshold : ℚ) (detections : List Detection) :
    List (TrackedVehicle K) → List Bool → List Bool
  | [], detectionMatched => detectionMatched
  | track :: rest, detectionMatched =>
    flagsAfter iouThreshold detections rest
      (markMatched detectionMatched (matchOf iouThreshold detections track detectionMatched))

/-- The detection of the first frame of the end-to-end scenarios of the
specification. -/
def frame1Detection : Detection := ⟨⟨10, 10, 50, 50⟩, 9 / 10, 2, "car"⟩

/-- The detection of the second frame of the end-to-end scenarios. -/
def frame2Detection : Detection := ⟨⟨12, 11, 50, 50⟩, 85 / 100, 2, "car"⟩

/-- A freshly initialised tracker with the constructor's parameters. -/
def freshSystem : TrackingSystem (Nat → ℚ) :=
  TrackingSystem.initialize (TrackingSystem.new (Nat → ℚ))

/-- The tracker after the first frame of the end-to-end scenarios. -/
def afterFrame1 : TrackingSystem (Nat → ℚ) :=
  (update simpleKalman freshSystem [frame1Detection]).1

/-- A call of a public member function that changes the tracker. -/
inductive Call where
  | update (detections : List Detection)
  | setMaxAge (maxAge : Int)
  | setMinHits (minHits : Int)
  | setIoUThreshold (threshold : ℚ)

/-- The tracker after a call. -/
def Call.apply {K : Type} (ops : KalmanOps K) (s : TrackingSystem K) : Call → TrackingSystem K
  | .update detections => (CarChase.update ops s detections).1
  | .setMaxAge maxAge => s.setMaxAge maxAge
  | .setMinHits minHits => s.setMinHits minHits
  | .setIoUThreshold threshold => s.setIoUThreshold threshold

/-- The tracker after a sequence of calls. -/
def runCalls {K : Type} (ops : KalmanOps K) (s : TrackingSystem K) (calls : List Call) :
    TrackingSystem K :=
  calls.foldl (Call.apply ops) s

/-- The tracks that `createNewTracks` appends to the storage during one call of
`update`, in the order of their creation. -/
def createdBy {K : Type} (ops : KalmanOps K) (s : TrackingSystem K)
    (detections : List Detection) : List (TrackedVehicle K) :=
  let s2 := updateTracks ops (predictTracks ops s) detections
  (createNewTracks ops s2 detections).tracks_.drop s2.tracks_.length

/-- The tracks created during one call: none unless the call is `update`. -/
def Call.created {K : Type} (ops : KalmanOps K) (s : TrackingSystem K) :
    Call → List (TrackedVehicle K)
  | .update detections => createdBy ops s detections
  | _ => []

/-- All tracks created during a sequence of calls, in the order of their creation. -/
def createdLog {K : Type} (ops : KalmanOps K) :
    TrackingSystem K → List Call → List (TrackedVehicle K)
  | _, [] => []
  | s, c :: cs => c.created ops s ++ createdLog ops (c.apply ops s) cs

/-- The ids of a list of tracks. -/
def idsOf {K : Type} (tracks : List (TrackedVehicle K)) : List Int :=
  tracks.map fun track => track.id

/-- The invariant of the ids in storage: they increase along the storage and stay
below `nextId_`. It holds after `initialize` and every call keeps it
(`runCalls_ids`). -/
def IdsOrdered {K : Type} (s : TrackingSystem K) : Prop :=
  (idsOf s.tracks_).Pairwise (· < ·) ∧ ∀ x ∈ idsOf s.tracks_, x < s.nextId_

/-- A lower bound of `nextId_` and of the ids in storage. -/
def IdsFrom {K : Type} (base : Int) (s : TrackingSystem K) : Prop :=
  base ≤ s.nextId_ ∧ ∀ x ∈ idsOf s.tracks_, base ≤ x

/-- The storage in the middle of a call of `update`, after `predictTracks` and
`updateTracks` (line 23) and before `createNewTracks`. -/
def afterMatching {K : Type} (ops : KalmanOps K) (s : TrackingSystem K)
    (detections : List Detection) : List (TrackedVehicle K) :=
  (updateTracks ops (predictTracks ops s) detections).tracks_

/-- The values of `bestDetectionIdx` during a call of `update`: entry `i` is the index
of the detection matched to the `i`-th stored track in this frame, if any. -/
def frameMatchLog {K : Type} (ops : KalmanOps K) (s : TrackingSystem K)
    (detections : List Detection) : List (Option Nat) :=
  matchLog (predictTracks ops s) detections

/-- The tracker after successive calls of `update`, one per frame. -/
def runFrames {K : Type} (ops : KalmanOps K) (s : TrackingSystem K)
    (frames : List (List Detection)) : TrackingSystem K :=
  frames.foldl (fun st detections => (update ops st detections).1) s

/-- The stored track with id `x`, if any, is matched to no detection during the call
`update(detections)`. -/
def UnmatchedIn {K : Type} (ops : KalmanOps K) (s : TrackingSystem K)
    (detections : List Detection) (x : Int) : Prop :=
  ∀ (i : Nat) (t : TrackedVehicle K), s.tracks_[i]? = some t → t.id = x →
    (frameMatchLog ops s detections)[i]? = some none

/-- The stored track with id `x` is matched to no detection in any of the successive
frames, as long as it is stored. -/
def UnmatchedThrough {K : Type} (ops : KalmanOps K) :
    TrackingSystem K → Int → List (List Detection) → Prop
  | _, _, [] => True
  | s, x, detections :: rest =>
    UnmatchedIn ops s detections x ∧ UnmatchedThrough ops (update ops s detections).1 x rest

/-- The track that `scenario3Start` stores. -/
def scenario3Track : TrackedVehicle (Nat → ℚ) :=
  { newTrack simpleKalman 0 frame2Detection with totalHits := 2, consecutiveHits := 2, age := 1 }

/-- The start of the third end-to-end scenario: a tracker with the constructor's
parameters that stores one active track with `consecutiveMisses = 0` and
`totalHits = 2`. -/
def scenario3Start : TrackingSystem (Nat → ℚ) :=
  { tracks_ := [scenario3Track], nextId_ := 1, maxAge_ := 30, minHits_ := 3,
    iouThreshold_ := 5033165 / 16777216 }

/-- What a frame that holds the detection `frame2Detection` makes of `scenario3Track`:
the track is matched to it. -/
def scenario3Matched : TrackedVehicle (Nat → ℚ) :=
  hitUpdate simpleKalman (predictTrack simpleKalman scenario3Track) frame2Detection

instance {K : Type} (s : TrackingSystem K) : Decidable (IdsOrdered s) := by
  unfold IdsOrdered
  infer_instance

/-! ## The advanced tracking layer

A shallow embedding of `src/src/AdvancedTrackingSystem.cpp` and
`src/src/AdvancedTrackingSystem.h`. The image type `cv::Mat` is `Frame P`, where `P` is
the type of the pixel data; an appearance descriptor (a `cv::Mat` row of floats) is a
list of rationals, the empty `cv::Mat` being `[]`. The functions of OpenCV that read
pixels are the fields of `VisionOps`. -/

/-- The member function `cv::Rect::area`. -/
def Rect.area (r : Rect) : Int := r.width * r.height

/-- The member function `cv::Rect::empty`. -/
def Rect.empty (r : Rect) : Bool := decide (r.width ≤ 0) || decide (r.height ≤ 0)

/-- An image `cv::Mat`: its size and its pixel data, `none` when it has no data. -/
structure Frame (P : Type) where
  cols : Int
  rows : Int
  pixels : Option P

/-- The image `cv::Mat()`. -/
def Frame.noMat (P : Type) : Frame P := ⟨0, 0, none⟩

/-- The member function `cv::Mat::empty`. -/
def Frame.empty {P : Type} (f : Frame P) : Bool :=
  f.pixels.isNone || decide (f.cols * f.rows = 0)

/-- The uses the advanced layer makes of OpenCV on images and descriptors.
* `hog frame roi`: the descriptor that lines 201-222 of `extractAppearanceFeatures`
  compute (crop, resize, grey scale, HOG, reshape);
* `norm d`: `cv::norm(d)`;
* `flow current previous`: the point pairs of lines 242-255 of `updateCameraMotion`,
  each `(prevPts[i], nextPts[i], status[i])`. -/
structure VisionOps (P : Type) where
  hog : Frame P → Rect → List ℚ
  norm : List ℚ → ℚ
  flow : Frame P → Frame P → List ((ℚ × ℚ) × (ℚ × ℚ) × Bool)

/-- The `AdvancedTrackedVehicle` struct of `AdvancedTrackingSystem.h`. The inherited
`kalmanFilter` is the default-constructed filter, which the advanced layer never
touches, so its type is `Unit`. -/
structure AdvancedTrackedVehicle extends TrackedVehicle Unit where
  appearanceFeatures : List ℚ
  featureHistory : List (List ℚ)
  visibilityRatio : ℚ
  estimatedFullBox : Rect
  isPartiallyOccluded : Bool
  predictedPosition : ℚ × ℚ
  velocityHistory : List (ℚ × ℚ)
  motionConfidence : ℚ
  reIdScore : Int
  uniqueSignature : String
  cameraMotionOffset : ℚ × ℚ

/-- The default constructor `AdvancedTrackedVehicle()` (`AdvancedTrackingSystem.h`,
lines 32-33). -/
def AdvancedTrackedVehicle.new : AdvancedTrackedVehicle :=
  { toTrackedVehicle := TrackedVehicle.new ()
    appearanceFeatures := []
    featureHistory := []
    visibilityRatio := 1
    estimatedFullBox := ⟨0, 0, 0, 0⟩
    isPartiallyOccluded := false
    predictedPosition := (0, 0)
    velocityHistory := List.replicate 5 (0, 0)
    motionConfidence := 0
    reIdScore := 0
    uniqueSignature := ""
    cameraMotionOffset := (0, 0) }

/-- The data members of class `AdvancedTrackingSystem`, those of its base class
included. -/
structure AdvancedTrackingSystem (K P : Type) extends TrackingSystem K where
  advancedTracks_ : List AdvancedTrackedVehicle
  primaryTargetId_ : Int
  partialTrackingEnabled_ : Bool
  reIdEnabled_ : Bool
  cameraMotionCompensationEnabled_ : Bool
  occlusionThreshold_ : ℚ
  reIdThreshold_ : ℚ
  cameraMotionSensitivity_ : ℚ
  previousFrame_ : Frame P
  globalCameraMotion_ : ℚ × ℚ

/-- The constructor `AdvancedTrackingSystem::AdvancedTrackingSystem()` (lines 7-11). -/
def AdvancedTrackingSystem.new (K P : Type) : AdvancedTrackingSystem K P :=
  { toTrackingSystem := TrackingSystem.new K
    advancedTracks_ := []
    primaryTargetId_ := -1
    partialTrackingEnabled_ := true
    reIdEnabled_ := true
    cameraMotionCompensationEnabled_ := true
    occlusionThreshold_ := 3 / 10
    reIdThreshold_ := 7 / 10
    cameraMotionSensitivity_ := 1 / 10
    previousFrame_ := Frame.noMat P
    globalCameraMotion_ := (0, 0) }

/-- `AdvancedTrackingSystem::initialize` (lines 16-21). -/
def AdvancedTrackingSystem.initialize {K P : Type} (s : AdvancedTrackingSystem K P) :
    AdvancedTrackingSystem K P :=
  { s with
    toTrackingSystem := TrackingSystem.initialize s.toTrackingSystem
    advancedTracks_ := []
    primaryTargetId_ := -1
    globalCameraMotion_ := (0, 0) }

/-- `AdvancedTrackingSystem::extractAppearanceFeatures` (lines 195-223). -/
def extractAppearanceFeatures {P : Type} (vis : VisionOps P) (frame : Frame P) (roi : Rect) :
    List ℚ :=
  if roi.empty ∨ roi.x < 0 ∨ roi.y < 0 ∨
      roi.x + roi.width > frame.cols ∨ roi.y + roi.height > frame.rows then []
  else vis.hog frame roi

/-- The member function `cv::Mat::dot` on two descriptors. -/
def dotProduct (features1 features2 : List ℚ) : ℚ :=
  (List.zipWith (fun a b => a * b) features1 features2).sum

/-- `AdvancedTrackingSystem::calculateReIdScore` (lines 225-238). -/
def calculateReIdScore {P : Type} (vis : VisionOps P) (features1 features2 : List ℚ) : ℚ :=
  if features1.isEmpty ∨ features2.isEmpty then 0
  else
    let dot := dotProduct features1 features2
    let norm1 := vis.norm features1
    let norm2 := vis.norm features2
    if norm1 > 0 ∧ norm2 > 0 then dot / (norm1 * norm2) else 0

/-- The loop of `AdvancedTrackingSystem::updateCameraMotion` (lines 258-266): the pair
`(totalMotion, validPoints)`. -/
def totalFlow (points : List ((ℚ × ℚ) × (ℚ × ℚ) × Bool)) : (ℚ × ℚ) × Int :=
  points.foldl
    (fun acc p =>
      if p.2.2 then
        ((acc.1.1 + (p.2.1.1 - p.1.1), acc.1.2 + (p.2.1.2 - p.1.2)), acc.2 + 1)
      else acc)
    ((0, 0), 0)

/-- `AdvancedTrackingSystem::updateCameraMotion` (lines 240-271). -/
def updateCameraMotion {K P : Type} (vis : VisionOps P) (s : AdvancedTrackingSystem K P)
    (currentFrame previousFrame : Frame P) : AdvancedTrackingSystem K P :=
  let points := vis.flow currentFrame previousFrame
  if points.isEmpty then s
  else
    let r := totalFlow points
    if r.2 > 0 then
      { s with
        globalCameraMotion_ :=
          (r.1.1 / (r.2 : ℚ) * s.cameraMotionSensitivity_,
            r.1.2 / (r.2 : ℚ) * s.cameraMotionSensitivity_) }
    else s

/-- `AdvancedTrackingSystem::compensateCameraMotion` (lines 273-278). -/
def compensateCameraMotion {K P : Type} (s : AdvancedTrackingSystem K P)
    (detections : List Detection) : List Detection :=
  detections.map fun detection =>
    { detection with
      boundingBox :=
        { detection.boundingBox with
          x := detection.boundingBox.x + toInt s.globalCameraMotion_.1
          y := detection.boundingBox.y + toInt s.globalCameraMotion_.2 } }

/-- `AdvancedTrackingSystem::updateVelocityHistory` (lines 285-291): the array
`velocityHistory` afterwards. -/
def updateVelocityHistory (track : AdvancedTrackedVehicle) : AdvancedTrackedVehicle :=
  let shifted := [4, 3, 2, 1].foldl
    (fun (h : List (ℚ × ℚ)) (i : Nat) => h.set i (h.getD (i - 1) (0, 0)))
    track.velocityHistory
  { track with velocityHistory := shifted.set 0 track.velocity }

/-- `AdvancedTrackingSystem::generateUniqueSignature` (lines 384-391). -/
def generateUniqueSignature (track : AdvancedTrackedVehicle) : AdvancedTrackedVehicle :=
  { track with
    uniqueSignature :=
      track.label ++ "_" ++ toString track.boundingBox.width ++ "x" ++
        toString track.boundingBox.height ++ "_" ++ toString (toInt track.velocity.1) ++ "_" ++
        toString (toInt track.velocity.2) }

/-- `AdvancedTrackingSystem::calculatePredictedPosition` (lines 293-315). -/
def calculatePredictedPosition (track : AdvancedTrackedVehicle) : ℚ × ℚ :=
  let currentCenter : ℚ × ℚ :=
    ((track.boundingBox.x : ℚ) + (track.boundingBox.width : ℚ) / 2,
      (track.boundingBox.y : ℚ) + (track.boundingBox.height : ℚ) / 2)
  let r := (List.range 5).foldl
    (fun (acc : (ℚ × ℚ) × Int) (i : Nat) =>
      let v := track.velocityHistory.getD i (0, 0)
      if v.1 ≠ 0 ∨ v.2 ≠ 0 then ((acc.1.1 + v.1, acc.1.2 + v.2), acc.2 + 1) else acc)
    ((0, 0), 0)
  let avgVelocity : ℚ × ℚ :=
    if r.2 > 0 then (r.1.1 / (r.2 : ℚ), r.1.2 / (r.2 : ℚ)) else track.velocity
  (currentCenter.1 + avgVelocity.1, currentCenter.2 + avgVelocity.2)

/-- `AdvancedTrackingSystem::predictMotion` (lines 280-283). -/
def predictMotion (track : AdvancedTrackedVehicle) : AdvancedTrackedVehicle :=
  { track with
    predictedPosition := calculatePredictedPosition track
    motionConfidence := 8 / 10 }

/-- `AdvancedTrackingSystem::estimateFullBoundingBox` (lines 165-193). An `int / 2` is
the truncating division, and a `float` stored in an `int` is truncated. -/
def estimateFullBoundingBox (track : AdvancedTrackedVehicle) : AdvancedTrackedVehicle :=
  if track.estimatedFullBox.area > 0 then
    let center : ℚ × ℚ :=
      ((track.estimatedFullBox.x : ℚ) + (track.estimatedFullBox.width : ℚ) / 2,
        (track.estimatedFullBox.y : ℚ) + (track.estimatedFullBox.height : ℚ) / 2)
    let predictedCenter : ℚ × ℚ := (center.1 + track.velocity.1, center.2 + track.velocity.2)
    { track with
      estimatedFullBox :=
        { track.estimatedFullBox with
          x := toInt (predictedCenter.1 - (Int.tdiv track.estimatedFullBox.width 2 : Int))
          y := toInt (predictedCenter.2 - (Int.tdiv track.estimatedFullBox.height 2 : Int)) } }
  else
    let scaleFactor : ℚ := 1 / track.visibilityRatio
    let center : ℚ × ℚ :=
      ((track.boundingBox.x : ℚ) + (track.boundingBox.width : ℚ) / 2,
        (track.boundingBox.y : ℚ) + (track.boundingBox.height : ℚ) / 2)
    let estimatedWidth := toInt ((track.boundingBox.width : ℚ) * scaleFactor)
    let estimatedHeight := toInt ((track.boundingBox.height : ℚ) * scaleFactor)
    { track with
      estimatedFullBox :=
        ⟨toInt (center.1 - (Int.tdiv estimatedWidth 2 : Int)),
          toInt (center.2 - (Int.tdiv estimatedHeight 2 : Int)),
          estimatedWidth, estimatedHeight⟩ }

/-- `AdvancedTrackingSystem::handlePartialOcclusion` (lines 134-163). The argument
`frame` is unused by the code and is omitted. -/
def handlePartialOcclusion {K P : Type} (s : AdvancedTrackingSystem K P)
    (track : AdvancedTrackedVehicle) : AdvancedTrackedVehicle :=
  if !s.partialTrackingEnabled_ then track
  else
    let expectedArea : ℚ := track.estimatedFullBox.area
    let actualArea : ℚ := track.boundingBox.area
    let t1 : AdvancedTrackedVehicle :=
      if expectedArea > 0 then { track with visibilityRatio := actualArea / expectedArea }
      else { track with visibilityRatio := 1 }
    let t2 : AdvancedTrackedVehicle :=
      { t1 with isPartiallyOccluded := decide (t1.visibilityRatio < s.occlusionThreshold_) }
    if t2.isPartiallyOccluded then
      let t3 := estimateFullBoundingBox t2
      let t4 : AdvancedTrackedVehicle :=
        { t3 with predictedPosition := calculatePredictedPosition t3 }
      { t4 with confidence := t4.confidence * (1 / 2 + 1 / 2 * t4.visibilityRatio) }
    else { t2 with estimatedFullBox := t2.boundingBox }

/-- One iteration of the loop of `handleTargetReacquisition` (lines 327-334) at index
`i`; the state is `(bestScore, bestDetectionIdx)`, with `none` for the index `-1`. -/
def reIdScanStep {P : Type} (vis : VisionOps P) (reIdThreshold : ℚ)
    (track : AdvancedTrackedVehicle) (detections : List Detection) (st : ℚ × Option Nat)
    (i : Nat) : ℚ × Option Nat :=
  let detectionFeatures :=
    extractAppearanceFeatures vis (Frame.noMat P) (detections.getD i default).boundingBox
  let score := calculateReIdScore vis track.appearanceFeatures detectionFeatures
  if score > st.1 ∧ score > reIdThreshold then (score, some i) else st

/-- The state of the loop of `handleTargetReacquisition` (lines 323-335) after its
first `n` iterations. -/
def reIdScan {P : Type} (vis : VisionOps P) (reIdThreshold : ℚ)
    (track : AdvancedTrackedVehicle) (detections : List Detection) : Nat → ℚ × Option Nat
  | 0 => (0, none)
  | n + 1 =>
    reIdScanStep vis reIdThreshold track detections
      (reIdScan vis reIdThreshold track detections n) n

/-- `AdvancedTrackingSystem::handleTargetReacquisition` (lines 317-351); the message
written to `std::cout` is omitted. -/
def handleTargetReacquisition {K P : Type} (vis : VisionOps P) (s : AdvancedTrackingSystem K P)
    (track : AdvancedTrackedVehicle) (detections : List Detection) : AdvancedTrackedVehicle :=
  if !s.reIdEnabled_ then track
  else if !track.isActive || track.isPartiallyOccluded then
    let r := reIdScan vis s.reIdThreshold_ track detections detections.length
    match r.2 with
    | some idx =>
      let detection := detections.getD idx default
      { track with
        boundingBox := detection.boundingBox
        confidence := detection.confidence
        isActive := true
        isPartiallyOccluded := false
        visibilityRatio := 1
        reIdScore := toInt (r.1 * 100) }
    | none => track
  else track

/-- The size test of `isSimilarVehicle` (lines 359-360), true when the function
returns false there. The quotient is a `float`: with `area2 = 0` it is infinite
for `area1 ≠ 0`, which fails the test, and NaN for `area1 = 0`, which passes it. -/
def sizeMismatch (area1 area2 : Int) : Bool :=
  if area2 = 0 then decide (area1 ≠ 0)
  else
    let sizeRatio : ℚ := (area1 : ℚ) / (area2 : ℚ)
    decide (sizeRatio < 1 / 2) || decide (sizeRatio > 2)

/-- `AdvancedTrackingSystem::isSimilarVehicle` (lines 353-366). -/
def isSimilarVehicle {P : Type} (vis : VisionOps P) (track1 track2 : AdvancedTrackedVehicle) :
    Bool :=
  if track1.label ≠ track2.label then false
  else if sizeMismatch track1.boundingBox.area track2.boundingBox.area then false
  else
    let appearanceScore :=
      calculateReIdScore vis track1.appearanceFeatures track2.appearanceFeatures
    decide (appearanceScore > 8 / 10)

/-- The inner loop of `mergeSimilarTracks` (lines 370-380) for the outer position `i`,
over the positions that `it2` still has to visit. -/
def mergeInner {P : Type} (vis : VisionOps P) (i : Nat) :
    List Nat → List AdvancedTrackedVehicle → List AdvancedTrackedVehicle
  | [], tracks => tracks
  | j :: rest, tracks =>
    let it1 := tracks.getD i AdvancedTrackedVehicle.new
    let it2 := tracks.getD j AdvancedTrackedVehicle.new
    if it1.isActive && it2.isActive && isSimilarVehicle vis it1 it2 then
      if it1.confidence > it2.confidence then
        mergeInner vis i rest (tracks.set j { it2 with isActive := false })
      else tracks.set i { it1 with isActive := false }
    else mergeInner vis i rest tracks

/-- `AdvancedTrackingSystem::mergeSimilarTracks` (lines 368-382): the vector
`advancedTracks_` afterwards. -/
def mergeSimilarTracks {P : Type} (vis : VisionOps P) (tracks : List AdvancedTrackedVehicle) :
    List AdvancedTrackedVehicle :=
  (List.range tracks.length).foldl
    (fun ts i => mergeInner vis i (List.range' (i + 1) (tracks.length - (i + 1))) ts) tracks

/-- The effect of `std::find_if` followed by an update of the element found: `f` is
applied to the first element that satisfies `p`; the result is `none` when `find_if`
returns `end()`. -/
def updateFirst {α : Type} (p : α → Bool) (f : α → α) : List α → Option (List α)
  | [] => none
  | a :: rest => if p a then some (f a :: rest) else (updateFirst p f rest).map (a :: ·)

/-- The descriptor update of `updateAdvancedTracks` (lines 98-106). -/
def refreshFeatures {P : Type} (vis : VisionOps P) (frame : Frame P) (box : Rect)
    (track : AdvancedTrackedVehicle) : AdvancedTrackedVehicle :=
  if !frame.empty && !box.empty then
    let features := extractAppearanceFeatures vis frame box
    let history := track.featureHistory ++ [features]
    { track with
      appearanceFeatures := features
      featureHistory := if history.length > 10 then history.drop 1 else history }
  else track

/-- The update of an existing advanced track from a basic track (`updateAdvancedTracks`,
lines 91-112). -/
def refreshTrack {K P : Type} (vis : VisionOps P) (frame : Frame P)
    (basicTrack : TrackedVehicle K) (track : AdvancedTrackedVehicle) : AdvancedTrackedVehicle :=
  let t1 : AdvancedTrackedVehicle :=
    { track with
      boundingBox := basicTrack.boundingBox
      confidence := basicTrack.confidence
      label := basicTrack.label
      velocity := basicTrack.velocity
      isActive := basicTrack.isActive }
  generateUniqueSignature
    (updateVelocityHistory (refreshFeatures vis frame basicTrack.boundingBox t1))

/-- The advanced track created for a basic track (`updateAdvancedTracks`,
lines 115-128). -/
def newAdvancedTrack {K P : Type} (vis : VisionOps P) (frame : Frame P)
    (basicTrack : TrackedVehicle K) : AdvancedTrackedVehicle :=
  let t1 : AdvancedTrackedVehicle :=
    { AdvancedTrackedVehicle.new with
      id := basicTrack.id
      boundingBox := basicTrack.boundingBox
      confidence := basicTrack.confidence
      label := basicTrack.label
      velocity := basicTrack.velocity
      isActive := basicTrack.isActive }
  let t2 : AdvancedTrackedVehicle :=
    if !frame.empty && !basicTrack.boundingBox.empty then
      let features := extractAppearanceFeatures vis frame basicTrack.boundingBox
      { t1 with appearanceFeatures := features, featureHistory := t1.featureHistory ++ [features] }
    else t1
  generateUniqueSignature t2

/-- One iteration of the loop of `updateAdvancedTracks` (lines 84-130). -/
def syncTrack {K P : Type} (vis : VisionOps P) (frame : Frame P)
    (tracks : List AdvancedTrackedVehicle) (basicTrack : TrackedVehicle K) :
    List AdvancedTrackedVehicle :=
  match updateFirst (fun t => decide (t.id = basicTrack.id)) (refreshTrack vis frame basicTrack)
      tracks with
  | some updated => updated
  | none => tracks ++ [newAdvancedTrack vis frame basicTrack]

/-- `AdvancedTrackingSystem::updateAdvancedTracks` (lines 77-132). -/
def updateAdvancedTracks {K P : Type} (kal : KalmanOps K) (vis : VisionOps P)
    (s : AdvancedTrackingSystem K P) (detections : List Detection) (frame : Frame P) :
    AdvancedTrackingSystem K P :=
  let r := update kal s.toTrackingSystem detections
  { s with
    toTrackingSystem := r.1
    advancedTracks_ := r.2.foldl (syncTrack vis frame) s.advancedTracks_ }

/-- The reacquisition stage of `updateAdvanced` (lines 49-58). -/
def reacquirePrimary {K P : Type} (vis : VisionOps P) (s : AdvancedTrackingSystem K P)
    (compensatedDetections : List Detection) : AdvancedTrackingSystem K P :=
  if s.primaryTargetId_ ≥ 0 then
    match updateFirst (fun t => decide (t.id = s.primaryTargetId_))
        (fun t => if t.isActive then handleTargetReacquisition vis s t compensatedDetections
          else t)
        s.advancedTracks_ with
    | some updated => { s with advancedTracks_ := updated }
    | none => s
  else s

/-- `AdvancedTrackingSystem::updateAdvanced` (lines 23-75): the tracker afterwards and
the returned list `activeTracks`. -/
def updateAdvanced {K P : Type} (kal : KalmanOps K) (vis : VisionOps P)
    (s : AdvancedTrackingSystem K P) (detections : List Detection) (frame : Frame P) :
    AdvancedTrackingSystem K P × List AdvancedTrackedVehicle :=
  let s1 :=
    if s.cameraMotionCompensationEnabled_ && !s.previousFrame_.empty then
      updateCameraMotion vis s frame s.previousFrame_
    else s
  let compensatedDetections :=
    if s1.cameraMotionCompensationEnabled_ then compensateCameraMotion s1 detections
    else detections
  let s2 := updateAdvancedTracks kal vis s1 compensatedDetections frame
  let s3 : AdvancedTrackingSystem K P :=
    { s2 with
      advancedTracks_ := s2.advancedTracks_.map fun track =>
        if track.isActive then predictMotion (handlePartialOcclusion s2 track) else track }
  let s4 := reacquirePrimary vis s3 compensatedDetections
  let s5 : AdvancedTrackingSystem K P :=
    { s4 with advancedTracks_ := mergeSimilarTracks vis s4.advancedTracks_ }
  let s6 : AdvancedTrackingSystem K P := { s5 with previousFrame_ := frame }
  (s6, s6.advancedTracks_.filter fun track => track.isActive)

/-- The tracker after successive calls of `updateAdvanced`, one per frame, each with
its detections and its image. -/
def runAdvanced {K P : Type} (kal : KalmanOps K) (vis : VisionOps P)
    (s : AdvancedTrackingSystem K P) (frames : List (List Detection × Frame P)) :
    AdvancedTrackingSystem K P :=
  frames.foldl (fun st f => (updateAdvanced kal vis st f.1 f.2).1) s

/-- A stand-in for the image functions of OpenCV on images without pixel content: every
region has the descriptor `[3, 4]`, the norm is the Euclidean one with the rational
square root `Rat.sqrt` (exact on `[3, 4]`), and no point is followed between two images.
It instantiates the theorems on concrete inputs. -/
def simpleVision : VisionOps Unit where
  hog _ _ := [3, 4]
  norm d := Rat.sqrt (d.map fun x => x * x).sum
  flow _ _ := []

/-- A freshly initialised advanced tracker with the constructor's parameters. -/
def advancedFresh : AdvancedTrackingSystem (Nat → ℚ) Unit :=
  AdvancedTrackingSystem.initialize (AdvancedTrackingSystem.new (Nat → ℚ) Unit)

/-- An image of 1000 by 1000 pixels. -/
def sampleImage : Frame Unit := ⟨1000, 1000, some ()⟩

/-- A detection that contains `frame1Detection` and is larger. -/
def grownDetection : Detection := ⟨⟨5, 5, 60, 60⟩, 9 / 10, 2, "car"⟩

/-- Two detections of the same class and size, far from each other. -/
def twinDetections : List Detection :=
  [⟨⟨0, 0, 100, 100⟩, 9 / 10, 2, "car"⟩, ⟨⟨500, 500, 100, 100⟩, 8 / 10, 2, "car"⟩]

/-- The detections of `twinDetections` one frame later, the second one larger. -/
def twinDetectionsLater : List Detection :=
  [⟨⟨0, 0, 100, 100⟩, 9 / 10, 2, "car"⟩, ⟨⟨470, 470, 160, 160⟩, 8 / 10, 2, "car"⟩]

/-- An active track whose bounding box has no area and whose estimated full box has
area 100. -/
def zeroAreaTrack : AdvancedTrackedVehicle :=
  { AdvancedTrackedVehicle.new with
    id := 5
    boundingBox := ⟨5, 5, 0, 0⟩
    estimatedFullBox := ⟨0, 0, 10, 10⟩
    isActive := true }

/-- The track of the fourth end-to-end scenario: estimated full box of area 10000,
current box of area 4000. -/
def scenario4Track : AdvancedTrackedVehicle :=
  { AdvancedTrackedVehicle.new with
    id := 5
    boundingBox := ⟨0, 0, 80, 50⟩
    estimatedFullBox := ⟨0, 0, 100, 100⟩
    isActive := true }

/-- The value `handlePartialOcclusion` computes for `visibilityRatio` (lines 138-145). -/
def ratioOf (track : AdvancedTrackedVehicle) : ℚ :=
  if (track.estimatedFullBox.area : ℚ) > 0 then
    (track.boundingBox.area : ℚ) / (track.estimatedFullBox.area : ℚ)
  else 1

/-- The similarity score of the `i`-th detection, as the loop of
`handleTargetReacquisition` computes it (lines 328-329). -/
def reIdScoreAt {P : Type} (vis : VisionOps P) (track : AdvancedTrackedVehicle)
    (detections : List Detection) (i : Nat) : ℚ :=
  calculateReIdScore vis track.appearanceFeatures
    (extractAppearanceFeatures vis (Frame.noMat P) (detections.getD i default).boundingBox)

/-- The tracker after the first call of the scenario of the lingering track: one
detection in `sampleImage`. -/
def lingeringStart : AdvancedTrackingSystem (Nat → ℚ) Unit :=
  (updateAdvanced simpleKalman simpleVision advancedFresh [frame1Detection] sampleImage).1

/-- The tracker after the first call of the scenario of the revived track: the two
detections `twinDetections` in `sampleImage`. -/
def twinsMerged : AdvancedTrackingSystem (Nat → ℚ) Unit :=
  (updateAdvanced simpleKalman simpleVision advancedFresh twinDetections sampleImage).1

/-- `AdvancedTrackingSystem::setOcclusionThreshold` (lines 412-414). -/
def AdvancedTrackingSystem.setOcclusionThreshold {K P : Type} (s : AdvancedTrackingSystem K P)
    (threshold : ℚ) : AdvancedTrackingSystem K P :=
  { s with occlusionThreshold_ := threshold }

/-- `AdvancedTrackingSystem::setReIdThreshold` (lines 420-422). -/
def AdvancedTrackingSystem.setReIdThreshold {K P : Type} (s : AdvancedTrackingSystem K P)
    (threshold : ℚ) : AdvancedTrackingSystem K P :=
  { s with reIdThreshold_ := threshold }

/-- `AdvancedTrackingSystem::setCameraMotionSensitivity` (lines 432-434). -/
def AdvancedTrackingSystem.setCameraMotionSensitivity {K P : Type}
    (s : AdvancedTrackingSystem K P) (sensitivity : ℚ) : AdvancedTrackingSystem K P :=
  { s with cameraMotionSensitivity_ := sensitivity }

/-- `AdvancedTrackingSystem::setPrimaryTarget` (lines 394-397); the message written to
`std::cout` is omitted. -/
def AdvancedTrackingSystem.setPrimaryTarget {K P : Type} (s : AdvancedTrackingSystem K P)
    (targetId : Int) : AdvancedTrackingSystem K P :=
  { s with primaryTargetId_ := targetId }

/-- Successive calls of `updateVelocityHistory` on a track whose `velocity` takes the
given values in turn, as `updateAdvancedTracks` does frame after frame (lines 94 and
109). -/
def pushVelocities (track : AdvancedTrackedVehicle) (velocities : List (ℚ × ℚ)) :
    AdvancedTrackedVehicle :=
  velocities.foldl (fun t v => updateVelocityHistory { t with velocity := v }) track

/-- A stand-in for the image functions of OpenCV for the fifth end-to-end scenario:
every region has the descriptor `[41/50, 27/50, 9/50, 3/50]`, of Euclidean norm 1, whose
cosine similarity with `[1, 0, 0, 0]` is `41 / 50 = 0.82`. -/
def scenario5Vision : VisionOps Unit where
  hog _ _ := [41 / 50, 27 / 50, 9 / 50, 3 / 50]
  norm d := Rat.sqrt (d.map fun x => x * x).sum
  flow _ _ := []

/-- The primary target of the fifth end-to-end scenario: track 5, which has become
inactive, with the stored descriptor `[1, 0, 0, 0]`. -/
def scenario5Track : AdvancedTrackedVehicle :=
  { AdvancedTrackedVehicle.new with
    id := 5
    boundingBox := ⟨0, 0, 100, 100⟩
    confidence := 9 / 10
    label := "car"
    appearanceFeatures := [1, 0, 0, 0]
    estimatedFullBox := ⟨0, 0, 100, 100⟩
    isActive := false }

/-- The start of the fifth end-to-end scenario: re-identification enabled,
`reIdThreshold_ = 0.7`, the primary target set to track 5, which the basic tracker no
longer holds. -/
def scenario5Start : AdvancedTrackingSystem (Nat → ℚ) Unit :=
  { advancedFresh with
    nextId_ := 6
    advancedTracks_ := [scenario5Track]
    primaryTargetId_ := 5
    previousFrame_ := sampleImage }

/-- The detection of the fifth end-to-end scenario, matched to no track. -/
def scenario5Detection : Detection := ⟨⟨200, 200, 100, 100⟩, 8 / 10, 2, "car"⟩

/-- A tracker whose occlusion threshold is above 1. -/
def strictOcclusion : AdvancedTrackingSystem (Nat → ℚ) Unit :=
  advancedFresh.setOcclusionThreshold 2

/-- Whether the track at position `k` of `advancedTracks_` is active; false beyond the
end of the vector. -/
def activeAt (tracks : List AdvancedTrackedVehicle) (k : Nat) : Bool :=
  (tracks.getD k AdvancedTrackedVehicle.new).isActive

/-- The value of `isSimilarVehicle` on the tracks at positions `i` and `j` of
`advancedTracks_`. -/
def similarAt {P : Type} (vis : VisionOps P) (tracks : List AdvancedTrackedVehicle)
    (i j : Nat) : Bool :=
  isSimilarVehicle vis (tracks.getD i AdvancedTrackedVehicle.new)
    (tracks.getD j AdvancedTrackedVehicle.new)

/-- The second vector holds the tracks of the first one, some of them deactivated. -/
def Shrinks (tracks tracks' : List AdvancedTrackedVehicle) : Prop :=
  ∀ k, tracks'.getD k AdvancedTrackedVehicle.new = tracks.getD k AdvancedTrackedVehicle.new ∨
    tracks'.getD k AdvancedTrackedVehicle.new =
      { tracks.getD k AdvancedTrackedVehicle.new with isActive := false }

/-- Two active tracks with the same class, size, descriptor and confidence. -/
def tiedPair : List AdvancedTrackedVehicle :=
  [{ AdvancedTrackedVehicle.new with
      id := 0, boundingBox := ⟨0, 0, 100, 100⟩, confidence := 8 / 10, label := "car"
      appearanceFeatures := [3, 4], isActive := true },
    { AdvancedTrackedVehicle.new with
      id := 1, boundingBox := ⟨500, 500, 100, 100⟩, confidence := 8 / 10, label := "car"
      appearanceFeatures := [3, 4], isActive := true }]

/-- Three active tracks: two cars with the same size and descriptor, the first one more
confident, and a truck. -/
def mixedTriple : List AdvancedTrackedVehicle :=
  [{ AdvancedTrackedVehicle.new with
      id := 0, boundingBox := ⟨0, 0, 100, 100⟩, confidence := 9 / 10, label := "car"
      appearanceFeatures := [3, 4], isActive := true },
    { AdvancedTrackedVehicle.new with
      id := 1, boundingBox := ⟨500, 500, 100, 100⟩, confidence := 8 / 10, label := "car"
      appearanceFeatures := [3, 4], isActive := true },
    { AdvancedTrackedVehicle.new with
      id := 2, boundingBox := ⟨300, 300, 100, 100⟩, confidence := 7 / 10, label := "truck"
      appearanceFeatures := [3, 4], isActive := true }]

/-- A tracker with the constructor's parameters that stores two active tracks; the
first one overlaps both detections of `tieDetections`. -/
def tieStart : TrackingSystem (Nat → ℚ) :=
  { tracks_ :=
      [newTrack simpleKalman 0 ⟨⟨100, 100, 120, 90⟩, 9 / 10, 2, "car"⟩,
        newTrack simpleKalman 1 ⟨⟨96, 112, 109, 119⟩, 9 / 10, 2, "car"⟩]
    nextId_ := 2, maxAge_ := 30, minHits_ := 3, iouThreshold_ := 5033165 / 16777216 }

/-- Two detections whose IoU with the box `(100, 100, 120, 90)` are `7821 / 14879` and
`8190 / 15581`: the second quotient is the larger one, and both round to the same
`float`. -/
def tieDetections : List Detection :=
  [⟨⟨121, 111, 100, 119⟩, 9 / 10, 2, "car"⟩, ⟨⟨96, 112, 109, 119⟩, 9 / 10, 2, "car"⟩]

/-- A tracker with the constructor's parameters that stores one active track, of box
`(0, 0, 3839, 2147)`. -/
def borderlineStart : TrackingSystem (Nat → ℚ) :=
  { tracks_ := [newTrack simpleKalman 0 ⟨⟨0, 0, 3839, 2147⟩, 9 / 10, 2, "car"⟩]
    nextId_ := 1, maxAge_ := 30, minHits_ := 3, iouThreshold_ := 5033165 / 16777216 }

/-- Two detections of the same box, whose IoU with the box `(0, 0, 3839, 2147)` is
`2472700 / 8242333`: above `0.3f`, and rounded to `0.3f`. -/
def borderlineDetections : List Detection :=
  [⟨⟨0, 0, 1252, 1975⟩, 9 / 10, 2, "car"⟩, ⟨⟨0, 0, 1252, 1975⟩, 8 / 10, 2, "car"⟩]

/-! ## The arithmetic of `float` -/

section FloatArithmetic

theorem log2Fuel_spec : ∀ (fuel n : Nat), n ≤ fuel → 1 ≤ n →
    2 ^ log2Fuel fuel n ≤ n ∧ n < 2 ^ (log2Fuel fuel n + 1)
  | 0, n, h, h1 => by omega
  | fuel + 1, n, h, h1 => by
    unfold log2Fuel
    split_ifs with h2
    · constructor
      · simpa using h1
      · simpa using h2
    · have ih := log2Fuel_spec fuel (n / 2) (by omega) (by omega)
      obtain ⟨ih1, ih2⟩ := ih
      rw [pow_succ] at ih2 ⊢
      rw [pow_succ (2 : Nat) (log2Fuel fuel (n / 2) + 1), pow_succ]
      constructor <;> omega

theorem natLog2_spec (n : Nat) (h : 1 ≤ n) : 2 ^ natLog2 n ≤ n ∧ n < 2 ^ (natLog2 n + 1) :=
  log2Fuel_spec n n (le_refl n) h

theorem floorLog2_spec (q : ℚ) (hq : 0 < q) :
    (2 : ℚ) ^ floorLog2 q ≤ q ∧ q < 2 ^ (floorLog2 q + 1) := by
  have hnum : 0 < q.num := Rat.num_pos.mpr hq
  have hn1 : 1 ≤ q.num.natAbs := by omega
  have hd1 : 1 ≤ q.den := q.den_pos
  obtain ⟨ha1, ha2⟩ := natLog2_spec q.num.natAbs hn1
  obtain ⟨hb1, hb2⟩ := natLog2_spec q.den hd1
  have hqeq : q = (q.num.natAbs : ℚ) / (q.den : ℚ) := by
    have h2 : (q.num.natAbs : ℚ) = (q.num : ℚ) := by
      rw [Nat.cast_natAbs, abs_of_pos hnum]
    rw [h2]
    exact (Rat.num_div_den q).symm
  set n := q.num.natAbs with hn
  set d := q.den with hd
  set a := natLog2 n with ha
  set b := natLog2 d with hb
  have hA1 : ((2 : ℚ) ^ a) ≤ (n : ℚ) := by exact_mod_cast ha1
  have hA2 : (n : ℚ) < 2 * (2 : ℚ) ^ a := by
    have : (n : ℚ) < (2 : ℚ) ^ (a + 1) := by exact_mod_cast ha2
    rw [pow_succ] at this; linarith
  have hB1 : ((2 : ℚ) ^ b) ≤ (d : ℚ) := by exact_mod_cast hb1
  have hB2 : (d : ℚ) < 2 * (2 : ℚ) ^ b := by
    have : (d : ℚ) < (2 : ℚ) ^ (b + 1) := by exact_mod_cast hb2
    rw [pow_succ] at this; linarith
  have hApos : (0 : ℚ) < 2 ^ a := by positivity
  have hBpos : (0 : ℚ) < 2 ^ b := by positivity
  have hdpos : (0 : ℚ) < (d : ℚ) := by exact_mod_cast hd1
  have hk : (2 : ℚ) ^ ((a : Int) - (b : Int)) = 2 ^ a / 2 ^ b := by
    rw [zpow_sub₀ (two_ne_zero), zpow_natCast, zpow_natCast]
  have hk1 : (2 : ℚ) ^ ((a : Int) - (b : Int) + 1) = 2 * (2 ^ a / 2 ^ b) := by
    rw [zpow_add_one₀ (two_ne_zero), hk]; ring
  have hk0 : (2 : ℚ) ^ ((a : Int) - (b : Int) - 1) = (2 ^ a / 2 ^ b) / 2 := by
    rw [zpow_sub_one₀ (two_ne_zero), hk]; ring
  have hlow : (2 ^ a / 2 ^ b : ℚ) / 2 ≤ q := by
    rw [hqeq, div_div, div_le_div_iff₀ (by positivity) hdpos]
    nlinarith
  have hhigh : q < 2 * (2 ^ a / 2 ^ b : ℚ) := by
    rw [hqeq, ← mul_div_assoc, div_lt_div_iff₀ hdpos hBpos]
    nlinarith
  unfold floorLog2
  simp only
  rw [abs_of_pos hq]
  split_ifs with hc
  · refine ⟨?_, ?_⟩
    · rw [hk0]; exact hlow
    · rw [sub_add_cancel]; exact hc
  · refine ⟨not_lt.mp hc, ?_⟩
    rw [hk1]; exact hhigh

theorem floorLog2_mono (q r : ℚ) (hq : 0 < q) (h : q ≤ r) : floorLog2 q ≤ floorLog2 r := by
  by_contra hcon
  push_neg at hcon
  have h1 := (floorLog2_spec q hq).1
  have h2 := (floorLog2_spec r (lt_of_lt_of_le hq h)).2
  have h3 : (2 : ℚ) ^ (floorLog2 r + 1) ≤ 2 ^ floorLog2 q :=
    zpow_le_zpow_right₀ (by norm_num) (by omega)
  linarith

theorem roundHalfEven_bounds (x : ℚ) : ⌊x⌋ ≤ roundHalfEven x ∧ roundHalfEven x ≤ ⌊x⌋ + 1 := by
  unfold roundHalfEven
  simp only
  split_ifs <;> constructor <;> omega

theorem roundHalfEven_mono (x y : ℚ) (h : x ≤ y) : roundHalfEven x ≤ roundHalfEven y := by
  have hf : ⌊x⌋ ≤ ⌊y⌋ := Int.floor_mono h
  rcases hf.lt_or_eq with hlt | heq
  · have h1 := (roundHalfEven_bounds x).2
    have h2 := (roundHalfEven_bounds y).1
    omega
  · unfold roundHalfEven
    simp only
    rw [← heq]
    have hr : x - (⌊x⌋ : ℚ) ≤ y - (⌊x⌋ : ℚ) := by linarith
    split_ifs <;> first | omega | (exfalso; linarith)

theorem roundHalfEven_intCast (n : Int) : roundHalfEven (n : ℚ) = n := by
  unfold roundHalfEven
  simp only [Int.floor_intCast, sub_self]
  norm_num

theorem roundAt_mono (e : Int) (q r : ℚ) (h : q ≤ r) : roundAt e q ≤ roundAt e r := by
  unfold roundAt
  have hpos : (0 : ℚ) < 2 ^ e := by positivity
  have hdiv : q / 2 ^ e ≤ r / 2 ^ e := div_le_div_of_nonneg_right h (le_of_lt hpos)
  have := roundHalfEven_mono _ _ hdiv
  have hc : (roundHalfEven (q / 2 ^ e) : ℚ) ≤ (roundHalfEven (r / 2 ^ e) : ℚ) := by
    exact_mod_cast this
  exact mul_le_mul_of_nonneg_right hc (le_of_lt hpos)

theorem roundAt_multiple (e m : Int) : roundAt e ((m : ℚ) * 2 ^ e) = (m : ℚ) * 2 ^ e := by
  unfold roundAt
  have hne : (2 : ℚ) ^ e ≠ 0 := by positivity
  rw [mul_div_assoc, div_self hne, mul_one, roundHalfEven_intCast]

theorem roundAt_zpow (e E : Int) (h : e ≤ E) : roundAt e ((2 : ℚ) ^ E) = 2 ^ E := by
  have hE : (2 : ℚ) ^ E = (((2 : Int) ^ (E - e).toNat : Int) : ℚ) * 2 ^ e := by
    push_cast
    rw [← zpow_natCast, Int.toNat_of_nonneg (by omega), ← zpow_add₀ (two_ne_zero)]
    congr 1
    ring
  rw [hE]
  exact roundAt_multiple e _

theorem roundNearestEven_zero : roundNearestEven 0 = 0 := by
  unfold roundNearestEven roundAt
  rw [zero_div]
  have : roundHalfEven 0 = 0 := roundHalfEven_intCast 0
  rw [this]
  simp

theorem roundNearestEven_nonneg (q : ℚ) (h : 0 ≤ q) : 0 ≤ roundNearestEven q := by
  unfold roundNearestEven roundAt
  have hpos : (0 : ℚ) < 2 ^ ulpExponent q := by positivity
  have h1 : 0 ≤ q / 2 ^ ulpExponent q := div_nonneg h (le_of_lt hpos)
  have h2 : (0 : Int) ≤ ⌊q / 2 ^ ulpExponent q⌋ := Int.floor_nonneg.mpr h1
  have h3 := (roundHalfEven_bounds (q / 2 ^ ulpExponent q)).1
  have h4 : (0 : ℚ) ≤ (roundHalfEven (q / 2 ^ ulpExponent q) : ℚ) := by
    exact_mod_cast le_trans h2 h3
  exact mul_nonneg h4 (le_of_lt hpos)

/-- Rounding to binary32 is monotone on the non-negative rationals. -/
theorem roundNearestEven_mono (q r : ℚ) (hq : 0 ≤ q) (h : q ≤ r) :
    roundNearestEven q ≤ roundNearestEven r := by
  rcases hq.lt_or_eq with hpos | hzero
  · have hfl := floorLog2_mono q r hpos h
    have hrpos : 0 < r := lt_of_lt_of_le hpos h
    have he : ulpExponent q ≤ ulpExponent r := by
      unfold ulpExponent
      exact max_le_max (by omega) (le_refl _)
    unfold roundNearestEven
    rcases he.lt_or_eq with hlt | heq
    · have hq149 : -149 ≤ ulpExponent q := le_max_right _ _
      have hqfl : floorLog2 q - 23 ≤ ulpExponent q := le_max_left _ _
      have her : ulpExponent r = floorLog2 r - 23 := by
        unfold ulpExponent at hlt hq149 ⊢
        rcases max_cases (floorLog2 r - 23) (-149) with ⟨h1, _⟩ | ⟨h1, _⟩
        · exact h1
        · rw [h1] at hlt; omega
      have hB1 : (2 : ℚ) ^ (ulpExponent r + 23) ≤ r := by
        rw [her, sub_add_cancel]; exact (floorLog2_spec r hrpos).1
      have hB2 : q ≤ (2 : ℚ) ^ (ulpExponent r + 23) := by
        have h1 := (floorLog2_spec q hpos).2
        have h2 : (2 : ℚ) ^ (floorLog2 q + 1) ≤ 2 ^ (ulpExponent r + 23) :=
          zpow_le_zpow_right₀ (by norm_num) (by omega)
        linarith
      calc roundAt (ulpExponent q) q
          ≤ roundAt (ulpExponent q) ((2 : ℚ) ^ (ulpExponent r + 23)) :=
            roundAt_mono _ _ _ hB2
        _ = (2 : ℚ) ^ (ulpExponent r + 23) := roundAt_zpow _ _ (by omega)
        _ = roundAt (ulpExponent r) ((2 : ℚ) ^ (ulpExponent r + 23)) :=
            (roundAt_zpow _ _ (by omega)).symm
        _ ≤ roundAt (ulpExponent r) r := roundAt_mono _ _ _ hB1
    · rw [heq]
      exact roundAt_mono _ _ _ h
  · rw [← hzero, roundNearestEven_zero]
    exact roundNearestEven_nonneg r (hzero ▸ h)

theorem roundNearestEven_one : roundNearestEven 1 = 1 := by decide!

theorem roundNearestEven_le_one (q : ℚ) (h0 : 0 ≤ q) (h1 : q ≤ 1) :
    roundNearestEven q ≤ 1 := by
  have := roundNearestEven_mono q 1 h0 h1
  rwa [roundNearestEven_one] at this

theorem one_le_roundNearestEven (q : ℚ) (h1 : 1 ≤ q) : 1 ≤ roundNearestEven q := by
  have := roundNearestEven_mono 1 q (by norm_num) h1
  rwa [roundNearestEven_one] at this


theorem float_lt_iff (a b : Binary32) : a < b ↔ Binary32.lt a b = true := Iff.rfl

theorem float_le_iff (a b : Binary32) : a ≤ b ↔ Binary32.le a b = true := Iff.rfl

theorem finite_lt_finite (a b : ℚ) : Binary32.finite a < Binary32.finite b ↔ a < b := by
  simp [float_lt_iff, Binary32.lt]

theorem finite_le_finite (a b : ℚ) : Binary32.finite a ≤ Binary32.finite b ↔ a ≤ b := by
  simp [float_le_iff, Binary32.le]

theorem float_lt_irrefl (a : Binary32) : ¬ a < a := by
  cases a <;> simp [float_lt_iff, Binary32.lt]

theorem float_lt_trans {a b c : Binary32} (h1 : a < b) (h2 : b < c) : a < c := by
  cases a <;> cases b <;> cases c <;> simp_all [float_lt_iff, Binary32.lt]
  exact lt_trans h1 h2

theorem float_lt_of_lt_of_le {a b c : Binary32} (h1 : a < b) (h2 : b ≤ c) : a < c := by
  cases a <;> cases b <;> cases c <;>
    simp_all [float_lt_iff, float_le_iff, Binary32.lt, Binary32.le]
  exact lt_of_lt_of_le h1 h2

theorem float_le_of_lt {a b : Binary32} (h : a < b) : a ≤ b := by
  cases a <;> cases b <;> simp_all [float_lt_iff, float_le_iff, Binary32.lt, Binary32.le]
  exact le_of_lt h

theorem float_ne_nan_of_lt {a b : Binary32} (h : a < b) :
    a ≠ Binary32.nan ∧ b ≠ Binary32.nan := by
  cases a <;> cases b <;> simp_all [float_lt_iff, Binary32.lt]

theorem float_le_of_not_lt {a b : Binary32} (ha : a ≠ Binary32.nan) (hb : b ≠ Binary32.nan)
    (h : ¬ a < b) : b ≤ a := by
  cases a <;> cases b <;> simp_all [float_lt_iff, float_le_iff, Binary32.lt, Binary32.le]

theorem roundToFloat_unit (q : ℚ) (h0 : 0 ≤ q) (h1 : q ≤ 1) :
    roundToFloat q = Binary32.finite (roundNearestEven q) := by
  have hle := roundNearestEven_le_one q h0 h1
  have hge := roundNearestEven_nonneg q h0
  unfold roundToFloat
  simp only
  rw [if_neg (by norm_num; linarith), if_neg (by norm_num; linarith)]

theorem roundToFloat_zero : roundToFloat 0 = Binary32.finite 0 := by
  rw [roundToFloat_unit 0 (le_refl _) (by norm_num), roundNearestEven_zero]

theorem roundToFloat_one : roundToFloat 1 = Binary32.finite 1 := by
  rw [roundToFloat_unit 1 (by norm_num) (le_refl _), roundNearestEven_one]

/-- An integer below `2 ^ 24` is a `float`: its conversion is exact. -/
theorem intToFloat_small (n : Int) (h0 : 0 ≤ n) (h1 : n < 2 ^ 24) : intToFloat n = n := by
  unfold intToFloat
  rcases h0.lt_or_eq with hpos | hzero
  · have hq : (0 : ℚ) < (n : ℚ) := by exact_mod_cast hpos
    have hlt : (n : ℚ) < 2 ^ (24 : Int) := by
      have h24 : (2 : ℚ) ^ (24 : Int) = ((2 ^ 24 : Int) : ℚ) := by norm_num
      rw [h24]
      exact_mod_cast h1
    have hfl : floorLog2 (n : ℚ) < 24 := by
      by_contra hcon
      push_neg at hcon
      have h2 : (2 : ℚ) ^ (24 : Int) ≤ 2 ^ floorLog2 (n : ℚ) :=
        zpow_le_zpow_right₀ (by norm_num) hcon
      have h3 := (floorLog2_spec (n : ℚ) hq).1
      linarith
    have he : ulpExponent (n : ℚ) ≤ 0 := by
      unfold ulpExponent
      exact max_le (by omega) (by norm_num)
    have hm : (n : ℚ) =
        ((n * 2 ^ (-ulpExponent (n : ℚ)).toNat : Int) : ℚ) * 2 ^ ulpExponent (n : ℚ) := by
      push_cast
      rw [mul_assoc, ← zpow_natCast, Int.toNat_of_nonneg (by omega),
        ← zpow_add₀ (two_ne_zero), neg_add_cancel, zpow_zero, mul_one]
    have hfix := roundAt_multiple (ulpExponent (n : ℚ))
      (n * 2 ^ (-ulpExponent (n : ℚ)).toNat)
    rw [← hm] at hfix
    exact hfix
  · rw [← hzero]
    simpa using roundNearestEven_zero



variable (a b : Rect)

/-- The facts on the integers of `calculateIoU` once the test of line 254 has failed. -/
theorem intersection_facts
    (hx : max a.x b.x ≤ min (a.x + a.width) (b.x + b.width))
    (hy : max a.y b.y ≤ min (a.y + a.height) (b.y + b.height)) :
    let inter := (min (a.x + a.width) (b.x + b.width) - max a.x b.x) *
      (min (a.y + a.height) (b.y + b.height) - max a.y b.y)
    0 ≤ inter ∧ inter ≤ a.width * a.height ∧ inter ≤ b.width * b.height ∧
    0 ≤ a.width ∧ 0 ≤ a.height ∧ 0 ≤ b.width ∧ 0 ≤ b.height ∧
    (0 < inter → 0 < b.width ∧ 0 < b.height) := by
  intro inter
  set x1 := max a.x b.x with hx1
  set y1 := max a.y b.y with hy1
  set x2 := min (a.x + a.width) (b.x + b.width) with hx2
  set y2 := min (a.y + a.height) (b.y + b.height) with hy2
  have hxa : x2 - x1 ≤ a.width := by
    have := min_le_left (a.x + a.width) (b.x + b.width)
    have := le_max_left a.x b.x
    omega
  have hxb : x2 - x1 ≤ b.width := by
    have := min_le_right (a.x + a.width) (b.x + b.width)
    have := le_max_right a.x b.x
    omega
  have hya : y2 - y1 ≤ a.height := by
    have := min_le_left (a.y + a.height) (b.y + b.height)
    have := le_max_left a.y b.y
    omega
  have hyb : y2 - y1 ≤ b.height := by
    have := min_le_right (a.y + a.height) (b.y + b.height)
    have := le_max_right a.y b.y
    omega
  have hdx : 0 ≤ x2 - x1 := by omega
  have hdy : 0 ≤ y2 - y1 := by omega
  refine ⟨mul_nonneg hdx hdy, mul_le_mul hxa hya hdy (by omega),
    mul_le_mul hxb hyb hdy (by omega), by omega, by omega, by omega, by omega, fun hpos => ?_⟩
  have hdx' : 0 < x2 - x1 := by
    rcases hdx.lt_or_eq with h1 | h1
    · exact h1
    · have : inter = 0 := by show (x2 - x1) * (y2 - y1) = 0; rw [← h1]; simp
      omega
  have hdy' : 0 < y2 - y1 := by
    rcases hdy.lt_or_eq with h1 | h1
    · exact h1
    · have : inter = 0 := by show (x2 - x1) * (y2 - y1) = 0; rw [← h1]; simp
      omega
  exact ⟨by omega, by omega⟩

/-- The value `calculateIoU` returns when the test of line 254 has failed and the
intersection is not empty: the quotient of the two converted areas, rounded, which is at
most 1. -/
theorem floatDiv_areas (inter union : Int) (h0 : 0 < inter) (h1 : inter ≤ union) :
    floatDiv (intToFloat inter) (intToFloat union) =
      Binary32.finite (roundNearestEven (intToFloat inter / intToFloat union)) ∧
    roundNearestEven (intToFloat inter / intToFloat union) ≤ 1 ∧
    0 < intToFloat inter := by
  have hi1 : (1 : ℚ) ≤ (inter : ℚ) := by exact_mod_cast h0
  have hiu : (inter : ℚ) ≤ (union : ℚ) := by exact_mod_cast h1
  have hfi : 1 ≤ intToFloat inter := one_le_roundNearestEven _ hi1
  have hfu : intToFloat inter ≤ intToFloat union :=
    roundNearestEven_mono _ _ (by linarith) hiu
  have hupos : 0 < intToFloat union := by linarith
  have hq0 : 0 ≤ intToFloat inter / intToFloat union :=
    div_nonneg (by linarith) (le_of_lt hupos)
  have hq1 : intToFloat inter / intToFloat union ≤ 1 := (div_le_one hupos).mpr hfu
  refine ⟨?_, roundNearestEven_le_one _ hq0 hq1, by linarith⟩
  unfold floatDiv
  rw [if_neg (ne_of_gt hupos)]
  exact roundToFloat_unit _ hq0 hq1

theorem floatDiv_zero_left (x : ℚ) :
    floatDiv 0 x = Binary32.nan ∨ floatDiv 0 x = Binary32.finite 0 := by
  unfold floatDiv
  by_cases h : x = 0
  · left; rw [if_pos h, if_pos rfl]
  · right; rw [if_neg h, zero_div, roundToFloat_zero]

/-- A positive IoU is at most 1 and needs a second box of positive width and height. -/
theorem calculateIoUFloat_pos (h : Binary32.finite 0 < calculateIoUFloat a b) :
    0 < b.width ∧ 0 < b.height ∧ calculateIoUFloat a b ≤ Binary32.finite 1 := by
  unfold calculateIoUFloat at h ⊢
  simp only at h ⊢
  by_cases hc : min (a.x + a.width) (b.x + b.width) < max a.x b.x ∨
      min (a.y + a.height) (b.y + b.height) < max a.y b.y
  · rw [if_pos hc] at h; exact absurd h (float_lt_irrefl _)
  · rw [if_neg hc] at h ⊢
    push_neg at hc
    obtain ⟨h0, hia, hib, -, -, -, -, hdim⟩ := intersection_facts a b hc.1 hc.2
    rcases h0.lt_or_eq with hpos | hzero
    · obtain ⟨hw, hh⟩ := hdim hpos
      obtain ⟨hval, hle, -⟩ := floatDiv_areas _
        (a.width * a.height + b.width * b.height -
          (min (a.x + a.width) (b.x + b.width) - max a.x b.x) *
            (min (a.y + a.height) (b.y + b.height) - max a.y b.y)) hpos (by omega)
      refine ⟨hw, hh, ?_⟩
      rw [hval, finite_le_finite]
      exact hle
    · rw [← hzero] at h
      have hz : intToFloat 0 = 0 := by
        unfold intToFloat; simpa using roundNearestEven_zero
      rw [hz] at h
      rcases floatDiv_zero_left (intToFloat (a.width * a.height + b.width * b.height - 0))
        with h' | h'
      · rw [h'] at h; exact absurd h (by decide)
      · rw [h'] at h; exact absurd h (float_lt_irrefl _)

/-- The IoU of a box of positive width and height with itself is 1. -/
theorem calculateIoUFloat_self (hw : 0 < b.width) (hh : 0 < b.height) :
    calculateIoUFloat b b = Binary32.finite 1 := by
  unfold calculateIoUFloat
  simp only [max_self, min_self]
  rw [if_neg (by omega)]
  have hpos : 0 < b.width * b.height := mul_pos hw hh
  have e1 : (b.x + b.width - b.x) * (b.y + b.height - b.y) = b.width * b.height := by ring
  rw [e1]
  have e2 : b.width * b.height + b.width * b.height - b.width * b.height =
      b.width * b.height := by ring
  rw [e2]
  obtain ⟨hval, -, hfpos⟩ := floatDiv_areas _ _ hpos (le_refl _)
  rw [hval, div_self (ne_of_gt hfpos), roundNearestEven_one]

/-- For two boxes of non-negative width and height whose areas sum to less than
`2 ^ 24`, not both of area 0, the value `calculateIoU` returns is the exact quotient
rounded once to `float`. -/
theorem calculateIoUFloat_eq_round (ha : 0 ≤ a.width ∧ 0 ≤ a.height)
    (hb : 0 ≤ b.width ∧ 0 ≤ b.height)
    (hpos : 0 < a.width * a.height + b.width * b.height)
    (hsmall : a.width * a.height + b.width * b.height < 2 ^ 24) :
    calculateIoUFloat a b = roundToFloat (calculateIoU a b) := by
  unfold calculateIoUFloat calculateIoU
  simp only
  by_cases hc : min (a.x + a.width) (b.x + b.width) < max a.x b.x ∨
      min (a.y + a.height) (b.y + b.height) < max a.y b.y
  · rw [if_pos hc, if_pos hc, roundToFloat_zero]
  · rw [if_neg hc, if_neg hc]
    push_neg at hc
    obtain ⟨h0, hia, hib, -⟩ := intersection_facts a b hc.1 hc.2
    have ha0 : 0 ≤ a.width * a.height := mul_nonneg ha.1 ha.2
    have hb0 : 0 ≤ b.width * b.height := mul_nonneg hb.1 hb.2
    rw [intToFloat_small _ h0 (by omega), intToFloat_small _ (by omega) (by omega)]
    unfold floatDiv
    have hu : (0 : Int) < a.width * a.height + b.width * b.height -
        (min (a.x + a.width) (b.x + b.width) - max a.x b.x) *
          (min (a.y + a.height) (b.y + b.height) - max a.y b.y) := by omega
    have hu' : ((a.width * a.height + b.width * b.height -
        (min (a.x + a.width) (b.x + b.width) - max a.x b.x) *
          (min (a.y + a.height) (b.y + b.height) - max a.y b.y) : Int) : ℚ) ≠ 0 := by
      exact_mod_cast ne_of_gt hu
    rw [if_neg hu']


/-- The literal `0.3f`: the `float` nearest to `3 / 10`. -/
theorem float_three_tenths :
    roundToFloat (3 / 10) = Binary32.finite (5033165 / 16777216) := by
  decide!

end FloatArithmetic

/-! ## The inner loop of `updateTracks` -/

section Scan

variable (thr : ℚ) (box : Rect) (dets : List Detection) (m : List Bool)

theorem scan_succ (n : Nat) :
    scanDetections thr box dets m (n + 1) =
      if m.getD n false = true then scanDetections thr box dets m n
      else if iouAt box dets n > (scanDetections thr box dets m n).1 ∧
          iouAt box dets n > Binary32.finite thr
        then (iouAt box dets n, some n)
        else scanDetections thr box dets m n := rfl

theorem scan_inv (n : Nat) :
    ((scanDetections thr box dets m n).2 = none →
        (scanDetections thr box dets m n).1 = Binary32.finite 0 ∧
        ∀ k < n, m.getD k false = false →
          ¬ (iouAt box dets k > Binary32.finite 0 ∧ iouAt box dets k > Binary32.finite thr)) ∧
    (∀ j, (scanDetections thr box dets m n).2 = some j →
        j < n ∧ m.getD j false = false ∧ (scanDetections thr box dets m n).1 = iouAt box dets j ∧
        iouAt box dets j > Binary32.finite 0 ∧ iouAt box dets j > Binary32.finite thr ∧
        ∀ k < n, m.getD k false = false →
          ¬ (iouAt box dets j < iouAt box dets k) ∧
          (k < j → ¬ (iouAt box dets j ≤ iouAt box dets k))) := by
  induction n with
  | zero => simp [scanDetections]
  | succ n ih =>
    obtain ⟨ihN, ihS⟩ := ih
    rw [scan_succ]
    split_ifs with hm hc
    · -- the detection is already matched: the state is unchanged
      refine ⟨fun h => ⟨(ihN h).1, fun k hk hk' => ?_⟩, fun j h => ?_⟩
      · rcases Nat.lt_succ_iff_lt_or_eq.mp hk with hlt | rfl
        · exact (ihN h).2 k hlt hk'
        · rw [hm] at hk'; exact absurd hk' (by decide)
      · obtain ⟨h1, h2, h3, h4, h5, h6⟩ := ihS j h
        refine ⟨Nat.lt_succ_of_lt h1, h2, h3, h4, h5, fun k hk hk' => ?_⟩
        rcases Nat.lt_succ_iff_lt_or_eq.mp hk with hlt | rfl
        · exact h6 k hlt hk'
        · rw [hm] at hk'; exact absurd hk' (by decide)
    · -- the detection becomes the best one
      have hm' : m.getD n false = false := by simpa using hm
      refine ⟨fun h => by simp at h, fun j h => ?_⟩
      have hj : n = j := by simpa using h
      subst hj
      have hbest : ∀ k < n, m.getD k false = false →
          ¬ (iouAt box dets n ≤ iouAt box dets k) := by
        intro k hk hk' hcon
        cases hs : (scanDetections thr box dets m n).2 with
        | none =>
          obtain ⟨h0, hno⟩ := ihN hs
          have hnk := hno k hk hk'
          rw [h0] at hc
          exact hnk ⟨float_lt_of_lt_of_le hc.1 hcon, float_lt_of_lt_of_le hc.2 hcon⟩
        | some j' =>
          obtain ⟨_, _, h3, _, _, h6⟩ := ihS j' hs
          rw [h3] at hc
          exact (h6 k hk hk').1 (float_lt_of_lt_of_le hc.1 hcon)
      have hpos : iouAt box dets n > Binary32.finite 0 := by
        cases hs : (scanDetections thr box dets m n).2 with
        | none => rw [(ihN hs).1] at hc; exact hc.1
        | some j' =>
          obtain ⟨_, _, h3, h4, _, _⟩ := ihS j' hs
          rw [h3] at hc
          exact float_lt_trans h4 hc.1
      refine ⟨Nat.lt_succ_self n, hm', rfl, hpos, hc.2, fun k hk hk' => ?_⟩
      rcases Nat.lt_succ_iff_lt_or_eq.mp hk with hlt | rfl
      · exact ⟨fun hcon => hbest k hlt hk' (float_le_of_lt hcon), fun _ => hbest k hlt hk'⟩
      · exact ⟨float_lt_irrefl _, fun h => absurd h (lt_irrefl _)⟩
    · -- the detection does not beat the best one
      refine ⟨fun h => ⟨(ihN h).1, fun k hk hk' => ?_⟩, fun j h => ?_⟩
      · rcases Nat.lt_succ_iff_lt_or_eq.mp hk with hlt | rfl
        · exact (ihN h).2 k hlt hk'
        · rw [(ihN h).1] at hc
          exact hc
      · obtain ⟨h1, h2, h3, h4, h5, h6⟩ := ihS j h
        refine ⟨Nat.lt_succ_of_lt h1, h2, h3, h4, h5, fun k hk hk' => ?_⟩
        rcases Nat.lt_succ_iff_lt_or_eq.mp hk with hlt | rfl
        · exact h6 k hlt hk'
        · rw [h3] at hc
          refine ⟨fun hcon => hc ⟨hcon, float_lt_trans h5 hcon⟩, fun hkj => ?_⟩
          exact absurd hkj (by omega)

/-- The detection chosen by the inner loop of `updateTracks`: the first not yet
matched detection of maximal IoU, when that IoU exceeds both the threshold and 0. The
comparisons are those of `float`: no unmatched detection has a greater IoU, and the IoU
of an earlier unmatched detection is neither greater nor equal (it is smaller, or
NaN). -/
theorem bestDetection_eq_some_iff (j : Nat) :
    bestDetection thr box dets m = some j ↔
      j < dets.length ∧ m.getD j false = false ∧
      iouAt box dets j > Binary32.finite thr ∧ iouAt box dets j > Binary32.finite 0 ∧
      ∀ k < dets.length, m.getD k false = false →
        ¬ (iouAt box dets j < iouAt box dets k) ∧
        (k < j → ¬ (iouAt box dets j ≤ iouAt box dets k)) := by
  obtain ⟨hN, hS⟩ := scan_inv thr box dets m dets.length
  unfold bestDetection
  constructor
  · intro h
    obtain ⟨h1, h2, _, h4, h5, h6⟩ := hS j h
    exact ⟨h1, h2, h5, h4, h6⟩
  · rintro ⟨h1, h2, h3, h4, h5⟩
    cases hs : (scanDetections thr box dets m dets.length).2 with
    | none => exact absurd ⟨h4, h3⟩ ((hN hs).2 j h1 h2)
    | some j' =>
      obtain ⟨g1, g2, _, g4, _, g6⟩ := hS j' hs
      have hnj : iouAt box dets j ≠ Binary32.nan := (float_ne_nan_of_lt h4).2
      have hnj' : iouAt box dets j' ≠ Binary32.nan := (float_ne_nan_of_lt g4).2
      rcases Nat.lt_trichotomy j j' with hlt | heq | hgt
      · exact absurd (float_le_of_not_lt hnj hnj' (h5 j' g1 g2).1) ((g6 j h1 h2).2 hlt)
      · rw [heq]
      · exact absurd (float_le_of_not_lt hnj' hnj (g6 j h1 h2).1) ((h5 j' g1 g2).2 hgt)

theorem bestDetection_eq_none_iff :
    bestDetection thr box dets m = none ↔
      ∀ k < dets.length, m.getD k false = false →
        ¬ (iouAt box dets k > Binary32.finite thr ∧ iouAt box dets k > Binary32.finite 0) := by
  obtain ⟨hN, hS⟩ := scan_inv thr box dets m dets.length
  unfold bestDetection
  constructor
  · intro h k hk hk' hc
    exact (hN h).2 k hk hk' ⟨hc.2, hc.1⟩
  · intro h
    cases hs : (scanDetections thr box dets m dets.length).2 with
    | none => rfl
    | some j =>
      obtain ⟨g1, g2, _, g4, g5, _⟩ := hS j hs
      exact absurd ⟨g5, g4⟩ (h j g1 g2)

end Scan

/-! ## The outer loop of `updateTracks` -/

section Loop

variable {K : Type} (ops : KalmanOps K) (maxAge : Int) (thr : ℚ) (dets : List Detection)

theorem updateTrack_eq (t : TrackedVehicle K) (m : List Bool) :
    updateTrack ops maxAge thr dets t m =
      (if t.isActive = true then applyMatch ops maxAge dets t (matchOf thr dets t m) else t,
        markMatched m (matchOf thr dets t m)) := by
  unfold updateTrack matchOf
  by_cases h : t.isActive = true
  · simp [h]
  · simp [h, markMatched]

theorem loop_flags (ts : List (TrackedVehicle K)) (m : List Bool) :
    (updateTracksLoop ops maxAge thr dets ts m).2 = flagsAfter thr dets ts m := by
  induction ts generalizing m with
  | nil => rfl
  | cons t ts ih =>
    simp only [updateTracksLoop, flagsAfter]
    rw [ih, updateTrack_eq]

theorem flagsAfter_append (a b : List (TrackedVehicle K)) (m : List Bool) :
    flagsAfter thr dets (a ++ b) m = flagsAfter thr dets b (flagsAfter thr dets a m) := by
  induction a generalizing m with
  | nil => rfl
  | cons t a ih =>
    rw [List.cons_append]
    simp only [flagsAfter]
    exact ih _

theorem matchLogFrom_append (a b : List (TrackedVehicle K)) (m : List Bool) :
    matchLogFrom thr dets (a ++ b) m =
      matchLogFrom thr dets a m ++ matchLogFrom thr dets b (flagsAfter thr dets a m) := by
  induction a generalizing m with
  | nil => rfl
  | cons t a ih =>
    rw [List.cons_append]
    simp only [matchLogFrom, flagsAfter, List.cons_append]
    rw [ih]

theorem loop_append (a b : List (TrackedVehicle K)) (m : List Bool) :
    (updateTracksLoop ops maxAge thr dets (a ++ b) m).1 =
      (updateTracksLoop ops maxAge thr dets a m).1 ++
        (updateTracksLoop ops maxAge thr dets b (flagsAfter thr dets a m)).1 := by
  induction a generalizing m with
  | nil => rfl
  | cons t a ih =>
    rw [List.cons_append]
    simp only [updateTracksLoop, flagsAfter, List.cons_append]
    rw [updateTrack_eq, ih]

theorem loop_length (ts : List (TrackedVehicle K)) (m : List Bool) :
    (updateTracksLoop ops maxAge thr dets ts m).1.length = ts.length := by
  induction ts generalizing m with
  | nil => rfl
  | cons t ts ih => simp only [updateTracksLoop, List.length_cons, ih]

theorem matchLogFrom_length (ts : List (TrackedVehicle K)) (m : List Bool) :
    (matchLogFrom thr dets ts m).length = ts.length := by
  induction ts generalizing m with
  | nil => rfl
  | cons t ts ih => simp only [matchLogFrom, List.length_cons, ih]

theorem markMatched_length (m : List Bool) (o : Option Nat) :
    (markMatched m o).length = m.length := by
  cases o <;> simp [markMatched]

theorem flagsAfter_length (ts : List (TrackedVehicle K)) (m : List Bool) :
    (flagsAfter thr dets ts m).length = m.length := by
  induction ts generalizing m with
  | nil => rfl
  | cons t ts ih => simp only [flagsAfter, ih, markMatched_length]

theorem matchOf_eq_some (t : TrackedVehicle K) (m : List Bool) (j : Nat)
    (h : matchOf thr dets t m = some j) :
    t.isActive = true ∧ bestDetection thr t.boundingBox dets m = some j := by
  unfold matchOf at h
  by_cases ha : t.isActive = true
  · rw [if_pos ha] at h; exact ⟨ha, h⟩
  · rw [if_neg ha] at h; exact absurd h (by simp)

theorem markMatched_getD (m : List Bool) (o : Option Nat)
    (ho : ∀ j, o = some j → j < m.length) (k : Nat) :
    (markMatched m o).getD k false = true ↔ m.getD k false = true ∨ o = some k := by
  cases o with
  | none => simp [markMatched]
  | some j =>
    have hj := ho j rfl
    simp only [markMatched, Option.some.injEq]
    by_cases hjk : j = k
    · subst hjk
      simp [List.getD_eq_getElem?_getD, List.getElem?_set, hj]
    · simp [List.getD_eq_getElem?_getD, List.getElem?_set, hjk]

theorem flagsAfter_getD (ts : List (TrackedVehicle K)) (m : List Bool)
    (hlen : m.length = dets.length) (k : Nat) :
    (flagsAfter thr dets ts m).getD k false = true ↔
      m.getD k false = true ∨ some k ∈ matchLogFrom thr dets ts m := by
  induction ts generalizing m with
  | nil => simp [flagsAfter, matchLogFrom]
  | cons t ts ih =>
    simp only [flagsAfter, matchLogFrom, List.mem_cons]
    rw [ih _ (by rw [markMatched_length, hlen]), markMatched_getD]
    · constructor
      · rintro ((h | h) | h)
        · exact Or.inl h
        · exact Or.inr (Or.inl h.symm)
        · exact Or.inr (Or.inr h)
      · rintro (h | h | h)
        · exact Or.inl (Or.inl h)
        · exact Or.inl (Or.inr h.symm)
        · exact Or.inr h
    · intro j hj
      have := (bestDetection_eq_some_iff thr t.boundingBox dets m j).mp
        (matchOf_eq_some thr dets t m j hj).2
      rw [hlen]; exact this.1

/-- The storage split around its `i`-th track. -/
theorem split_at (ts : List (TrackedVehicle K)) (i : Nat) (hi : i < ts.length) :
    ts = ts.take i ++ ts[i] :: ts.drop (i + 1) := by
  rw [← List.drop_eq_getElem_cons hi, List.take_append_drop]

theorem matchLogFrom_getElem? (ts : List (TrackedVehicle K)) (m : List Bool) (i : Nat)
    (hi : i < ts.length) :
    (matchLogFrom thr dets ts m)[i]? =
      some (matchOf thr dets ts[i] (flagsAfter thr dets (ts.take i) m)) := by
  have hlen : (matchLogFrom thr dets (ts.take i) m).length = i := by
    rw [matchLogFrom_length, List.length_take]; omega
  conv_lhs => rw [split_at ts i hi, matchLogFrom_append]
  rw [List.getElem?_append_right (by omega), hlen]
  simp [matchLogFrom]

theorem matchLogFrom_take (ts : List (TrackedVehicle K)) (m : List Bool) (i : Nat) :
    (matchLogFrom thr dets ts m).take i = matchLogFrom thr dets (ts.take i) m := by
  induction ts generalizing m i with
  | nil => simp [matchLogFrom]
  | cons t ts ih =>
    cases i with
    | zero => simp [matchLogFrom]
    | succ i => simp only [matchLogFrom, List.take_succ_cons, ih]

theorem loop_getElem? (ts : List (TrackedVehicle K)) (m : List Bool) (i : Nat)
    (hi : i < ts.length) :
    (updateTracksLoop ops maxAge thr dets ts m).1[i]? =
      some (if ts[i].isActive = true then
        applyMatch ops maxAge dets ts[i]
          (matchOf thr dets ts[i] (flagsAfter thr dets (ts.take i) m))
        else ts[i]) := by
  have hlen : (updateTracksLoop ops maxAge thr dets (ts.take i) m).1.length = i := by
    rw [loop_length, List.length_take]; omega
  conv_lhs => rw [split_at ts i hi, loop_append]
  rw [List.getElem?_append_right (by omega), hlen]
  simp [updateTracksLoop, updateTrack_eq]

end Loop

/-! ## Greedy matching (C1, C2) -/

section Matching

variable {K : Type} (ops : KalmanOps K)

theorem replicate_false_getD (n k : Nat) : (List.replicate n false).getD k false = false := by
  by_cases h : k < n
  · simp [List.getD_eq_getElem?_getD, List.getElem?_replicate, h]
  · simp [List.getD_eq_getElem?_getD, List.getElem?_replicate, h]

/-- A detection is still unmatched when the `i`-th track is reached exactly when no
earlier track chose it. -/
theorem flagsBefore_getD (s : TrackingSystem K) (dets : List Detection) (i k : Nat) :
    (flagsAfter s.iouThreshold_ dets (s.tracks_.take i)
        (List.replicate dets.length false)).getD k false = false ↔
      some k ∉ (matchLog s dets).take i := by
  have h := flagsAfter_getD s.iouThreshold_ dets (s.tracks_.take i)
    (List.replicate dets.length false) (by simp) k
  rw [replicate_false_getD] at h
  rw [matchLog, matchLogFrom_take, ← Bool.not_eq_true, h]
  simp

theorem matchLog_getElem? (s : TrackingSystem K) (dets : List Detection) (i : Nat)
    (hi : i < s.tracks_.length) :
    (matchLog s dets)[i]? =
      some (matchOf s.iouThreshold_ dets s.tracks_[i]
        (flagsAfter s.iouThreshold_ dets (s.tracks_.take i)
          (List.replicate dets.length false))) :=
  matchLogFrom_getElem? s.iouThreshold_ dets s.tracks_ _ i hi

theorem matchLog_length (s : TrackingSystem K) (dets : List Detection) :
    (matchLog s dets).length = s.tracks_.length :=
  matchLogFrom_length s.iouThreshold_ dets s.tracks_ _

/-- What `updateTracks` makes of an active track, in terms of the detection chosen for
it. -/
theorem updateTracks_getElem?_of_active (s : TrackingSystem K) (dets : List Detection)
    (i : Nat) (hi : i < s.tracks_.length) (hact : s.tracks_[i].isActive = true) :
    (updateTracks ops s dets).tracks_[i]? =
      some (applyMatch ops s.maxAge_ dets s.tracks_[i] ((matchLog s dets).getD i none)) := by
  have hout := loop_getElem? ops s.maxAge_ s.iouThreshold_ dets s.tracks_
    (List.replicate dets.length false) i hi
  rw [if_pos hact] at hout
  have hget : (matchLog s dets).getD i none =
      matchOf s.iouThreshold_ dets s.tracks_[i]
        (flagsAfter s.iouThreshold_ dets (s.tracks_.take i)
          (List.replicate dets.length false)) := by
    rw [List.getD_eq_getElem?_getD, matchLog_getElem? s dets i hi]; rfl
  rw [hget]
  exact hout

/-- C1: in `updateTracks`, an active track taken in storage order is updated with the
detection its scan chose, and that detection is the lowest-index one, among the
detections no earlier track chose in this frame, whose IoU with the track's box is
maximal, provided that IoU exceeds `iouThreshold_` and 0; the track is left unmatched
exactly when no such detection exceeds both. The IoU is the `float` that `calculateIoU`
returns and the comparisons are those of `float`: maximal means that no free detection
has a greater IoU, and lowest-index that the IoU of an earlier free detection is neither
greater nor equal (it is smaller, or NaN). -/
theorem updateTracks_greedy_best_match (s : TrackingSystem K) (dets : List Detection)
    (i : Nat) (hi : i < s.tracks_.length) (hact : s.tracks_[i].isActive = true) :
    let box := s.tracks_[i].boundingBox
    let free := fun k => k < dets.length ∧ some k ∉ (matchLog s dets).take i
    (updateTracks ops s dets).tracks_[i]? =
        some (applyMatch ops s.maxAge_ dets s.tracks_[i] ((matchLog s dets).getD i none)) ∧
    (∀ j, (matchLog s dets)[i]? = some (some j) ↔
        free j ∧ iouAt box dets j > Binary32.finite s.iouThreshold_ ∧
        iouAt box dets j > Binary32.finite 0 ∧
        ∀ k, free k →
          ¬ (iouAt box dets j < iouAt box dets k) ∧
          (k < j → ¬ (iouAt box dets j ≤ iouAt box dets k))) ∧
    ((matchLog s dets)[i]? = some none ↔
        ∀ k, free k →
          ¬ (iouAt box dets k > Binary32.finite s.iouThreshold_ ∧
            iouAt box dets k > Binary32.finite 0)) := by
  intro box free
  have hlog := matchLog_getElem? s dets i hi
  have hof : matchOf s.iouThreshold_ dets s.tracks_[i]
      (flagsAfter s.iouThreshold_ dets (s.tracks_.take i) (List.replicate dets.length false)) =
      bestDetection s.iouThreshold_ box dets
        (flagsAfter s.iouThreshold_ dets (s.tracks_.take i)
          (List.replicate dets.length false)) := by
    unfold matchOf; rw [if_pos hact]
  refine ⟨?_, fun j => ?_, ?_⟩
  · exact updateTracks_getElem?_of_active ops s dets i hi hact
  · rw [hlog, hof, Option.some.injEq, bestDetection_eq_some_iff]
    constructor
    · rintro ⟨h1, h2, h3, h4, h5⟩
      refine ⟨⟨h1, (flagsBefore_getD s dets i j).mp h2⟩, h3, h4, fun k hk => ?_⟩
      exact h5 k hk.1 ((flagsBefore_getD s dets i k).mpr hk.2)
    · rintro ⟨⟨h1, h2⟩, h3, h4, h5⟩
      refine ⟨h1, (flagsBefore_getD s dets i j).mpr h2, h3, h4, fun k hk hk' => ?_⟩
      exact h5 k ⟨hk, (flagsBefore_getD s dets i k).mp hk'⟩
  · rw [hlog, hof, Option.some.injEq, bestDetection_eq_none_iff]
    constructor
    · intro h k hk
      exact h k hk.1 ((flagsBefore_getD s dets i k).mpr hk.2)
    · intro h k hk hk'
      exact h k ⟨hk, (flagsBefore_getD s dets i k).mp hk'⟩

/-- C2: within one call of `updateTracks` no detection is matched to two tracks: the
map from matched tracks to the index of their detection is injective. -/
theorem updateTracks_match_injective (s : TrackingSystem K) (dets : List Detection)
    (i i' j : Nat) (h : (matchLog s dets)[i]? = some (some j))
    (h' : (matchLog s dets)[i']? = some (some j)) : i = i' := by
  have key : ∀ a b : Nat, a < b → (matchLog s dets)[a]? = some (some j) →
      (matchLog s dets)[b]? = some (some j) → False := by
    intro a b hab ha hb
    have hb' : b < s.tracks_.length := by
      rw [← matchLog_length s dets]
      exact (List.getElem?_eq_some_iff.mp hb).1
    rw [matchLog_getElem? s dets b hb', Option.some.injEq] at hb
    have hbest := (matchOf_eq_some s.iouThreshold_ dets _ _ j hb).2
    have hfree := ((bestDetection_eq_some_iff _ _ _ _ j).mp hbest).2.1
    have hnot := (flagsBefore_getD s dets b j).mp hfree
    apply hnot
    have : ((matchLog s dets).take b)[a]? = some (some j) := by
      rw [List.getElem?_take_of_lt hab]; exact ha
    exact List.getElem?_mem this
  rcases Nat.lt_trichotomy i i' with hlt | heq | hgt
  · exact absurd (key i i' hlt h h') id
  · exact heq
  · exact absurd (key i' i hgt h' h) id

end Matching

/-- C1 at a concrete input: the first track of `tieStart` overlaps both detections of
`tieDetections`; the exact quotient of the second one is the larger, the two values of
`calculateIoU` are the same `float`, and the track is matched to the first detection;
the second track is then matched to the second detection. -/
theorem updateTracks_greedy_best_match_witness :
    0 < tieStart.tracks_.length ∧
    (tieStart.tracks_.getD 0 (TrackedVehicle.new (fun _ => 0))).isActive = true ∧
    calculateIoU ⟨100, 100, 120, 90⟩ ⟨121, 111, 100, 119⟩ <
      calculateIoU ⟨100, 100, 120, 90⟩ ⟨96, 112, 109, 119⟩ ∧
    iouAt ⟨100, 100, 120, 90⟩ tieDetections 0 = Binary32.finite (8818779 / 16777216) ∧
    iouAt ⟨100, 100, 120, 90⟩ tieDetections 1 = Binary32.finite (8818779 / 16777216) ∧
    matchLog tieStart tieDetections = [some 0, some 1] ∧
    ¬ (iouAt ⟨100, 100, 120, 90⟩ tieDetections 0 < iouAt ⟨100, 100, 120, 90⟩ tieDetections 1) :=
  ⟨by decide, by decide, by decide!, by decide!, by decide!, by decide!,
    ((((updateTracks_greedy_best_match simpleKalman tieStart tieDetections 0
      (by decide) (by decide)).2.1 0).mp (by decide!)).2.2.2 1 ⟨by decide, by decide⟩).1⟩

/-- C2 at a concrete input: the only track that is matched to detection 0. -/
theorem updateTracks_match_injective_witness :
    (matchLog afterFrame1 [frame2Detection])[0]? = some (some 0) ∧ (0 : Nat) = 0 :=
  ⟨by decide!,
    updateTracks_match_injective afterFrame1 [frame2Detection] 0 0 0 (by decide!) (by decide!)⟩

/-! ## Track creation (C3) -/

section Creation

variable {K : Type} (ops : KalmanOps K)

theorem overlapsActiveTrack_iff (thr : ℚ) (tracks : List (TrackedVehicle K)) (box : Rect) :
    overlapsActiveTrack thr tracks box = true ↔
      ∃ t ∈ tracks, t.isActive = true ∧
        calculateIoUFloat t.boundingBox box > Binary32.finite thr := by
  simp [overlapsActiveTrack, List.any_eq_true]

/-- Two boxes of area 0 at the same place: `calculateIoU` divides `0.0f` by `0.0f` and
returns NaN, which is greater than no threshold, so that even with the threshold -1 a
detection of such a box does not count as overlapping an active track of the same
box. -/
theorem nan_iou_never_overlaps :
    calculateIoUFloat ⟨5, 5, 0, 0⟩ ⟨5, 5, 0, 0⟩ = Binary32.nan ∧
    overlapsActiveTrack (-1) [newTrack simpleKalman 0 ⟨⟨5, 5, 0, 0⟩, 9 / 10, 2, "car"⟩]
      ⟨5, 5, 0, 0⟩ = false := by
  refine ⟨by decide!, by decide!⟩

theorem createStep_params (s : TrackingSystem K) (d : Detection) :
    (createStep ops s d).iouThreshold_ = s.iouThreshold_ ∧
    (createStep ops s d).maxAge_ = s.maxAge_ ∧ (createStep ops s d).minHits_ = s.minHits_ := by
  unfold createStep
  split <;> exact ⟨rfl, rfl, rfl⟩

theorem createNewTracks_params (s : TrackingSystem K) (dets : List Detection) :
    (createNewTracks ops s dets).iouThreshold_ = s.iouThreshold_ ∧
    (createNewTracks ops s dets).maxAge_ = s.maxAge_ ∧
    (createNewTracks ops s dets).minHits_ = s.minHits_ := by
  induction dets generalizing s with
  | nil => exact ⟨rfl, rfl, rfl⟩
  | cons d ds ih =>
    have h := ih (createStep ops s d)
    have h' := createStep_params ops s d
    simp only [createNewTracks, List.foldl_cons] at h ⊢
    exact ⟨h.1.trans h'.1, h.2.1.trans h'.2.1, h.2.2.trans h'.2.2⟩

theorem createNewTracks_take_succ (s : TrackingSystem K) (dets : List Detection) (i : Nat)
    (hi : i < dets.length) :
    createNewTracks ops s (dets.take (i + 1)) =
      createStep ops (createNewTracks ops s (dets.take i)) dets[i] := by
  unfold createNewTracks
  rw [List.take_succ, List.foldl_append, List.getElem?_eq_getElem hi]
  rfl

/-- C3: in `createNewTracks`, the `i`-th detection of the frame spawns a new track if
and only if no active track held in storage at that moment (tracks created for earlier
detections of the frame included) has IoU strictly greater than `iouThreshold_` with the
detection's box; otherwise the storage is left as it is. The IoU is the `float` that
`calculateIoU` returns, and the comparison is that of `float` (false for NaN). -/
theorem createNewTracks_spawn_iff (s : TrackingSystem K) (dets : List Detection) (i : Nat)
    (hi : i < dets.length) :
    let cur := createNewTracks ops s (dets.take i)
    let next := createNewTracks ops s (dets.take (i + 1))
    let overlap := ∃ t ∈ cur.tracks_,
      t.isActive = true ∧
        calculateIoUFloat t.boundingBox dets[i].boundingBox > Binary32.finite s.iouThreshold_
    (next.tracks_ = cur.tracks_ ++ [newTrack ops cur.nextId_ dets[i]] ↔ ¬ overlap) ∧
    (next.tracks_ = cur.tracks_ ↔ overlap) := by
  intro cur next overlap
  have hnext : next = createStep ops cur dets[i] := createNewTracks_take_succ ops s dets i hi
  have hthr : cur.iouThreshold_ = s.iouThreshold_ :=
    (createNewTracks_params ops s (dets.take i)).1
  have hov : overlapsActiveTrack cur.iouThreshold_ cur.tracks_ dets[i].boundingBox = true ↔
      overlap := by
    rw [overlapsActiveTrack_iff, hthr]
  rw [hnext]
  unfold createStep
  by_cases h : overlapsActiveTrack cur.iouThreshold_ cur.tracks_ dets[i].boundingBox = true
  · rw [if_pos h]
    have ho := hov.mp h
    refine ⟨⟨fun he => ?_, fun hn => absurd ho hn⟩, ⟨fun _ => ho, fun _ => rfl⟩⟩
    have := congrArg List.length he
    simp at this
  · rw [if_neg h]
    have ho : ¬ overlap := fun ho => h (hov.mpr ho)
    refine ⟨⟨fun _ => ho, fun _ => rfl⟩, ⟨fun he => ?_, fun hn => absurd hn ho⟩⟩
    have := congrArg List.length he
    simp at this

end Creation

/-! ## Track ids (C4) -/

section Ids

variable {K : Type} (ops : KalmanOps K)

theorem predictTrack_id (t : TrackedVehicle K) : (predictTrack ops t).id = t.id := by
  unfold predictTrack
  split <;> rfl

theorem applyMatch_id (maxAge : Int) (dets : List Detection) (t : TrackedVehicle K)
    (o : Option Nat) : (applyMatch ops maxAge dets t o).id = t.id := by
  cases o with
  | some j => rfl
  | none =>
    simp only [applyMatch, missUpdate]
    split <;> rfl

theorem updateTrack_id (maxAge : Int) (thr : ℚ) (dets : List Detection) (t : TrackedVehicle K)
    (m : List Bool) : (updateTrack ops maxAge thr dets t m).1.id = t.id := by
  rw [updateTrack_eq]
  by_cases h : t.isActive = true
  · rw [if_pos h]; exact applyMatch_id ops maxAge dets t _
  · rw [if_neg h]

theorem idsOf_predictTracks (s : TrackingSystem K) :
    idsOf (predictTracks ops s).tracks_ = idsOf s.tracks_ := by
  simp [idsOf, predictTracks, List.map_map, Function.comp_def, predictTrack_id]

theorem idsOf_loop (maxAge : Int) (thr : ℚ) (dets : List Detection)
    (ts : List (TrackedVehicle K)) (m : List Bool) :
    idsOf (updateTracksLoop ops maxAge thr dets ts m).1 = idsOf ts := by
  induction ts generalizing m with
  | nil => rfl
  | cons t ts ih =>
    simp only [updateTracksLoop, idsOf, List.map_cons, updateTrack_id]
    exact congrArg _ (ih _)

theorem idsOf_updateTracks (s : TrackingSystem K) (dets : List Detection) :
    idsOf (updateTracks ops s dets).tracks_ = idsOf s.tracks_ :=
  idsOf_loop ops _ _ dets s.tracks_ _

theorem createNewTracks_cons (s : TrackingSystem K) (d : Detection) (ds : List Detection) :
    createNewTracks ops s (d :: ds) = createNewTracks ops (createStep ops s d) ds := rfl

theorem createStep_of_overlap (s : TrackingSystem K) (d : Detection)
    (h : overlapsActiveTrack s.iouThreshold_ s.tracks_ d.boundingBox = true) :
    createStep ops s d = s := by
  unfold createStep; rw [if_pos h]

theorem createStep_of_free (s : TrackingSystem K) (d : Detection)
    (h : ¬ overlapsActiveTrack s.iouThreshold_ s.tracks_ d.boundingBox = true) :
    createStep ops s d =
      { s with
        tracks_ := s.tracks_ ++ [newTrack ops s.nextId_ d]
        nextId_ := s.nextId_ + 1 } := by
  unfold createStep; rw [if_neg h]

/-- The effect of `createNewTracks` on the storage and on `nextId_`: tracks are only
appended, and they take the successive values of `nextId_`. -/
theorem createNewTracks_appends (s : TrackingSystem K) (dets : List Detection) :
    ∃ created : List (TrackedVehicle K),
      (createNewTracks ops s dets).tracks_ = s.tracks_ ++ created ∧
      (createNewTracks ops s dets).nextId_ = s.nextId_ + created.length ∧
      idsOf created = (List.range created.length).map fun (n : Nat) => s.nextId_ + (n : Int) := by
  induction dets generalizing s with
  | nil => exact ⟨[], by simp [createNewTracks], by simp [createNewTracks], rfl⟩
  | cons d ds ih =>
    obtain ⟨cr, h1, h2, h3⟩ := ih (createStep ops s d)
    rw [createNewTracks_cons]
    by_cases h : overlapsActiveTrack s.iouThreshold_ s.tracks_ d.boundingBox = true
    · rw [createStep_of_overlap ops s d h] at h1 h2 h3 ⊢
      exact ⟨cr, h1, h2, h3⟩
    · rw [createStep_of_free ops s d h] at h1 h2 h3 ⊢
      simp only at h1 h2 h3
      refine ⟨newTrack ops s.nextId_ d :: cr, ?_, ?_, ?_⟩
      · rw [h1, List.append_assoc]; rfl
      · rw [h2, List.length_cons]; push_cast; ring
      · rw [List.length_cons, List.range_succ_eq_map, List.map_cons, List.map_map]
        simp only [idsOf, List.map_cons] at h3 ⊢
        refine congrArg₂ _ (by simp [newTrack]) ?_
        rw [h3]
        apply List.map_congr_left
        intro n _
        simp only [Function.comp_apply]
        push_cast; ring

theorem createdBy_spec (s : TrackingSystem K) (dets : List Detection) :
    (createNewTracks ops (updateTracks ops (predictTracks ops s) dets) dets).tracks_ =
        (updateTracks ops (predictTracks ops s) dets).tracks_ ++ createdBy ops s dets ∧
    (createNewTracks ops (updateTracks ops (predictTracks ops s) dets) dets).nextId_ =
        s.nextId_ + (createdBy ops s dets).length ∧
    idsOf (createdBy ops s dets) =
        (List.range (createdBy ops s dets).length).map fun (n : Nat) => s.nextId_ + (n : Int) := by
  obtain ⟨cr, h1, h2, h3⟩ :=
    createNewTracks_appends ops (updateTracks ops (predictTracks ops s) dets) dets
  have hc : createdBy ops s dets = cr := by
    simp only [createdBy]
    rw [h1, List.drop_left]
  rw [hc]
  exact ⟨h1, h2, h3⟩

theorem update_tracks_eq (s : TrackingSystem K) (dets : List Detection) :
    (update ops s dets).1.tracks_ =
      ((updateTracks ops (predictTracks ops s) dets).tracks_ ++ createdBy ops s dets).filter
        fun track => !isStale s.maxAge_ s.minHits_ track := by
  have hp := createNewTracks_params ops (updateTracks ops (predictTracks ops s) dets) dets
  simp only [update, removeStaleTracks]
  rw [(createdBy_spec ops s dets).1, hp.2.1, hp.2.2]
  rfl

theorem update_nextId (s : TrackingSystem K) (dets : List Detection) :
    (update ops s dets).1.nextId_ = s.nextId_ + (createdBy ops s dets).length :=
  (createdBy_spec ops s dets).2.1

theorem update_params (s : TrackingSystem K) (dets : List Detection) :
    (update ops s dets).1.iouThreshold_ = s.iouThreshold_ ∧
    (update ops s dets).1.maxAge_ = s.maxAge_ ∧ (update ops s dets).1.minHits_ = s.minHits_ :=
  createNewTracks_params ops (updateTracks ops (predictTracks ops s) dets) dets

/-- The ids in storage before the stale tracks are removed: those of the frame's start
followed by the fresh ones. -/
theorem idsOf_before_removal (s : TrackingSystem K) (dets : List Detection) :
    idsOf ((updateTracks ops (predictTracks ops s) dets).tracks_ ++ createdBy ops s dets) =
      idsOf s.tracks_ ++
        (List.range (createdBy ops s dets).length).map fun (n : Nat) => s.nextId_ + (n : Int) := by
  have h := (createdBy_spec ops s dets).2.2
  have h2 : idsOf (updateTracks ops (predictTracks ops s) dets).tracks_ = idsOf s.tracks_ := by
    rw [idsOf_updateTracks, idsOf_predictTracks]
  simp only [idsOf, List.map_append] at h h2 ⊢
  rw [h, h2]

theorem idsOf_update_sublist (s : TrackingSystem K) (dets : List Detection) :
    (idsOf (update ops s dets).1.tracks_).Sublist
      (idsOf s.tracks_ ++
        (List.range (createdBy ops s dets).length).map
          fun (n : Nat) => s.nextId_ + (n : Int)) := by
  rw [← idsOf_before_removal, update_tracks_eq]
  exact List.Sublist.map _ (List.filter_sublist _)

theorem fresh_ids_pairwise (base : Int) (k : Nat) :
    ((List.range k).map fun (n : Nat) => base + (n : Int)).Pairwise (· < ·) := by
  rw [List.pairwise_map]
  exact (List.pairwise_lt_range k).imp (by intro a b h; omega)

theorem update_idsOrdered (s : TrackingSystem K) (dets : List Detection) (h : IdsOrdered s) :
    IdsOrdered (update ops s dets).1 := by
  obtain ⟨hp, hb⟩ := h
  have hsub := idsOf_update_sublist ops s dets
  have hall : (idsOf s.tracks_ ++ (List.range (createdBy ops s dets).length).map
      fun (n : Nat) => s.nextId_ + (n : Int)).Pairwise (· < ·) := by
    rw [List.pairwise_append]
    refine ⟨hp, fresh_ids_pairwise _ _, fun a ha b hb' => ?_⟩
    obtain ⟨n, _, rfl⟩ := List.mem_map.mp hb'
    have := hb a ha
    omega
  refine ⟨hall.sublist hsub, fun x hx => ?_⟩
  rw [update_nextId]
  rcases List.mem_append.mp (hsub.subset hx) with h1 | h1
  · have := hb x h1
    omega
  · obtain ⟨n, hn, rfl⟩ := List.mem_map.mp h1
    have := List.mem_range.mp hn
    omega

theorem update_idsFrom (base : Int) (s : TrackingSystem K) (dets : List Detection)
    (h : IdsFrom base s) : IdsFrom base (update ops s dets).1 := by
  obtain ⟨h0, hb⟩ := h
  have hsub := idsOf_update_sublist ops s dets
  refine ⟨by rw [update_nextId]; omega, fun x hx => ?_⟩
  rcases List.mem_append.mp (hsub.subset hx) with h1 | h1
  · exact hb x h1
  · obtain ⟨n, _, rfl⟩ := List.mem_map.mp h1
    omega

theorem apply_idsOrdered (s : TrackingSystem K) (c : Call) (h : IdsOrdered s) :
    IdsOrdered (c.apply ops s) := by
  cases c with
  | update dets => exact update_idsOrdered ops s dets h
  | setMaxAge n => exact h
  | setMinHits n => exact h
  | setIoUThreshold q => exact h

theorem apply_idsFrom (base : Int) (s : TrackingSystem K) (c : Call) (h : IdsFrom base s) :
    IdsFrom base (c.apply ops s) := by
  cases c with
  | update dets => exact update_idsFrom ops base s dets h
  | setMaxAge n => exact h
  | setMinHits n => exact h
  | setIoUThreshold q => exact h

theorem apply_created (s : TrackingSystem K) (c : Call) :
    (c.apply ops s).nextId_ = s.nextId_ + (c.created ops s).length ∧
    idsOf (c.created ops s) =
      (List.range (c.created ops s).length).map fun (n : Nat) => s.nextId_ + (n : Int) := by
  cases c with
  | update dets => exact ⟨update_nextId ops s dets, (createdBy_spec ops s dets).2.2⟩
  | setMaxAge n => exact ⟨by simp [Call.apply, Call.created, TrackingSystem.setMaxAge], rfl⟩
  | setMinHits n => exact ⟨by simp [Call.apply, Call.created, TrackingSystem.setMinHits], rfl⟩
  | setIoUThreshold q =>
    exact ⟨by simp [Call.apply, Call.created, TrackingSystem.setIoUThreshold], rfl⟩

theorem range_shift (base : Int) (a b : Nat) :
    ((List.range a).map fun (n : Nat) => base + (n : Int)) ++
        ((List.range b).map fun (n : Nat) => base + (a : Int) + (n : Int)) =
      (List.range (a + b)).map fun (n : Nat) => base + (n : Int) := by
  rw [List.range_add, List.map_append, List.map_map]
  congr 1
  apply List.map_congr_left
  intro n _
  simp only [Function.comp_apply]
  push_cast; ring

/-- Over any sequence of calls the invariants of the ids are kept, and the tracks
created take the successive values of `nextId_`. -/
theorem runCalls_ids (base : Int) (s : TrackingSystem K) (calls : List Call)
    (ho : IdsOrdered s) (hf : IdsFrom base s) :
    IdsOrdered (runCalls ops s calls) ∧ IdsFrom base (runCalls ops s calls) ∧
    (runCalls ops s calls).nextId_ = s.nextId_ + (createdLog ops s calls).length ∧
    idsOf (createdLog ops s calls) =
      (List.range (createdLog ops s calls).length).map
        fun (n : Nat) => s.nextId_ + (n : Int) := by
  induction calls generalizing s with
  | nil => exact ⟨ho, hf, by simp [runCalls, createdLog], rfl⟩
  | cons c cs ih =>
    obtain ⟨i1, i2, i3, i4⟩ := ih (c.apply ops s) (apply_idsOrdered ops s c ho)
      (apply_idsFrom ops base s c hf)
    obtain ⟨a1, a2⟩ := apply_created ops s c
    have hrun : runCalls ops s (c :: cs) = runCalls ops (c.apply ops s) cs := rfl
    rw [hrun]
    refine ⟨i1, i2, ?_, ?_⟩
    · rw [i3, a1]
      simp only [createdLog, List.length_append]
      push_cast; ring
    · simp only [createdLog, List.length_append]
      simp only [idsOf, List.map_append] at a2 i4 ⊢
      rw [a2, i4, a1]
      exact range_shift _ _ _

/-- C4: over any sequence of calls of `update` (and of the parameter setters, but not
of `reset`) that follows `initialize`, the created tracks get the ids 0, 1, 2, ... in the
order of their creation, so each id is strictly greater than those assigned before it
and no two created tracks share one; `nextId_` counts the created tracks; the ids of the
stored tracks are pairwise distinct and each is the id of a created track. -/
theorem created_ids_sequential (s0 : TrackingSystem K) (calls : List Call) :
    let s := runCalls ops ( TrackingSystem.initialize s0) calls
    let created := createdLog ops ( TrackingSystem.initialize s0) calls
    idsOf created = (List.range created.length).map (fun (n : Nat) => (n : Int)) ∧
    (idsOf created).Pairwise (· < ·) ∧
    s.nextId_ = created.length ∧
    (idsOf s.tracks_).Nodup ∧
    ∀ x ∈ idsOf s.tracks_, x ∈ idsOf created := by
  intro s created
  have hinit : IdsOrdered ( TrackingSystem.initialize s0) :=
    ⟨List.Pairwise.nil, fun x hx => by simp [idsOf, TrackingSystem.initialize] at hx⟩
  have hfrom : IdsFrom 0 ( TrackingSystem.initialize s0) :=
    ⟨le_refl _, fun x hx => by simp [idsOf, TrackingSystem.initialize] at hx⟩
  obtain ⟨h1, h2, h3, h4⟩ := runCalls_ids ops 0 ( TrackingSystem.initialize s0) calls hinit hfrom
  have hz : ( TrackingSystem.initialize s0).nextId_ = 0 := rfl
  rw [hz] at h3 h4
  simp only [zero_add] at h3 h4
  refine ⟨h4, ?_, h3, ?_, fun x hx => ?_⟩
  · rw [h4]
    have := fresh_ids_pairwise 0 created.length
    simpa using this
  · exact (h1.1.imp (fun h => ne_of_lt h))
  · have hlo := h2.2 x hx
    have hhi := h1.2 x hx
    rw [h4, List.mem_map]
    refine ⟨x.toNat, List.mem_range.mpr ?_, by omega⟩
    have : s.nextId_ = (created.length : Int) := h3
    omega

end Ids

/-! ## One frame, track by track (C5, C7) -/

section Frame

variable {K : Type} (ops : KalmanOps K)

theorem predictTrack_isActive (t : TrackedVehicle K) :
    (predictTrack ops t).isActive = t.isActive := by
  unfold predictTrack
  split <;> rfl

theorem predictTrack_misses (t : TrackedVehicle K) (h : t.isActive = true) :
    (predictTrack ops t).consecutiveMisses = t.consecutiveMisses + 1 := by
  unfold predictTrack
  rw [if_pos h]

theorem predictTracks_getElem (s : TrackingSystem K) (i : Nat) (hi : i < s.tracks_.length) :
    (predictTracks ops s).tracks_[i]? = some (predictTrack ops s.tracks_[i]) := by
  simp [predictTracks, List.getElem?_map, List.getElem?_eq_getElem hi]

theorem frameMatchLog_length (s : TrackingSystem K) (dets : List Detection) :
    (frameMatchLog ops s dets).length = s.tracks_.length := by
  rw [frameMatchLog, matchLog_length]
  simp [predictTracks]

/-- What the first two stages of `update` make of a track that is active when the
frame starts. -/
theorem afterMatching_getElem? (s : TrackingSystem K) (dets : List Detection) (i : Nat)
    (hi : i < s.tracks_.length) (hact : s.tracks_[i].isActive = true) :
    (afterMatching ops s dets)[i]? =
      some (applyMatch ops s.maxAge_ dets (predictTrack ops s.tracks_[i])
        ((frameMatchLog ops s dets).getD i none)) := by
  have hi' : i < (predictTracks ops s).tracks_.length := by simpa [predictTracks] using hi
  have hget : (predictTracks ops s).tracks_[i] = predictTrack ops s.tracks_[i] := by
    have := predictTracks_getElem ops s i hi
    rw [List.getElem?_eq_getElem hi'] at this
    exact Option.some.inj this
  have hact' : (predictTracks ops s).tracks_[i].isActive = true := by
    rw [hget, predictTrack_isActive]; exact hact
  have h := (updateTracks_getElem?_of_active ops (predictTracks ops s) dets i hi' hact')
  rw [hget] at h
  exact h

/-- A track that is active when the frame starts is matched or not. -/
theorem frameMatchLog_getElem? (s : TrackingSystem K) (dets : List Detection) (i : Nat)
    (hi : i < s.tracks_.length) :
    (frameMatchLog ops s dets)[i]? = some ((frameMatchLog ops s dets).getD i none) := by
  have h : i < (frameMatchLog ops s dets).length := by rw [frameMatchLog_length]; exact hi
  rw [List.getD_eq_getElem?_getD, List.getElem?_eq_getElem h]
  rfl

theorem applyMatch_misses (maxAge : Int) (dets : List Detection) (t : TrackedVehicle K)
    (o : Option Nat) :
    (applyMatch ops maxAge dets t o).consecutiveMisses =
      if o.isSome then 0 else t.consecutiveMisses := by
  cases o with
  | some j => rfl
  | none =>
    simp only [applyMatch, missUpdate, Option.isSome_none, Bool.false_eq_true, if_false]
    split <;> rfl

theorem applyMatch_isActive (maxAge : Int) (dets : List Detection) (t : TrackedVehicle K)
    (o : Option Nat) (ht : t.isActive = true) :
    (applyMatch ops maxAge dets t o).isActive = false ↔
      o = none ∧ t.consecutiveMisses > maxAge := by
  cases o with
  | some j => simp [applyMatch, hitUpdate]
  | none =>
    simp only [applyMatch, missUpdate, true_and]
    by_cases h : t.consecutiveMisses > maxAge
    · simp [h]
    · simp [h, ht]

theorem update_mem_iff (s : TrackingSystem K) (dets : List Detection) (t : TrackedVehicle K) :
    t ∈ (update ops s dets).1.tracks_ ↔
      (t ∈ afterMatching ops s dets ∨ t ∈ createdBy ops s dets) ∧
        isStale s.maxAge_ s.minHits_ t = false := by
  rw [update_tracks_eq, List.mem_filter, List.mem_append]
  simp [afterMatching]

end Frame

/-! ## Following a track through a frame by its id -/

section Follow

variable {K : Type} (ops : KalmanOps K)

theorem idsOf_afterMatching (s : TrackingSystem K) (dets : List Detection) :
    idsOf (afterMatching ops s dets) = idsOf s.tracks_ := by
  rw [afterMatching, idsOf_updateTracks, idsOf_predictTracks]

theorem createdBy_id_ge (s : TrackingSystem K) (dets : List Detection) (t : TrackedVehicle K)
    (h : t ∈ createdBy ops s dets) : s.nextId_ ≤ t.id := by
  have hid : t.id ∈ idsOf (createdBy ops s dets) := List.mem_map.mpr ⟨t, h, rfl⟩
  rw [(createdBy_spec ops s dets).2.2] at hid
  obtain ⟨n, _, hn⟩ := List.mem_map.mp hid
  omega

theorem idsOf_getElem? (ts : List (TrackedVehicle K)) (i : Nat) (t : TrackedVehicle K)
    (h : ts[i]? = some t) : (idsOf ts)[i]? = some t.id := by
  simp [idsOf, List.getElem?_map, h]

/-- Two positions of a storage with ordered ids that hold the same id are the same. -/
theorem position_unique (ids : List Int) (hp : ids.Pairwise (· < ·)) (i j : Nat) (x : Int)
    (hi : ids[i]? = some x) (hj : ids[j]? = some x) : i = j := by
  have hnd : ids.Nodup := hp.imp (fun h => ne_of_lt h)
  obtain ⟨hi', hxi⟩ := List.getElem?_eq_some_iff.mp hi
  obtain ⟨hj', hxj⟩ := List.getElem?_eq_some_iff.mp hj
  exact (hnd.getElem_inj_iff).mp (hxi.trans hxj.symm)

/-- With ordered ids, the stored track that carries the id of the `i`-th track after a
call of `update` is what the first two stages made of that track. -/
theorem stored_after_update (s : TrackingSystem K) (dets : List Detection)
    (hs : IdsOrdered s) (i : Nat) (hi : i < s.tracks_.length) (t' : TrackedVehicle K)
    (hmem : t' ∈ (update ops s dets).1.tracks_) (hid : t'.id = s.tracks_[i].id) :
    (afterMatching ops s dets)[i]? = some t' := by
  have hlt : s.tracks_[i].id < s.nextId_ :=
    hs.2 _ (List.mem_map.mpr ⟨s.tracks_[i], List.getElem_mem hi, rfl⟩)
  rcases ((update_mem_iff ops s dets t').mp hmem).1 with h | h
  · obtain ⟨i', hi'⟩ := List.mem_iff_getElem?.mp h
    have h1 : (idsOf s.tracks_)[i']? = some t'.id := by
      rw [← idsOf_afterMatching ops s dets]; exact idsOf_getElem? _ _ _ hi'
    have h2 : (idsOf s.tracks_)[i]? = some t'.id := by
      rw [hid]; exact idsOf_getElem? _ _ _ (List.getElem?_eq_getElem hi)
    have := position_unique _ hs.1 i' i _ h1 h2
    rw [← this]; exact hi'
  · have := createdBy_id_ge ops s dets t' h
    omega

/-- C5: a track that is active when a frame starts and is still stored after `update`
(the stored track that carries its id) has `consecutiveMisses` exactly 0 if it was
matched to a detection in that frame, and exactly its previous value plus 1 otherwise. -/
theorem consecutiveMisses_after_update (s : TrackingSystem K) (dets : List Detection)
    (hs : IdsOrdered s) (i : Nat) (hi : i < s.tracks_.length)
    (hact : s.tracks_[i].isActive = true) (t' : TrackedVehicle K)
    (hmem : t' ∈ (update ops s dets).1.tracks_) (hid : t'.id = s.tracks_[i].id) :
    ((∃ j, (frameMatchLog ops s dets)[i]? = some (some j)) → t'.consecutiveMisses = 0) ∧
    ((frameMatchLog ops s dets)[i]? = some none →
      t'.consecutiveMisses = s.tracks_[i].consecutiveMisses + 1) := by
  have h := stored_after_update ops s dets hs i hi t' hmem hid
  rw [afterMatching_getElem? ops s dets i hi hact, Option.some.injEq] at h
  have hlog := frameMatchLog_getElem? ops s dets i hi
  constructor
  · rintro ⟨j, hj⟩
    rw [hlog, Option.some.injEq] at hj
    rw [← h, hj, applyMatch_misses]; rfl
  · intro hn
    rw [hlog, Option.some.injEq] at hn
    rw [← h, hn, applyMatch_misses, predictTrack_misses ops _ hact]; rfl

/-- C7: `update` never removes a track whose `consecutiveMisses`, after the frame's
update, is at most `maxAge_`, whatever its `totalHits`: what the first two stages make
of a track that is active when the frame starts is either in storage afterwards (and in
the returned list) or has `consecutiveMisses > maxAge_`. -/
theorem update_keeps_unless_aged (s : TrackingSystem K) (dets : List Detection) (i : Nat)
    (hi : i < s.tracks_.length) (hact : s.tracks_[i].isActive = true)
    (t' : TrackedVehicle K) (ht' : (afterMatching ops s dets)[i]? = some t') :
    t'.id = s.tracks_[i].id ∧
    (t'.consecutiveMisses ≤ s.maxAge_ →
      t' ∈ (update ops s dets).1.tracks_ ∧ t' ∈ (update ops s dets).2) ∧
    (t' ∉ (update ops s dets).1.tracks_ → t'.consecutiveMisses > s.maxAge_) := by
  have hmemA : t' ∈ afterMatching ops s dets := List.getElem?_mem ht'
  have h := ht'
  rw [afterMatching_getElem? ops s dets i hi hact, Option.some.injEq] at h
  have hpa : (predictTrack ops s.tracks_[i]).isActive = true := by
    rw [predictTrack_isActive]; exact hact
  have hkeep : t'.consecutiveMisses ≤ s.maxAge_ →
      t'.isActive = true ∧ t' ∈ (update ops s dets).1.tracks_ := by
    intro hle
    have hactive : t'.isActive = true := by
      by_contra hna
      have hfalse : t'.isActive = false := by simpa using hna
      rw [← h] at hfalse
      have hgt := ((applyMatch_isActive ops _ dets _ _ hpa).mp hfalse)
      have hcm : t'.consecutiveMisses = (predictTrack ops s.tracks_[i]).consecutiveMisses := by
        rw [← h, hgt.1, applyMatch_misses]; rfl
      omega
    refine ⟨hactive, (update_mem_iff ops s dets t').mpr ⟨Or.inl hmemA, ?_⟩⟩
    simp [isStale, hactive, not_lt.mpr hle]
  refine ⟨?_, fun hle => ?_, fun hnot => ?_⟩
  · rw [← h, applyMatch_id, predictTrack_id]
  · obtain ⟨ha, hm⟩ := hkeep hle
    exact ⟨hm, List.mem_filter.mpr ⟨hm, by simpa using ha⟩⟩
  · by_contra hle
    exact hnot (hkeep (not_lt.mp hle)).2

end Follow

/-! ## Consecutive unmatched frames (C6, C10) -/

section Ageing

variable {K : Type} (ops : KalmanOps K)

theorem runFrames_cons (s : TrackingSystem K) (f : List Detection)
    (fs : List (List Detection)) :
    runFrames ops s (f :: fs) = runFrames ops (update ops s f).1 fs := rfl

theorem runFrames_snoc (s : TrackingSystem K) (fs : List (List Detection))
    (f : List Detection) :
    runFrames ops s (fs ++ [f]) = (update ops (runFrames ops s fs) f).1 := by
  simp [runFrames, List.foldl_append]

theorem runFrames_maxAge (s : TrackingSystem K) (fs : List (List Detection)) :
    (runFrames ops s fs).maxAge_ = s.maxAge_ := by
  induction fs generalizing s with
  | nil => rfl
  | cons f fs ih => rw [runFrames_cons, ih, (update_params ops s f).2.1]

theorem runFrames_idsOrdered (s : TrackingSystem K) (fs : List (List Detection))
    (hs : IdsOrdered s) : IdsOrdered (runFrames ops s fs) := by
  induction fs generalizing s with
  | nil => exact hs
  | cons f fs ih => rw [runFrames_cons]; exact ih _ (update_idsOrdered ops s f hs)

/-- One unmatched frame: the track stays, active and one miss older, when its misses
do not exceed `maxAge_`, and leaves the storage otherwise. -/
theorem unmatched_step (s : TrackingSystem K) (dets : List Detection) (hs : IdsOrdered s)
    (t : TrackedVehicle K) (ht : t ∈ s.tracks_) (hact : t.isActive = true)
    (hun : UnmatchedIn ops s dets t.id) :
    (t.consecutiveMisses + 1 ≤ s.maxAge_ →
      ∃ t' ∈ (update ops s dets).1.tracks_, t'.id = t.id ∧ t'.isActive = true ∧
        t'.consecutiveMisses = t.consecutiveMisses + 1) ∧
    (∀ t' ∈ (update ops s dets).1.tracks_, t'.id = t.id →
      t.consecutiveMisses + 1 ≤ s.maxAge_ ∧ t'.isActive = true ∧
        t'.consecutiveMisses = t.consecutiveMisses + 1) := by
  obtain ⟨i, hi, hti⟩ := List.getElem_of_mem ht
  subst hti
  have hnone := hun i s.tracks_[i] (List.getElem?_eq_getElem hi) rfl
  have hlog : (frameMatchLog ops s dets).getD i none = none := by
    rw [List.getD_eq_getElem?_getD, hnone]; rfl
  have hA := afterMatching_getElem? ops s dets i hi hact
  rw [hlog] at hA
  have hpa : (predictTrack ops s.tracks_[i]).isActive = true := by
    rw [predictTrack_isActive]; exact hact
  have hpm := predictTrack_misses ops s.tracks_[i] hact
  constructor
  · intro hle
    have hkeep : applyMatch ops s.maxAge_ dets (predictTrack ops s.tracks_[i]) none =
        predictTrack ops s.tracks_[i] := by
      simp only [applyMatch, missUpdate]
      rw [if_neg (by rw [hpm]; exact not_lt.mpr hle)]
    rw [hkeep] at hA
    refine ⟨predictTrack ops s.tracks_[i], ?_, predictTrack_id ops _, hpa, hpm⟩
    refine (update_mem_iff ops s dets _).mpr ⟨Or.inl (List.getElem?_mem hA), ?_⟩
    simp [isStale, hpa, hpm, not_lt.mpr hle]
  · intro t' hmem hid
    have hst := stored_after_update ops s dets hs i hi t' hmem hid
    rw [hA, Option.some.injEq] at hst
    have hnot := ((update_mem_iff ops s dets t').mp hmem).2
    have hactive : t'.isActive = true := by
      simp only [isStale, Bool.or_eq_false_iff, Bool.not_eq_false'] at hnot
      exact hnot.1
    have hle : s.tracks_[i].consecutiveMisses + 1 ≤ s.maxAge_ := by
      by_contra hgt
      have hfalse : (applyMatch ops s.maxAge_ dets (predictTrack ops s.tracks_[i])
          none).isActive = false :=
        (applyMatch_isActive ops _ dets _ _ hpa).mpr ⟨rfl, by rw [hpm]; omega⟩
      rw [hst, hactive] at hfalse
      exact absurd hfalse (by decide)
    refine ⟨hle, hactive, ?_⟩
    rw [← hst, applyMatch_misses, hpm]; rfl

/-- An id below `nextId_` that is not in storage is not in storage after `update`. -/
theorem absent_step (s : TrackingSystem K) (dets : List Detection) (x : Int)
    (hx : x < s.nextId_) (hab : ∀ t ∈ s.tracks_, t.id ≠ x) :
    (x < (update ops s dets).1.nextId_) ∧ ∀ t ∈ (update ops s dets).1.tracks_, t.id ≠ x := by
  refine ⟨by rw [update_nextId]; omega, fun t ht hid => ?_⟩
  rcases ((update_mem_iff ops s dets t).mp ht).1 with h | h
  · have hmem : t.id ∈ idsOf s.tracks_ := by
      rw [← idsOf_afterMatching ops s dets]; exact List.mem_map.mpr ⟨t, h, rfl⟩
    obtain ⟨t0, ht0, hid0⟩ := List.mem_map.mp hmem
    exact hab t0 ht0 (hid0.trans hid)
  · have := createdBy_id_ge ops s dets t h
    omega

theorem absent_run (s : TrackingSystem K) (fs : List (List Detection)) (x : Int)
    (hx : x < s.nextId_) (hab : ∀ t ∈ s.tracks_, t.id ≠ x) :
    ∀ t ∈ (runFrames ops s fs).tracks_, t.id ≠ x := by
  induction fs generalizing s with
  | nil => exact hab
  | cons f fs ih =>
    rw [runFrames_cons]
    obtain ⟨h1, h2⟩ := absent_step ops s f x hx hab
    exact ih _ h1 h2

/-- A run of unmatched frames: the track is stored afterwards exactly when its misses
have not exceeded `maxAge_`, and it is then active with one more miss per frame. -/
theorem unmatched_run (fs : List (List Detection)) (hne : fs ≠ []) :
    ∀ (s : TrackingSystem K), IdsOrdered s → ∀ t ∈ s.tracks_, t.isActive = true →
      UnmatchedThrough ops s t.id fs →
      ((∃ t' ∈ (runFrames ops s fs).tracks_, t'.id = t.id) ↔
        t.consecutiveMisses + fs.length ≤ s.maxAge_) ∧
      (∀ t' ∈ (runFrames ops s fs).tracks_, t'.id = t.id →
        t'.isActive = true ∧ t'.consecutiveMisses = t.consecutiveMisses + fs.length) := by
  induction fs with
  | nil => exact absurd rfl hne
  | cons f fs ih =>
    intro s hs t ht hact hun
    obtain ⟨hun1, hun2⟩ := hun
    obtain ⟨hstay, hback⟩ := unmatched_step ops s f hs t ht hact hun1
    have hlt : t.id < s.nextId_ := hs.2 _ (List.mem_map.mpr ⟨t, ht, rfl⟩)
    rw [runFrames_cons]
    by_cases hfs : fs = []
    · subst hfs
      simp only [runFrames, List.foldl_nil, List.length_singleton, Nat.cast_one]
      refine ⟨⟨fun ⟨t', hm, hid⟩ => (hback t' hm hid).1, fun hle => ?_⟩,
        fun t' hm hid => (hback t' hm hid).2⟩
      obtain ⟨t', hm, hid, _⟩ := hstay hle
      exact ⟨t', hm, hid⟩
    · by_cases hle : t.consecutiveMisses + 1 ≤ s.maxAge_
      · obtain ⟨t1, hm1, hid1, hact1, hcm1⟩ := hstay hle
        have hih := ih hfs (update ops s f).1 (update_idsOrdered ops s f hs) t1 hm1 hact1
          (by rw [hid1]; exact hun2)
        rw [hid1, hcm1, (update_params ops s f).2.1] at hih
        have hlen : t.consecutiveMisses + 1 + (fs.length : Int) =
            t.consecutiveMisses + ((f :: fs).length : Int) := by
          simp only [List.length_cons]; push_cast; ring
        rw [hlen] at hih
        exact hih
      · have habs : ∀ t' ∈ (update ops s f).1.tracks_, t'.id ≠ t.id :=
          fun t' hm hid => hle (hback t' hm hid).1
        have hlt' : t.id < (update ops s f).1.nextId_ := by
          rw [update_nextId]; omega
        have hgone := absent_run ops (update ops s f).1 fs t.id hlt' habs
        refine ⟨⟨fun ⟨t', hm, hid⟩ => absurd hid (hgone t' hm), fun hc => ?_⟩,
          fun t' hm hid => absurd hid (hgone t' hm)⟩
        simp only [List.length_cons] at hc
        push_cast at hc
        omega

end Ageing

/-! ## Deactivation and retirement (C6, C9, C10) -/

section Retirement

variable {K : Type} (ops : KalmanOps K)

theorem matchLogFrom_nil_dets (thr : ℚ) (ts : List (TrackedVehicle K)) (m : List Bool) :
    matchLogFrom thr [] ts m = ts.map fun _ => none := by
  induction ts generalizing m with
  | nil => rfl
  | cons t ts ih =>
    have h : matchOf thr [] t m = none := by
      unfold matchOf
      split <;> rfl
    simp only [matchLogFrom, List.map_cons, h, markMatched, ih]

theorem unmatchedIn_nil (s : TrackingSystem K) (x : Int) : UnmatchedIn ops s [] x := by
  intro i t hi _
  have hlen : i < s.tracks_.length := (List.getElem?_eq_some_iff.mp hi).1
  simp only [frameMatchLog, matchLog, matchLogFrom_nil_dets]
  simp [predictTracks, List.getElem?_map, List.getElem?_eq_getElem hlen]

theorem unmatchedThrough_empty (n : Nat) (s : TrackingSystem K) (x : Int) :
    UnmatchedThrough ops s x (List.replicate n []) := by
  induction n generalizing s with
  | zero => exact trivial
  | succ n ih => exact ⟨unmatchedIn_nil ops s x, ih _⟩

/-- C6: in a frame, a track that is active when the frame starts is deactivated by
`update` if and only if it is unmatched in that frame and its `consecutiveMisses`, after
that frame's increment, is strictly greater than `maxAge_`; hence a track whose
`consecutiveMisses` is 0 is in the list `update` returns after `k >= 1` consecutive
unmatched frames if and only if `k <= maxAge_`. -/
theorem deactivated_iff_unmatched_and_aged (s : TrackingSystem K) (hs : IdsOrdered s)
    (i : Nat) (hi : i < s.tracks_.length) (hact : s.tracks_[i].isActive = true) :
    (∀ dets t', (afterMatching ops s dets)[i]? = some t' →
      (t'.isActive = false ↔
        (frameMatchLog ops s dets)[i]? = some none ∧
          s.tracks_[i].consecutiveMisses + 1 > s.maxAge_)) ∧
    (s.tracks_[i].consecutiveMisses = 0 →
      ∀ fs f, UnmatchedThrough ops s s.tracks_[i].id (fs ++ [f]) →
        ((∃ t' ∈ (update ops (runFrames ops s fs) f).2, t'.id = s.tracks_[i].id) ↔
          (fs.length : Int) + 1 ≤ s.maxAge_)) := by
  constructor
  · intro dets t' ht'
    rw [afterMatching_getElem? ops s dets i hi hact, Option.some.injEq] at ht'
    have hpa : (predictTrack ops s.tracks_[i]).isActive = true := by
      rw [predictTrack_isActive]; exact hact
    rw [← ht', applyMatch_isActive ops _ dets _ _ hpa, predictTrack_misses ops _ hact,
      frameMatchLog_getElem? ops s dets i hi, Option.some.injEq]
  · intro hcm fs f hun
    obtain ⟨hiff, hprop⟩ := unmatched_run ops (fs ++ [f]) (by simp) s hs s.tracks_[i]
      (List.getElem_mem hi) hact hun
    rw [runFrames_snoc] at hiff hprop
    rw [hcm] at hiff
    have hlen : (0 : Int) + ((fs ++ [f]).length : Int) = (fs.length : Int) + 1 := by
      simp
    rw [hlen] at hiff
    rw [← hiff]
    constructor
    · rintro ⟨t', hm, hid⟩
      exact ⟨t', (List.mem_filter.mp hm).1, hid⟩
    · rintro ⟨t', hm, hid⟩
      exact ⟨t', List.mem_filter.mpr ⟨hm, by simpa using (hprop t' hm hid).1⟩, hid⟩

/-- C9, amended: on a freshly initialised tracker (no tracks; `maxAge_ >= 0`, as the
constructor's 30 is), `update` with a single detection returns exactly one track, the
one `createNewTracks` builds for it, with `id = 0`, `totalHits = 0` and
`isActive = true`. -/
theorem first_detection_creates_track (s0 : TrackingSystem K) (h : 0 ≤ s0.maxAge_)
    (d : Detection) :
    (update ops ( TrackingSystem.initialize s0) [d]).2 = [newTrack ops 0 d] ∧
    (newTrack ops 0 d).id = 0 ∧ (newTrack ops 0 d).totalHits = 0 ∧
    (newTrack ops 0 d).isActive = true := by
  refine ⟨?_, rfl, rfl, rfl⟩
  have h' : ¬ (0 > s0.maxAge_) := not_lt.mpr h
  simp [update, predictTracks, updateTracks, updateTracksLoop, createNewTracks, createStep,
    overlapsActiveTrack, removeStaleTracks, isStale, TrackingSystem.initialize, newTrack,
    TrackedVehicle.new, h]

/-- C9 fails as stated: the one track returned for the first detection of the first
end-to-end scenario has `totalHits = 0`, not 1. -/
theorem first_detection_totalHits_zero :
    ((update simpleKalman freshSystem [frame1Detection]).2.map
      fun t => (t.id, t.totalHits, t.isActive)) = [(0, 0, true)] ∧
    ¬ ∃ t, (update simpleKalman freshSystem [frame1Detection]).2 = [t] ∧
      t.id = 0 ∧ t.totalHits = 1 ∧ t.isActive = true := by
  have hval : ((update simpleKalman freshSystem [frame1Detection]).2.map
      fun t => (t.id, t.totalHits, t.isActive)) = [(0, 0, true)] := by decide
  refine ⟨hval, ?_⟩
  rintro ⟨t, ht, _, hhits, _⟩
  rw [ht] at hval
  simp only [List.map_cons, List.map_nil, List.cons.injEq, Prod.mk.injEq, and_true] at hval
  rw [hhits] at hval
  exact absurd hval.2.1 (by decide)

/-- C10, amended: with `maxAge_ = 30` and `minHits_ = 3`, a stored active track with
`consecutiveMisses = 0` and `totalHits = 2` is still stored and active, with
`consecutiveMisses = 30`, after 30 consecutive calls of `update` with no detection; in
the 31st such call its `consecutiveMisses` reaches 31 and it is deactivated, and after
that call no stored track carries its id. -/
theorem retired_after_31_empty_frames (s : TrackingSystem K) (hs : IdsOrdered s)
    (hmax : s.maxAge_ = 30) (_hmin : s.minHits_ = 3) (t : TrackedVehicle K)
    (ht : t ∈ s.tracks_) (hact : t.isActive = true) (hcm : t.consecutiveMisses = 0)
    (_hhits : t.totalHits = 2) :
    (∃ t' ∈ (runFrames ops s (List.replicate 30 [])).tracks_,
      t'.id = t.id ∧ t'.isActive = true ∧ t'.consecutiveMisses = 30) ∧
    (∃ t2 ∈ afterMatching ops (runFrames ops s (List.replicate 30 [])) [],
      t2.id = t.id ∧ t2.consecutiveMisses = 31 ∧ t2.isActive = false) ∧
    (∀ t' ∈ (runFrames ops s (List.replicate 31 [])).tracks_, t'.id ≠ t.id) := by
  obtain ⟨hiff30, hprop30⟩ := unmatched_run ops (List.replicate 30 []) (by simp) s hs t ht hact
    (unmatchedThrough_empty ops 30 s t.id)
  obtain ⟨hiff31, _⟩ := unmatched_run ops (List.replicate 31 []) (by simp) s hs t ht hact
    (unmatchedThrough_empty ops 31 s t.id)
  rw [hcm, hmax] at hiff30 hiff31
  simp only [List.length_replicate] at hiff30 hiff31 hprop30
  obtain ⟨t30, hm30, hid30⟩ := hiff30.mpr (by norm_num)
  obtain ⟨ha30, hc30⟩ := hprop30 t30 hm30 hid30
  rw [hcm] at hc30
  refine ⟨⟨t30, hm30, hid30, ha30, by rw [hc30]; norm_num⟩, ?_, fun t' hm hid => ?_⟩
  · obtain ⟨i, hi, hti⟩ := List.getElem_of_mem hm30
    have hacti : (runFrames ops s (List.replicate 30 [])).tracks_[i].isActive = true := by
      rw [hti]; exact ha30
    have hA := afterMatching_getElem? ops (runFrames ops s (List.replicate 30 [])) [] i hi hacti
    have hnone := unmatchedIn_nil ops (runFrames ops s (List.replicate 30 [])) t30.id i _
      (List.getElem?_eq_getElem hi) (by rw [hti])
    have hlog : (frameMatchLog ops (runFrames ops s (List.replicate 30 [])) []).getD i none =
        none := by
      rw [List.getD_eq_getElem?_getD, hnone]; rfl
    rw [hlog, hti, runFrames_maxAge, hmax] at hA
    have hpm := predictTrack_misses ops t30 ha30
    rw [hc30] at hpm
    refine ⟨_, List.getElem?_mem hA, ?_, ?_, ?_⟩
    · rw [applyMatch_id, predictTrack_id]; exact hid30
    · rw [applyMatch_misses, hpm]; norm_num
    · exact (applyMatch_isActive ops _ _ _ _
        (by rw [predictTrack_isActive]; exact ha30)).mpr ⟨rfl, by rw [hpm]; norm_num⟩
  · have := hiff31.mp ⟨t', hm, hid⟩
    norm_num at this

/-- C10 fails as stated: in the third end-to-end scenario, after 30 calls of `update`
with no detection the track is still in storage, active, with
`consecutiveMisses = 30`. -/
theorem still_stored_after_30_empty_frames :
    ((runFrames simpleKalman scenario3Start (List.replicate 30 [])).tracks_.map
      fun t => (t.id, t.consecutiveMisses, t.isActive, t.totalHits)) = [(0, 30, true, 2)] ∧
    ¬ ∀ t ∈ (runFrames simpleKalman scenario3Start (List.replicate 30 [])).tracks_,
      t.id ≠ scenario3Track.id := by
  have hval : ((runFrames simpleKalman scenario3Start (List.replicate 30 [])).tracks_.map
      fun t => (t.id, t.consecutiveMisses, t.isActive, t.totalHits)) =
      [(0, 30, true, 2)] := by decide!
  refine ⟨hval, fun hall => ?_⟩
  cases hts : (runFrames simpleKalman scenario3Start (List.replicate 30 [])).tracks_ with
  | nil => rw [hts] at hval; simp at hval
  | cons t rest =>
    rw [hts] at hval hall
    simp only [List.map_cons, List.cons.injEq, Prod.mk.injEq] at hval
    exact hall t (List.mem_cons_self _ _) hval.1.1

end Retirement

/-! ## The size of the returned list (C8) -/

section Size

variable {K : Type} (ops : KalmanOps K)

/-- A positive IoU is at most 1 and needs a second box of positive width and height. -/
theorem calculateIoU_pos (a b : Rect) (h : calculateIoU a b > 0) :
    0 < b.width ∧ 0 < b.height ∧ calculateIoU a b ≤ 1 := by
  unfold calculateIoU at h ⊢
  simp only at h ⊢
  by_cases hc : min (a.x + a.width) (b.x + b.width) < max a.x b.x ∨
      min (a.y + a.height) (b.y + b.height) < max a.y b.y
  · rw [if_pos hc] at h; exact absurd h (lt_irrefl _)
  · rw [if_neg hc] at h ⊢
    push_neg at hc
    obtain ⟨hx, hy⟩ := hc
    set x1 := max a.x b.x with hx1
    set y1 := max a.y b.y with hy1
    set x2 := min (a.x + a.width) (b.x + b.width) with hx2
    set y2 := min (a.y + a.height) (b.y + b.height) with hy2
    have hxa : x2 - x1 ≤ a.width := by
      have := min_le_left (a.x + a.width) (b.x + b.width)
      have := le_max_left a.x b.x
      omega
    have hxb : x2 - x1 ≤ b.width := by
      have := min_le_right (a.x + a.width) (b.x + b.width)
      have := le_max_right a.x b.x
      omega
    have hya : y2 - y1 ≤ a.height := by
      have := min_le_left (a.y + a.height) (b.y + b.height)
      have := le_max_left a.y b.y
      omega
    have hyb : y2 - y1 ≤ b.height := by
      have := min_le_right (a.y + a.height) (b.y + b.height)
      have := le_max_right a.y b.y
      omega
    have hdx : 0 ≤ x2 - x1 := by omega
    have hdy : 0 ≤ y2 - y1 := by omega
    have hinter0 : (0 : Int) ≤ (x2 - x1) * (y2 - y1) := mul_nonneg hdx hdy
    have hne : (x2 - x1) * (y2 - y1) ≠ 0 := by
      intro h0
      rw [h0] at h
      simp at h
    have hinter : 0 < (x2 - x1) * (y2 - y1) := lt_of_le_of_ne hinter0 (Ne.symm hne)
    have hdx' : 0 < x2 - x1 := by
      rcases hdx.lt_or_eq with h1 | h1
      · exact h1
      · rw [← h1] at hne; simp at hne
    have hdy' : 0 < y2 - y1 := by
      rcases hdy.lt_or_eq with h1 | h1
      · exact h1
      · rw [← h1] at hne; simp at hne
    have hia : (x2 - x1) * (y2 - y1) ≤ a.width * a.height :=
      mul_le_mul hxa hya hdy (by omega)
    have hib : (x2 - x1) * (y2 - y1) ≤ b.width * b.height :=
      mul_le_mul hxb hyb hdy (by omega)
    refine ⟨by omega, by omega, ?_⟩
    have hu : (x2 - x1) * (y2 - y1) ≤
        a.width * a.height + b.width * b.height - (x2 - x1) * (y2 - y1) := by omega
    have hupos : (0 : ℚ) <
        ((a.width * a.height + b.width * b.height - (x2 - x1) * (y2 - y1) : Int) : ℚ) := by
      exact_mod_cast lt_of_lt_of_le hinter hu
    rw [div_le_one hupos]
    exact_mod_cast hu

/-- The IoU of a box of positive width and height with itself is 1. -/
theorem calculateIoU_self (b : Rect) (hw : 0 < b.width) (hh : 0 < b.height) :
    calculateIoU b b = 1 := by
  unfold calculateIoU
  simp only [max_self, min_self]
  rw [if_neg (by omega)]
  have hpos : 0 < b.width * b.height := mul_pos hw hh
  have hne : ((b.width * b.height : Int) : ℚ) ≠ 0 := by exact_mod_cast ne_of_gt hpos
  have e1 : (b.x + b.width - b.x) * (b.y + b.height - b.y) = b.width * b.height := by ring
  rw [e1]
  have e2 : b.width * b.height + b.width * b.height - b.width * b.height =
      b.width * b.height := by ring
  rw [e2]
  exact div_self hne

theorem overlapsActiveTrack_append (thr : ℚ) (ts extra : List (TrackedVehicle K)) (box : Rect)
    (h : overlapsActiveTrack thr ts box = true) :
    overlapsActiveTrack thr (ts ++ extra) box = true := by
  rw [overlapsActiveTrack_iff] at h ⊢
  obtain ⟨t, ht, h'⟩ := h
  exact ⟨t, List.mem_append_left _ ht, h'⟩

/-- When every detection flagged in `m` overlaps an active stored track,
`createNewTracks` appends at most as many tracks as `m` has unflagged detections. -/
theorem createNewTracks_count (dets : List Detection) :
    ∀ (s : TrackingSystem K) (m : List Bool), m.length = dets.length →
      (∀ j, m.getD j false = true →
        overlapsActiveTrack s.iouThreshold_ s.tracks_ (dets.getD j default).boundingBox = true) →
      (createNewTracks ops s dets).tracks_.length ≤ s.tracks_.length + m.count false := by
  induction dets with
  | nil => intro s m _ _; simp [createNewTracks]
  | cons d ds ih =>
    intro s m hlen hcov
    cases m with
    | nil => simp at hlen
    | cons b m =>
      have hlen' : m.length = ds.length := by simpa using hlen
      rw [createNewTracks_cons]
      by_cases hov : overlapsActiveTrack s.iouThreshold_ s.tracks_ d.boundingBox = true
      · rw [createStep_of_overlap ops s d hov]
        have := ih s m hlen' (fun j hj => by simpa using hcov (j + 1) (by simpa using hj))
        have hc : m.count false ≤ (b :: m).count false := by
          rw [List.count_cons]; omega
        omega
      · have hb : b = false := by
          cases b with
          | false => rfl
          | true => exact absurd (by simpa using hcov 0 (by simp)) hov
        subst hb
        rw [createStep_of_free ops s d hov]
        have := ih { s with
            tracks_ := s.tracks_ ++ [newTrack ops s.nextId_ d]
            nextId_ := s.nextId_ + 1 } m hlen'
          (fun j hj => overlapsActiveTrack_append _ _ _ _
            (by simpa using hcov (j + 1) (by simpa using hj)))
        simp only [List.length_append, List.length_singleton] at this
        rw [List.count_cons_self]
        omega

/-- A detection flagged by `updateTracks` overlaps an active track of the storage that
`updateTracks` leaves: the track it was matched to. -/
theorem matched_detection_overlaps (s : TrackingSystem K) (dets : List Detection) (j : Nat)
    (hj : (matchedFlags ops s dets).getD j false = true) :
    overlapsActiveTrack s.iouThreshold_ (updateTracks ops s dets).tracks_
      (dets.getD j default).boundingBox = true := by
  rw [matchedFlags, loop_flags, flagsAfter_getD _ _ _ _ (by simp), replicate_false_getD] at hj
  rcases hj with hj | hj
  · exact absurd hj (by decide)
  · obtain ⟨i, hi⟩ := List.mem_iff_getElem?.mp hj
    have hlen : i < s.tracks_.length := by
      rw [← matchLogFrom_length s.iouThreshold_ dets s.tracks_ _]
      exact (List.getElem?_eq_some_iff.mp hi).1
    have hlog : (matchLog s dets)[i]? = some (some j) := hi
    have hof := matchLog_getElem? s dets i hlen
    rw [hlog, Option.some.injEq] at hof
    obtain ⟨hact, hbest⟩ := matchOf_eq_some _ _ _ _ _ hof.symm
    obtain ⟨_, _, hthr, hpos, _⟩ := (bestDetection_eq_some_iff _ _ _ _ j).mp hbest
    have hout := updateTracks_getElem?_of_active ops s dets i hlen hact
    have hget : (matchLog s dets).getD i none = some j := by
      rw [List.getD_eq_getElem?_getD, hlog]; rfl
    rw [hget] at hout
    obtain ⟨hw, hh, hle⟩ := calculateIoUFloat_pos _ _ hpos
    rw [overlapsActiveTrack_iff]
    refine ⟨_, List.getElem?_mem hout, rfl, ?_⟩
    simp only [applyMatch, hitUpdate]
    rw [calculateIoUFloat_self _ hw hh]
    exact float_lt_of_lt_of_le hthr hle

theorem loop_active_count (maxAge : Int) (thr : ℚ) (dets : List Detection)
    (ts : List (TrackedVehicle K)) (m : List Bool) :
    ((updateTracksLoop ops maxAge thr dets ts m).1.filter fun t => t.isActive).length ≤
      (ts.filter fun t => t.isActive).length := by
  induction ts generalizing m with
  | nil => simp [updateTracksLoop]
  | cons t ts ih =>
    simp only [updateTracksLoop]
    rw [updateTrack_eq]
    have := ih (markMatched m (matchOf thr dets t m))
    by_cases h : t.isActive = true
    · rw [if_pos h, List.filter_cons, List.filter_cons, if_pos h]
      split
      · simp only [List.length_cons]; omega
      · simp only [List.length_cons]; omega
    · rw [if_neg h, List.filter_cons, List.filter_cons, if_neg h, if_neg h]
      exact this

/-- C8: the number of tracks `update` returns is at most the number of active tracks in
storage before the call plus the number of detections that were matched to no track
during the call. -/
theorem update_output_length_le (s : TrackingSystem K) (dets : List Detection) :
    (update ops s dets).2.length ≤
      (s.tracks_.filter fun t => t.isActive).length +
        (matchedFlags ops (predictTracks ops s) dets).count false := by
  have hcount := createNewTracks_count ops dets (updateTracks ops (predictTracks ops s) dets)
    (matchedFlags ops (predictTracks ops s) dets)
    (by rw [matchedFlags, loop_flags, flagsAfter_length]; simp)
    (fun j hj => matched_detection_overlaps ops (predictTracks ops s) dets j hj)
  rw [(createdBy_spec ops s dets).1, List.length_append] at hcount
  have hcr : (createdBy ops s dets).length ≤
      (matchedFlags ops (predictTracks ops s) dets).count false := by omega
  have hact : ((afterMatching ops s dets).filter fun t => t.isActive).length ≤
      (s.tracks_.filter fun t => t.isActive).length := by
    have h1 := loop_active_count ops s.maxAge_ s.iouThreshold_ dets
      (predictTracks ops s).tracks_ (List.replicate dets.length false)
    have h2 : ((predictTracks ops s).tracks_.filter fun t => t.isActive).length =
        (s.tracks_.filter fun t => t.isActive).length := by
      simp only [predictTracks, List.filter_map, List.length_map]
      congr 2
      funext t
      simp [Function.comp_def, predictTrack_isActive]
    rw [h2] at h1
    exact h1
  have hout : (update ops s dets).2 =
      ((afterMatching ops s dets ++ createdBy ops s dets).filter
        fun track => !isStale s.maxAge_ s.minHits_ track).filter fun t => t.isActive := by
    show ((update ops s dets).1.tracks_.filter fun t => t.isActive) = _
    rw [update_tracks_eq]; rfl
  rw [hout, List.filter_filter]
  have hle : ((afterMatching ops s dets ++ createdBy ops s dets).filter
      fun a => (a.isActive && !isStale s.maxAge_ s.minHits_ a)).length ≤
      ((afterMatching ops s dets ++ createdBy ops s dets).filter fun a => a.isActive).length := by
    rw [← List.countP_eq_length_filter, ← List.countP_eq_length_filter]
    exact List.countP_mono_left (fun a _ h => by
      simp only [Bool.and_eq_true] at h; exact h.1)
  simp only [List.filter_append, List.length_append] at hle ⊢
  have hcf : ((createdBy ops s dets).filter fun a => a.isActive).length ≤
      (createdBy ops s dets).length := List.length_filter_le _ _
  omega

end Size

/-! ## The theorems at concrete inputs -/

section Witnesses

/-- C3 at a concrete input: the stored track of `borderlineStart` is active and the
exact IoU of the first detection of `borderlineDetections` with it is above `0.3f`, but
the value of `calculateIoU` is `0.3f` itself, not greater than the threshold, and the
detection spawns a track; the second detection has the box of that new track and
spawns none. -/
theorem createNewTracks_spawn_iff_witness :
    0 < borderlineDetections.length ∧
    calculateIoU ⟨0, 0, 3839, 2147⟩ ⟨0, 0, 1252, 1975⟩ > borderlineStart.iouThreshold_ ∧
    calculateIoUFloat ⟨0, 0, 3839, 2147⟩ ⟨0, 0, 1252, 1975⟩ =
      Binary32.finite borderlineStart.iouThreshold_ ∧
    (createNewTracks simpleKalman borderlineStart (borderlineDetections.take 1)).tracks_ =
      (createNewTracks simpleKalman borderlineStart (borderlineDetections.take 0)).tracks_ ++
        [newTrack simpleKalman 1 ⟨⟨0, 0, 1252, 1975⟩, 9 / 10, 2, "car"⟩] ∧
    (createNewTracks simpleKalman borderlineStart (borderlineDetections.take 2)).tracks_ =
      (createNewTracks simpleKalman borderlineStart (borderlineDetections.take 1)).tracks_ :=
  ⟨by decide, by decide!, by decide!,
    (createNewTracks_spawn_iff simpleKalman borderlineStart borderlineDetections 0
      (by decide)).1.mpr (by decide!),
    (createNewTracks_spawn_iff simpleKalman borderlineStart borderlineDetections 1
      (by decide)).2.mpr (by decide!)⟩

theorem scenario3_matched_log :
    (frameMatchLog simpleKalman scenario3Start [frame2Detection])[0]? = some (some 0) := by
  decide!

theorem scenario3_afterMatching :
    (afterMatching simpleKalman scenario3Start [frame2Detection])[0]? =
      some scenario3Matched := by
  have h := afterMatching_getElem? simpleKalman scenario3Start [frame2Detection] 0
    (by decide) (by decide)
  have hlog : (frameMatchLog simpleKalman scenario3Start [frame2Detection]).getD 0 none =
      some 0 := by decide!
  rw [hlog] at h
  exact h

theorem scenario3_matched_stored :
    scenario3Matched ∈ (update simpleKalman scenario3Start [frame2Detection]).1.tracks_ :=
  (update_mem_iff simpleKalman scenario3Start [frame2Detection] scenario3Matched).mpr
    ⟨Or.inl (List.getElem?_mem scenario3_afterMatching), by decide!⟩

/-- C5 at a concrete input: a matched track has no consecutive miss. -/
theorem consecutiveMisses_after_update_witness :
    IdsOrdered scenario3Start ∧ scenario3Matched.consecutiveMisses = 0 :=
  ⟨by decide,
    (consecutiveMisses_after_update simpleKalman scenario3Start [frame2Detection] (by decide)
      0 (by decide) (by decide) scenario3Matched scenario3_matched_stored (by decide)).1
      ⟨0, scenario3_matched_log⟩⟩

/-- C6 at a concrete input: after one frame without detection the track is returned,
as 1 is at most `maxAge_ = 30`. -/
theorem deactivated_iff_unmatched_and_aged_witness :
    IdsOrdered scenario3Start ∧
    ∃ t' ∈ (update simpleKalman (runFrames simpleKalman scenario3Start []) []).2, t'.id = 0 :=
  ⟨by decide,
    (((deactivated_iff_unmatched_and_aged simpleKalman scenario3Start (by decide) 0
      (by decide) (by decide)).2 (by decide) [] []
      (unmatchedThrough_empty simpleKalman 1 scenario3Start 0)).mpr (by decide))⟩

/-- C7 at a concrete input: the matched track is kept. -/
theorem update_keeps_unless_aged_witness :
    scenario3Matched.consecutiveMisses ≤ scenario3Start.maxAge_ ∧
    scenario3Matched ∈ (update simpleKalman scenario3Start [frame2Detection]).2 :=
  ⟨by decide,
    ((update_keeps_unless_aged simpleKalman scenario3Start [frame2Detection] 0 (by decide)
      (by decide) scenario3Matched scenario3_afterMatching).2.1 (by decide)).2⟩

/-- C9, amended, at a concrete input: the first frame of the end-to-end scenarios. -/
theorem first_detection_creates_track_witness :
    0 ≤ (TrackingSystem.new (Nat → ℚ)).maxAge_ ∧
    (update simpleKalman freshSystem [frame1Detection]).2 =
      [newTrack simpleKalman 0 frame1Detection] :=
  ⟨by decide,
    (first_detection_creates_track simpleKalman (TrackingSystem.new (Nat → ℚ)) (by decide)
      frame1Detection).1⟩

/-- C10, amended, at a concrete input: the third end-to-end scenario. -/
theorem retired_after_31_empty_frames_witness :
    (IdsOrdered scenario3Start ∧ scenario3Start.maxAge_ = 30 ∧ scenario3Start.minHits_ = 3 ∧
      scenario3Track.consecutiveMisses = 0 ∧ scenario3Track.totalHits = 2) ∧
    ∀ t' ∈ (runFrames simpleKalman scenario3Start (List.replicate 31 [])).tracks_,
      t'.id ≠ scenario3Track.id :=
  ⟨⟨by decide, rfl, rfl, rfl, rfl⟩,
    (retired_after_31_empty_frames simpleKalman scenario3Start (by decide) rfl rfl
      scenario3Track (List.mem_singleton.mpr rfl) rfl rfl rfl).2.2⟩

end Witnesses

/-! ## Intersection over union (C11, C12, C13) -/

section IoU

/-- C11: for two rectangles of non-negative width and height, one of them of positive
area, `calculateIoU` returns 0 when they do not overlap (the right or bottom edge of
the intersection lies before its left or top edge, or the intersection has no area), and
otherwise the exact quotient `intersection / (area1 + area2 - intersection)`; the
divisor is positive whenever the quotient is formed. -/
theorem calculateIoU_cases (a b : Rect) (ha : 0 ≤ a.width ∧ 0 ≤ a.height)
    (hb : 0 ≤ b.width ∧ 0 ≤ b.height) (hU : 0 < a.area ∨ 0 < b.area) :
    let x1 := max a.x b.x
    let y1 := max a.y b.y
    let x2 := min (a.x + a.width) (b.x + b.width)
    let y2 := min (a.y + a.height) (b.y + b.height)
    let inter := (x2 - x1) * (y2 - y1)
    ((x2 < x1 ∨ y2 < y1 ∨ inter = 0) → calculateIoU a b = 0) ∧
    (¬ (x2 < x1 ∨ y2 < y1 ∨ inter = 0) →
      calculateIoU a b = (inter : ℚ) / ((a.area + b.area - inter : Int) : ℚ)) ∧
    (¬ (x2 < x1 ∨ y2 < y1) → 0 < a.area + b.area - inter) := by
  intro x1 y1 x2 y2 inter
  have hdef : calculateIoU a b =
      if x2 < x1 ∨ y2 < y1 then 0
      else (inter : ℚ) / ((a.area + b.area - inter : Int) : ℚ) := rfl
  refine ⟨fun h => ?_, fun h => ?_, fun h => ?_⟩
  · rw [hdef]
    by_cases hc : x2 < x1 ∨ y2 < y1
    · rw [if_pos hc]
    · rw [if_neg hc]
      have h0 : inter = 0 := by
        rcases h with h | h | h
        · exact absurd (Or.inl h) hc
        · exact absurd (Or.inr h) hc
        · exact h
      rw [h0]; simp
  · rw [hdef, if_neg (fun hc => h (hc.elim Or.inl (fun h' => Or.inr (Or.inl h'))))]
  · push_neg at h
    obtain ⟨hx, hy⟩ := h
    have hxa : x2 - x1 ≤ a.width := by
      have := min_le_left (a.x + a.width) (b.x + b.width)
      have := le_max_left a.x b.x
      omega
    have hxb : x2 - x1 ≤ b.width := by
      have := min_le_right (a.x + a.width) (b.x + b.width)
      have := le_max_right a.x b.x
      omega
    have hya : y2 - y1 ≤ a.height := by
      have := min_le_left (a.y + a.height) (b.y + b.height)
      have := le_max_left a.y b.y
      omega
    have hyb : y2 - y1 ≤ b.height := by
      have := min_le_right (a.y + a.height) (b.y + b.height)
      have := le_max_right a.y b.y
      omega
    have hia : inter ≤ a.area := mul_le_mul hxa hya (by omega) ha.1
    have hib : inter ≤ b.area := mul_le_mul hxb hyb (by omega) hb.1
    rcases hU with h1 | h1 <;> omega

/-- C12: the IoU of a rectangle of positive width and height with itself is exactly
1. -/
theorem calculateIoU_same_box (r : Rect) (hw : 0 < r.width) (hh : 0 < r.height) :
    calculateIoU r r = 1 :=
  calculateIoU_self r hw hh

/-- C13: `calculateIoU` is symmetric on rectangles of positive width and height. -/
theorem calculateIoU_symmetric (a b : Rect) (_ha : 0 < a.width ∧ 0 < a.height)
    (_hb : 0 < b.width ∧ 0 < b.height) : calculateIoU a b = calculateIoU b a := by
  unfold calculateIoU
  simp only [max_comm a.x b.x, max_comm a.y b.y, min_comm (a.x + a.width) (b.x + b.width),
    min_comm (a.y + a.height) (b.y + b.height),
    add_comm (a.width * a.height) (b.width * b.height)]

/-- C11 at a concrete input: the boxes of the first two frames of the end-to-end
scenarios overlap on 48 by 49 pixels. -/
theorem calculateIoU_cases_witness :
    calculateIoU frame1Detection.boundingBox frame2Detection.boundingBox = 2352 / 2648 :=
  ((calculateIoU_cases frame1Detection.boundingBox frame2Detection.boundingBox
    (by decide) (by decide) (by decide)).2.1 (by decide)).trans (by decide!)

/-- C12 at a concrete input. -/
theorem calculateIoU_same_box_witness :
    calculateIoU frame1Detection.boundingBox frame1Detection.boundingBox = 1 :=
  calculateIoU_same_box frame1Detection.boundingBox (by decide) (by decide)

/-- C13 at a concrete input. -/
theorem calculateIoU_symmetric_witness :
    calculateIoU frame1Detection.boundingBox frame2Detection.boundingBox =
      calculateIoU frame2Detection.boundingBox frame1Detection.boundingBox :=
  calculateIoU_symmetric frame1Detection.boundingBox frame2Detection.boundingBox
    (by decide) (by decide)

end IoU

/-! ## The occlusion estimator (C17, C18, C19) -/

section Occlusion

variable {K P : Type}

theorem estimateFullBoundingBox_ratio (t : AdvancedTrackedVehicle) :
    (estimateFullBoundingBox t).visibilityRatio = t.visibilityRatio ∧
    (estimateFullBoundingBox t).isPartiallyOccluded = t.isPartiallyOccluded := by
  unfold estimateFullBoundingBox
  split <;> exact ⟨rfl, rfl⟩

/-- With partial-occlusion handling enabled, `handlePartialOcclusion` leaves in the
track the ratio of lines 138-145 and the flag of line 148. -/
theorem handlePartialOcclusion_fields (s : AdvancedTrackingSystem K P)
    (track : AdvancedTrackedVehicle) (hen : s.partialTrackingEnabled_ = true) :
    (handlePartialOcclusion s track).visibilityRatio = ratioOf track ∧
    (handlePartialOcclusion s track).isPartiallyOccluded =
      decide (ratioOf track < s.occlusionThreshold_) := by
  unfold handlePartialOcclusion ratioOf
  simp only [hen, Bool.not_true, Bool.false_eq_true, if_false]
  by_cases he : (track.estimatedFullBox.area : ℚ) > 0
  · simp only [he, if_true]
    by_cases ho : (track.boundingBox.area : ℚ) / (track.estimatedFullBox.area : ℚ) <
        s.occlusionThreshold_
    · simp only [ho, decide_True, if_true]
      exact ⟨(estimateFullBoundingBox_ratio _).1, (estimateFullBoundingBox_ratio _).2⟩
    · simp only [ho, decide_False, Bool.false_eq_true, if_false]
      exact ⟨trivial, trivial⟩
  · simp only [he, if_false]
    by_cases ho : (1 : ℚ) < s.occlusionThreshold_
    · simp only [ho, decide_True, if_true]
      exact ⟨(estimateFullBoundingBox_ratio _).1, (estimateFullBoundingBox_ratio _).2⟩
    · simp only [ho, decide_False, Bool.false_eq_true, if_false]
      exact ⟨trivial, trivial⟩

/-- C17: after `handlePartialOcclusion` with partial-occlusion handling enabled,
`isPartiallyOccluded` is true if and only if the track's `visibilityRatio` is strictly
less than `occlusionThreshold_`; an estimated full box of area 10000 and a current box
of area 4000 with `occlusionThreshold_ = 0.3` give `visibilityRatio = 0.4` and
`isPartiallyOccluded = false`. -/
theorem occluded_iff_ratio_below_threshold (s : AdvancedTrackingSystem K P)
    (track : AdvancedTrackedVehicle) (hen : s.partialTrackingEnabled_ = true) :
    ((handlePartialOcclusion s track).isPartiallyOccluded = true ↔
      (handlePartialOcclusion s track).visibilityRatio < s.occlusionThreshold_) ∧
    (track.estimatedFullBox.area = 10000 → track.boundingBox.area = 4000 →
      s.occlusionThreshold_ = 3 / 10 →
      (handlePartialOcclusion s track).visibilityRatio = 4 / 10 ∧
      (handlePartialOcclusion s track).isPartiallyOccluded = false) := by
  obtain ⟨hr, ho⟩ := handlePartialOcclusion_fields s track hen
  refine ⟨by rw [hr, ho]; exact decide_eq_true_iff, fun h1 h2 h3 => ?_⟩
  have hval : ratioOf track = 4 / 10 := by
    unfold ratioOf
    rw [h1, h2]
    norm_num
  rw [hr, ho, hval, h3]
  exact ⟨rfl, by norm_num⟩

/-- C17 at a concrete input: the fourth end-to-end scenario. -/
theorem occluded_iff_ratio_below_threshold_witness :
    advancedFresh.partialTrackingEnabled_ = true ∧
    (handlePartialOcclusion advancedFresh scenario4Track).visibilityRatio = 4 / 10 ∧
    (handlePartialOcclusion advancedFresh scenario4Track).isPartiallyOccluded = false :=
  ⟨rfl,
    (occluded_iff_ratio_below_threshold advancedFresh scenario4Track rfl).2
      (by decide) (by decide) rfl⟩

/-- C18 fails on the code: a track whose detection grows from 50 by 50 to 60 by 60
between two frames leaves `updateAdvanced` with `visibilityRatio = 36/25`, above 1. -/
theorem visibilityRatio_exceeds_one :
    ((updateAdvanced simpleKalman simpleVision lingeringStart [grownDetection]
        sampleImage).2.map
      fun t => (t.id, t.boundingBox, t.visibilityRatio)) = [(0, ⟨5, 5, 60, 60⟩, 36 / 25)] ∧
    ¬ ((36 : ℚ) / 25 ≤ 1) := by
  constructor
  · decide!
  · norm_num

/-- C19, amended: with partial-occlusion handling enabled, `handlePartialOcclusion`
sets `visibilityRatio` to 1 whenever the track's estimated full box has no positive
area, whatever the current bounding box is; when the current bounding box has zero area
and the estimated full box a positive one, it sets `visibilityRatio` to 0. -/
theorem visibilityRatio_default (s : AdvancedTrackingSystem K P)
    (track : AdvancedTrackedVehicle) (hen : s.partialTrackingEnabled_ = true) :
    (track.estimatedFullBox.area ≤ 0 → (handlePartialOcclusion s track).visibilityRatio = 1) ∧
    (track.boundingBox.area = 0 → 0 < track.estimatedFullBox.area →
      (handlePartialOcclusion s track).visibilityRatio = 0) := by
  obtain ⟨hr, _⟩ := handlePartialOcclusion_fields s track hen
  rw [hr]
  unfold ratioOf
  constructor
  · intro h
    have h' : ¬ ((track.estimatedFullBox.area : ℚ) > 0) := by
      have : (track.estimatedFullBox.area : ℚ) ≤ 0 := by exact_mod_cast h
      exact not_lt.mpr this
    rw [if_neg h']
  · intro h0 hpos
    have h' : (track.estimatedFullBox.area : ℚ) > 0 := by exact_mod_cast hpos
    rw [if_pos h', h0]
    simp

/-- C19, amended, at a concrete input: a track that has no estimated full box yet. -/
theorem visibilityRatio_default_witness :
    advancedFresh.partialTrackingEnabled_ = true ∧
    (handlePartialOcclusion advancedFresh
      { zeroAreaTrack with estimatedFullBox := ⟨0, 0, 0, 0⟩ }).visibilityRatio = 1 :=
  ⟨rfl,
    (visibilityRatio_default advancedFresh
      { zeroAreaTrack with estimatedFullBox := ⟨0, 0, 0, 0⟩ } rfl).1 (by decide)⟩

/-- C19 fails as stated: a track whose bounding box has zero area and whose estimated
full box has area 100 gets `visibilityRatio = 0`, not 1. -/
theorem zero_area_box_ratio_zero :
    zeroAreaTrack.boundingBox.area = 0 ∧
    (handlePartialOcclusion advancedFresh zeroAreaTrack).visibilityRatio = 0 ∧
    (handlePartialOcclusion advancedFresh zeroAreaTrack).visibilityRatio ≠ 1 := by
  refine ⟨by decide, by decide!, by decide!⟩

end Occlusion

/-! ## Reacquisition of the primary target (C20) -/

section Reacquisition

variable {K P : Type} (vis : VisionOps P)

/-- An index chosen by the loop of `handleTargetReacquisition` is one of the scanned
detections and its score exceeds the threshold. -/
theorem reIdScan_eq_some (thr : ℚ) (track : AdvancedTrackedVehicle) (dets : List Detection)
    (n j : Nat) (h : (reIdScan vis thr track dets n).2 = some j) :
    j < n ∧ reIdScoreAt vis track dets j > thr := by
  induction n with
  | zero => simp [reIdScan] at h
  | succ n ih =>
    have hstep : reIdScan vis thr track dets (n + 1) =
        if reIdScoreAt vis track dets n > (reIdScan vis thr track dets n).1 ∧
            reIdScoreAt vis track dets n > thr
          then (reIdScoreAt vis track dets n, some n)
          else reIdScan vis thr track dets n := rfl
    rw [hstep] at h
    split_ifs at h with hc
    · have hj : n = j := by simpa using h
      subst hj
      exact ⟨Nat.lt_succ_self _, hc.2⟩
    · exact ⟨Nat.lt_succ_of_lt (ih h).1, (ih h).2⟩

/-- C20: `handleTargetReacquisition` leaves the track unchanged unless
re-identification is enabled, the track is inactive or partially occluded, and the
similarity score of at least one detection is strictly greater than `reIdThreshold_`;
a best score equal to the threshold changes nothing. -/
theorem reacquisition_only_if (s : AdvancedTrackingSystem K P)
    (track : AdvancedTrackedVehicle) (dets : List Detection)
    (h : ¬ (s.reIdEnabled_ = true ∧
      (track.isActive = false ∨ track.isPartiallyOccluded = true) ∧
      ∃ i, i < dets.length ∧ reIdScoreAt vis track dets i > s.reIdThreshold_)) :
    handleTargetReacquisition vis s track dets = track := by
  unfold handleTargetReacquisition
  by_cases hen : s.reIdEnabled_ = true
  · simp only [hen, Bool.not_true, Bool.false_eq_true, if_false]
    by_cases hc : (!track.isActive || track.isPartiallyOccluded) = true
    · rw [if_pos hc]
      cases hs : (reIdScan vis s.reIdThreshold_ track dets dets.length).2 with
      | none => rfl
      | some idx =>
        exfalso
        apply h
        refine ⟨hen, ?_, idx, reIdScan_eq_some vis _ track dets _ idx hs⟩
        simpa using hc
    · rw [if_neg hc]
  · have hd : s.reIdEnabled_ = false := by simpa using hen
    simp [hd]

/-- C20 at a concrete input: an inactive track and a detection whose score, 0, equals
the threshold. -/
theorem reacquisition_only_if_witness :
    reIdScoreAt simpleVision { zeroAreaTrack with isActive := false } [frame1Detection] 0 = 0 ∧
    handleTargetReacquisition simpleVision { advancedFresh with reIdThreshold_ := 0 }
      { zeroAreaTrack with isActive := false } [frame1Detection] =
      { zeroAreaTrack with isActive := false } :=
  ⟨by decide!,
    reacquisition_only_if simpleVision { advancedFresh with reIdThreshold_ := 0 }
      { zeroAreaTrack with isActive := false } [frame1Detection] (by decide!)⟩

end Reacquisition

/-! ## Advanced tracks against the basic tracker (C15, C16) -/

section Lingering

/-- C15 fails on the code: after one detection and 31 frames without detection the
basic tracker has removed track 0 and stores no track, and `updateAdvanced` still
returns an active track with id 0, in that call and in the next one. -/
theorem removed_track_still_returned :
    idsOf (updateAdvanced simpleKalman simpleVision
        (runAdvanced simpleKalman simpleVision lingeringStart
          (List.replicate 30 ([], sampleImage)))
        [] sampleImage).1.tracks_ = [] ∧
    ((updateAdvanced simpleKalman simpleVision
        (runAdvanced simpleKalman simpleVision lingeringStart
          (List.replicate 30 ([], sampleImage)))
        [] sampleImage).2.map fun t => (t.id, t.isActive)) = [(0, true)] ∧
    ((updateAdvanced simpleKalman simpleVision
        (runAdvanced simpleKalman simpleVision lingeringStart
          (List.replicate 31 ([], sampleImage)))
        [] sampleImage).2.map fun t => (t.id, t.isActive)) = [(0, true)] := by
  refine ⟨by decide!, by decide!, by decide!⟩

/-- C16 fails on the code: of two similar tracks, `mergeSimilarTracks` deactivates
track 1 in the first call of `updateAdvanced`; in the second call the basic tracker
still returns track 1, the tracks are no longer similar, and track 1 is active again
and returned. -/
theorem merged_track_revived :
    (twinsMerged.advancedTracks_.map fun t => (t.id, t.isActive)) = [(0, true), (1, false)] ∧
    ((updateAdvanced simpleKalman simpleVision twinsMerged twinDetectionsLater
        sampleImage).1.advancedTracks_.map fun t => (t.id, t.isActive)) =
      [(0, true), (1, true)] ∧
    ((updateAdvanced simpleKalman simpleVision twinsMerged twinDetectionsLater
        sampleImage).2.map fun t => t.id) = [0, 1] := by
  refine ⟨by decide!, by decide!, by decide!⟩

end Lingering

/-! ## Configuration, camera motion and velocity history (C23, C24, C25) -/

section Settings

variable {K P : Type}

/-- C25, amended: the configuration setters store their argument as it is, with no
clamping and no validation: after `setIoUThreshold`, `setOcclusionThreshold`,
`setReIdThreshold`, `setCameraMotionSensitivity`, `setMaxAge` or `setMinHits` the stored
parameter equals the argument, for every argument. -/
theorem setters_store_argument (s : TrackingSystem K) (a : AdvancedTrackingSystem K P)
    (q : ℚ) (n : Int) :
    (s.setIoUThreshold q).iouThreshold_ = q ∧
    (a.setOcclusionThreshold q).occlusionThreshold_ = q ∧
    (a.setReIdThreshold q).reIdThreshold_ = q ∧
    (a.setCameraMotionSensitivity q).cameraMotionSensitivity_ = q ∧
    (s.setMaxAge n).maxAge_ = n ∧
    (s.setMinHits n).minHits_ = n :=
  ⟨rfl, rfl, rfl, rfl, rfl, rfl⟩

/-- C25 fails as stated: `setIoUThreshold(5)` stores 5, outside `[0, 1]`,
`setReIdThreshold(-2)` stores -2, and `setMaxAge(-3)` and `setMinHits(0)` store -3 and 0,
below 1. -/
theorem setters_do_not_clamp :
    ¬ ((freshSystem.setIoUThreshold 5).iouThreshold_ ≤ 1) ∧
    ¬ (0 ≤ (advancedFresh.setReIdThreshold (-2)).reIdThreshold_) ∧
    ¬ (1 ≤ (freshSystem.setMaxAge (-3)).maxAge_) ∧
    ¬ (1 ≤ (freshSystem.setMinHits 0).minHits_) := by
  refine ⟨?_, ?_, by decide, by decide⟩
  · show ¬ ((5 : ℚ) ≤ 1)
    norm_num
  · show ¬ ((0 : ℚ) ≤ -2)
    norm_num

/-- The conversion `toInt` is the truncation toward zero: the floor of a non-negative
value and the ceiling of a negative one. -/
theorem toInt_eq_truncation (q : ℚ) : toInt q = if 0 ≤ q then ⌊q⌋ else ⌈q⌉ := by
  unfold toInt
  have hden : (0 : Int) ≤ (q.den : Int) := Int.ofNat_nonneg _
  split_ifs with h
  · rw [Rat.floor_def]
    exact Int.tdiv_eq_ediv (Rat.num_nonneg.mpr h) hden
  · have hneg : q.num < 0 := Rat.num_neg.mpr (not_le.mp h)
    have hceil : ⌈q⌉ = -⌊-q⌋ := by rw [Int.floor_neg, neg_neg]
    rw [hceil, Rat.floor_def, Rat.neg_num, Rat.neg_den]
    have hpos : 0 ≤ -q.num := by omega
    rw [← Int.tdiv_eq_ediv hpos hden, Int.neg_tdiv, neg_neg]

/-- C24: `compensateCameraMotion` adds the stored global camera offset, each component
truncated toward zero, to the `x` and `y` of every detection's box, and leaves the
width, height, confidence, class id and label of every detection, and the number and
order of the detections, unchanged. -/
theorem compensateCameraMotion_effect (s : AdvancedTrackingSystem K P)
    (detections : List Detection) :
    (compensateCameraMotion s detections).length = detections.length ∧
    (toInt s.globalCameraMotion_.1 =
      if 0 ≤ s.globalCameraMotion_.1 then ⌊s.globalCameraMotion_.1⌋
      else ⌈s.globalCameraMotion_.1⌉) ∧
    (toInt s.globalCameraMotion_.2 =
      if 0 ≤ s.globalCameraMotion_.2 then ⌊s.globalCameraMotion_.2⌋
      else ⌈s.globalCameraMotion_.2⌉) ∧
    ∀ (i : Nat) (d : Detection), detections[i]? = some d →
      ∃ d', (compensateCameraMotion s detections)[i]? = some d' ∧
        d'.boundingBox.x = d.boundingBox.x + toInt s.globalCameraMotion_.1 ∧
        d'.boundingBox.y = d.boundingBox.y + toInt s.globalCameraMotion_.2 ∧
        d'.boundingBox.width = d.boundingBox.width ∧
        d'.boundingBox.height = d.boundingBox.height ∧
        d'.confidence = d.confidence ∧ d'.classId = d.classId ∧ d'.label = d.label := by
  refine ⟨by simp [compensateCameraMotion], toInt_eq_truncation _, toInt_eq_truncation _,
    fun i d h => ?_⟩
  refine ⟨{ d with
      boundingBox :=
        { d.boundingBox with
          x := d.boundingBox.x + toInt s.globalCameraMotion_.1
          y := d.boundingBox.y + toInt s.globalCameraMotion_.2 } }, ?_,
    rfl, rfl, rfl, rfl, rfl, rfl, rfl⟩
  simp only [compensateCameraMotion, List.getElem?_map, h, Option.map_some']

theorem updateVelocityHistory_history (t : AdvancedTrackedVehicle)
    (h : t.velocityHistory.length = 5) :
    (updateVelocityHistory t).velocityHistory = t.velocity :: t.velocityHistory.take 4 := by
  unfold updateVelocityHistory
  rcases hl : t.velocityHistory with _ | ⟨a, _ | ⟨b, _ | ⟨c, _ | ⟨d, _ | ⟨e, _ | ⟨f, r⟩⟩⟩⟩⟩⟩ <;>
    rw [hl] at h <;> simp at h
  rfl

/-- Behind a new sample only the first four of the five old slots matter. -/
theorem take_five_window (l : List (ℚ × ℚ)) (x : ℚ × ℚ) (old : List (ℚ × ℚ)) :
    (l ++ x :: old.take 4).take 5 = (l ++ x :: old).take 5 := by
  rw [List.take_append_eq_append_take, List.take_append_eq_append_take]
  congr 1
  cases hk : 5 - l.length with
  | zero => rfl
  | succ k =>
    rw [List.take_succ_cons, List.take_succ_cons, List.take_take]
    congr 1
    have : k ≤ 4 := by omega
    rw [Nat.min_eq_left this]

theorem pushVelocities_history (vs : List (ℚ × ℚ)) :
    ∀ (t : AdvancedTrackedVehicle), t.velocityHistory.length = 5 →
      (pushVelocities t vs).velocityHistory = (vs.reverse ++ t.velocityHistory).take 5 := by
  induction vs with
  | nil =>
    intro t h
    simp [pushVelocities, ← h]
  | cons v vs ih =>
    intro t h
    have hstep : (updateVelocityHistory { t with velocity := v }).velocityHistory =
        v :: t.velocityHistory.take 4 :=
      updateVelocityHistory_history { t with velocity := v } h
    have hlen : (updateVelocityHistory { t with velocity := v }).velocityHistory.length = 5 := by
      rw [hstep]; simp [h]
    have hrec : pushVelocities t (v :: vs) =
        pushVelocities (updateVelocityHistory { t with velocity := v }) vs := rfl
    rw [hrec, ih _ hlen, hstep]
    simp only [List.reverse_cons, List.append_assoc, List.singleton_append]
    exact take_five_window vs.reverse v t.velocityHistory

/-- C23: `updateVelocityHistory` keeps `velocityHistory` as a window of 5 slots, newest
first: starting from any 5 slots, after `n >= 5` successive calls with the track
velocities `v1, ..., vn` the array is `[vn, vn-1, vn-2, vn-3, vn-4]`; after 6 calls the
first sample is no longer stored and `v6, ..., v2` remain, in that order. -/
theorem velocityHistory_newest_first (t : AdvancedTrackedVehicle)
    (h : t.velocityHistory.length = 5) :
    (∀ vs : List (ℚ × ℚ), 5 ≤ vs.length →
      (pushVelocities t vs).velocityHistory = vs.reverse.take 5) ∧
    (∀ v1 v2 v3 v4 v5 v6 : ℚ × ℚ,
      (pushVelocities t [v1, v2, v3, v4, v5, v6]).velocityHistory = [v6, v5, v4, v3, v2]) := by
  have key : ∀ vs : List (ℚ × ℚ), 5 ≤ vs.length →
      (pushVelocities t vs).velocityHistory = vs.reverse.take 5 := by
    intro vs hvs
    rw [pushVelocities_history vs t h, List.take_append_of_le_length (by simpa using hvs)]
  exact ⟨key, fun v1 v2 v3 v4 v5 v6 => by rw [key _ (by simp)]; rfl⟩

/-- C23 at a concrete input: six velocities pushed into the history of a new track. -/
theorem velocityHistory_newest_first_witness :
    AdvancedTrackedVehicle.new.velocityHistory.length = 5 ∧
    (pushVelocities AdvancedTrackedVehicle.new
      [(1, 0), (2, 0), (3, 0), (4, 0), (5, 0), (6, 0)]).velocityHistory =
      [(6, 0), (5, 0), (4, 0), (3, 0), (2, 0)] :=
  ⟨rfl, (velocityHistory_newest_first AdvancedTrackedVehicle.new rfl).2 _ _ _ _ _ _⟩

end Settings

/-! ## Reacquisition never fires (C21, C29) -/

section NoReacquisition

variable {K P : Type} (vis : VisionOps P)

theorem extractAppearanceFeatures_no_size (frame : Frame P) (roi : Rect)
    (hc : frame.cols = 0) (hr : frame.rows = 0) :
    extractAppearanceFeatures vis frame roi = [] := by
  unfold extractAppearanceFeatures
  rw [hc, hr]
  by_cases he : roi.empty = true
  · rw [if_pos (Or.inl he)]
  · have hw : 0 < roi.width := by
      by_contra hcon
      exact he (by simp [Rect.empty, not_lt.mp hcon])
    by_cases hx : roi.x < 0
    · rw [if_pos (Or.inr (Or.inl hx))]
    · rw [if_pos (Or.inr (Or.inr (Or.inr (Or.inl (by omega)))))]

theorem calculateReIdScore_empty_right (features : List ℚ) :
    calculateReIdScore vis features [] = 0 := by
  simp [calculateReIdScore]

theorem reIdScoreAt_eq_zero (track : AdvancedTrackedVehicle) (dets : List Detection)
    (i : Nat) : reIdScoreAt vis track dets i = 0 := by
  unfold reIdScoreAt
  rw [extractAppearanceFeatures_no_size vis (Frame.noMat P) _ rfl rfl,
    calculateReIdScore_empty_right]

theorem reIdScan_eq_none (thr : ℚ) (track : AdvancedTrackedVehicle) (dets : List Detection)
    (n : Nat) : reIdScan vis thr track dets n = (0, none) := by
  induction n with
  | zero => rfl
  | succ n ih =>
    have hstep : reIdScan vis thr track dets (n + 1) =
        if reIdScoreAt vis track dets n > (reIdScan vis thr track dets n).1 ∧
            reIdScoreAt vis track dets n > thr
          then (reIdScoreAt vis track dets n, some n)
          else reIdScan vis thr track dets n := rfl
    rw [hstep, ih, reIdScoreAt_eq_zero]
    rw [if_neg (fun h => absurd h.1 (lt_irrefl _))]

/-- The body of `handleTargetReacquisition` selects no detection. -/
theorem handleTargetReacquisition_eq (s : AdvancedTrackingSystem K P)
    (track : AdvancedTrackedVehicle) (dets : List Detection) :
    handleTargetReacquisition vis s track dets = track := by
  unfold handleTargetReacquisition
  rw [reIdScan_eq_none]
  split
  · rfl
  · split <;> rfl

/-- C29: `handleTargetReacquisition` leaves every track unchanged, for every detection
list: `extractAppearanceFeatures` returns the empty descriptor for every rectangle when
the frame has 0 columns and 0 rows, as the frame `cv::Mat()` of line 328 has,
`calculateReIdScore` is 0 for an empty descriptor, and the scan, whose best score starts
at 0, selects no detection. -/
theorem handleTargetReacquisition_unchanged (s : AdvancedTrackingSystem K P)
    (track : AdvancedTrackedVehicle) (dets : List Detection) :
    handleTargetReacquisition vis s track dets = track ∧
    (∀ (frame : Frame P) (roi : Rect), frame.cols = 0 → frame.rows = 0 →
      extractAppearanceFeatures vis frame roi = []) ∧
    (∀ features : List ℚ, calculateReIdScore vis features [] = 0) ∧
    (∀ n, reIdScan vis s.reIdThreshold_ track dets n = (0, none)) :=
  ⟨handleTargetReacquisition_eq vis s track dets,
    fun frame roi hc hr => extractAppearanceFeatures_no_size vis frame roi hc hr,
    calculateReIdScore_empty_right vis,
    reIdScan_eq_none vis s.reIdThreshold_ track dets⟩

/-- C21 fails on the code: with re-identification enabled, `reIdThreshold_ = 0.7`, the
primary target set to the inactive track 5 and an unmatched detection whose descriptor
has cosine similarity 0.82 with the stored one, `updateAdvanced` leaves track 5
inactive, with its old box and `reIdScore = 0`, and returns only the new track 6. -/
theorem inactive_target_not_reacquired :
    calculateReIdScore scenario5Vision scenario5Track.appearanceFeatures
      (extractAppearanceFeatures scenario5Vision sampleImage scenario5Detection.boundingBox) =
      82 / 100 ∧
    ((updateAdvanced simpleKalman scenario5Vision scenario5Start [scenario5Detection]
        sampleImage).1.advancedTracks_.map
      fun t => (t.id, t.isActive, t.boundingBox, t.reIdScore)) =
      [(5, false, ⟨0, 0, 100, 100⟩, 0), (6, true, ⟨200, 200, 100, 100⟩, 0)] ∧
    ((updateAdvanced simpleKalman scenario5Vision scenario5Start [scenario5Detection]
        sampleImage).2.map fun t => t.id) = [6] := by
  refine ⟨by decide!, by decide!, by decide!⟩

end NoReacquisition

/-! ## The first estimate of the full box (C30) -/

section FirstEstimate

variable {K P : Type}

theorem toInt_intCast (n : Int) : toInt (n : ℚ) = n := by
  unfold toInt
  rw [Rat.num_intCast, Rat.den_intCast]
  simp

/-- C30: when `handlePartialOcclusion` calls `estimateFullBoundingBox` (the track is
found partially occluded) and the latter takes its branch without a previous full box
(the area of `estimatedFullBox` is not positive), the track's `visibilityRatio` is
exactly 1, so the scale factor `1 / visibilityRatio` is 1 and no division by zero, and
the estimated full box gets the width and the height of the current box. -/
theorem first_estimate_keeps_size (s : AdvancedTrackingSystem K P)
    (track : AdvancedTrackedVehicle) (hen : s.partialTrackingEnabled_ = true)
    (harea : track.estimatedFullBox.area ≤ 0)
    (hocc : (handlePartialOcclusion s track).isPartiallyOccluded = true) :
    (handlePartialOcclusion s track).visibilityRatio = 1 ∧
    (1 : ℚ) / (handlePartialOcclusion s track).visibilityRatio = 1 ∧
    (handlePartialOcclusion s track).estimatedFullBox.width = track.boundingBox.width ∧
    (handlePartialOcclusion s track).estimatedFullBox.height = track.boundingBox.height := by
  obtain ⟨hr, ho⟩ := handlePartialOcclusion_fields s track hen
  have hnot : ¬ ((track.estimatedFullBox.area : ℚ) > 0) := by
    have : (track.estimatedFullBox.area : ℚ) ≤ 0 := by exact_mod_cast harea
    exact not_lt.mpr this
  have hratio : ratioOf track = 1 := by
    unfold ratioOf
    rw [if_neg hnot]
  rw [ho, hratio, decide_eq_true_iff] at hocc
  rw [hr, hratio]
  refine ⟨rfl, by norm_num, ?_⟩
  unfold handlePartialOcclusion
  simp only [hen, Bool.not_true, Bool.false_eq_true, if_false, hnot, hocc, decide_True,
    if_true]
  unfold estimateFullBoundingBox
  simp only [if_neg (not_lt.mpr harea)]
  simp only [div_one, mul_one, toInt_intCast]
  exact ⟨trivial, trivial⟩

/-- C30 at a concrete input: a new track with a box of 80 by 50 and an occlusion
threshold of 2. -/
theorem first_estimate_keeps_size_witness :
    (handlePartialOcclusion strictOcclusion
      { scenario4Track with estimatedFullBox := ⟨0, 0, 0, 0⟩ }).isPartiallyOccluded = true ∧
    (handlePartialOcclusion strictOcclusion
      { scenario4Track with estimatedFullBox := ⟨0, 0, 0, 0⟩ }).estimatedFullBox.width = 80 :=
  ⟨by decide!,
    (first_estimate_keeps_size strictOcclusion
      { scenario4Track with estimatedFullBox := ⟨0, 0, 0, 0⟩ } rfl (by decide)
      (by decide!)).2.2.1⟩

end FirstEstimate

/-! ## Hits and the role of `minHits_` (C27, C28) -/

section Hits

variable {K : Type} (ops : KalmanOps K)

/-- Every track that the outer loop of `updateTracks` leaves is the result of one of its
iterations on a stored track. -/
theorem loop_mem (maxAge : Int) (thr : ℚ) (dets : List Detection)
    (ts : List (TrackedVehicle K)) (m : List Bool) (t' : TrackedVehicle K)
    (h : t' ∈ (updateTracksLoop ops maxAge thr dets ts m).1) :
    ∃ t ∈ ts, ∃ m', t' = (updateTrack ops maxAge thr dets t m').1 := by
  induction ts generalizing m with
  | nil => simp [updateTracksLoop] at h
  | cons t ts ih =>
    simp only [updateTracksLoop, List.mem_cons] at h
    rcases h with h | h
    · exact ⟨t, List.mem_cons_self _ _, m, h⟩
    · obtain ⟨t0, ht0, m', hm'⟩ := ih _ h
      exact ⟨t0, List.mem_cons_of_mem _ ht0, m', hm'⟩

theorem afterMatching_mem (s : TrackingSystem K) (dets : List Detection)
    (t' : TrackedVehicle K) (h : t' ∈ afterMatching ops s dets) :
    ∃ t ∈ s.tracks_, ∃ m',
      t' = (updateTrack ops s.maxAge_ s.iouThreshold_ dets (predictTrack ops t) m').1 := by
  obtain ⟨p, hp, m', hm'⟩ := loop_mem ops _ _ dets _ _ t' h
  obtain ⟨t, ht, rfl⟩ := List.mem_map.mp hp
  exact ⟨t, ht, m', hm'⟩

/-- Every track stored after `createNewTracks` was stored before or is the new track of
a detection. -/
theorem createNewTracks_mem (s : TrackingSystem K) (dets : List Detection)
    (t : TrackedVehicle K) (h : t ∈ (createNewTracks ops s dets).tracks_) :
    t ∈ s.tracks_ ∨ ∃ n d, t = newTrack ops n d := by
  induction dets generalizing s with
  | nil => exact Or.inl h
  | cons d ds ih =>
    rw [createNewTracks_cons] at h
    rcases ih _ h with h1 | h1
    · by_cases hov : overlapsActiveTrack s.iouThreshold_ s.tracks_ d.boundingBox = true
      · rw [createStep_of_overlap ops s d hov] at h1
        exact Or.inl h1
      · rw [createStep_of_free ops s d hov] at h1
        rcases List.mem_append.mp h1 with h2 | h2
        · exact Or.inl h2
        · exact Or.inr ⟨s.nextId_, d, List.mem_singleton.mp h2⟩
    · exact Or.inr h1

theorem createdBy_mem (s : TrackingSystem K) (dets : List Detection) (t : TrackedVehicle K)
    (h : t ∈ createdBy ops s dets) :
    t ∈ afterMatching ops s dets ∨ ∃ n d, t = newTrack ops n d :=
  createNewTracks_mem ops _ dets t (List.mem_of_mem_drop h)

/-- What one iteration of the outer loop of `updateTracks` makes of a track: the track
itself, the track matched to a detection, or the track after a miss. -/
theorem updateTrack_cases (maxAge : Int) (thr : ℚ) (dets : List Detection)
    (t : TrackedVehicle K) (m : List Bool) :
    (updateTrack ops maxAge thr dets t m).1 = t ∨
    (∃ d, (updateTrack ops maxAge thr dets t m).1 = hitUpdate ops t d) ∨
    (t.isActive = true ∧ (updateTrack ops maxAge thr dets t m).1 = missUpdate maxAge t) := by
  rw [updateTrack_eq]
  by_cases h : t.isActive = true
  · rw [if_pos h]
    cases matchOf thr dets t m with
    | some j => exact Or.inr (Or.inl ⟨_, rfl⟩)
    | none => exact Or.inr (Or.inr ⟨h, rfl⟩)
  · rw [if_neg h]; exact Or.inl rfl

theorem predictTrack_hits (t : TrackedVehicle K) :
    (predictTrack ops t).consecutiveHits = t.consecutiveHits ∧
    (predictTrack ops t).totalHits = t.totalHits := by
  unfold predictTrack
  split <;> exact ⟨rfl, rfl⟩

theorem missUpdate_hits (maxAge : Int) (t : TrackedVehicle K) :
    (missUpdate maxAge t).consecutiveHits = t.consecutiveHits ∧
    (missUpdate maxAge t).totalHits = t.totalHits := by
  unfold missUpdate
  split <;> exact ⟨rfl, rfl⟩

theorem update_hits (s : TrackingSystem K) (dets : List Detection)
    (h : ∀ t ∈ s.tracks_, t.consecutiveHits = t.totalHits) :
    ∀ t ∈ (update ops s dets).1.tracks_, t.consecutiveHits = t.totalHits := by
  intro t' ht'
  have hmem := ((update_mem_iff ops s dets t').mp ht').1
  have hA : ∀ x ∈ afterMatching ops s dets, x.consecutiveHits = x.totalHits := by
    intro x hx
    obtain ⟨t, ht, m', rfl⟩ := afterMatching_mem ops s dets x hx
    have hp := predictTrack_hits ops t
    have ht0 := h t ht
    rcases updateTrack_cases ops s.maxAge_ s.iouThreshold_ dets (predictTrack ops t) m' with
      hc | ⟨d, hc⟩ | ⟨_, hc⟩
    · rw [hc, hp.1, hp.2]; exact ht0
    · rw [hc]
      show (predictTrack ops t).consecutiveHits + 1 = (predictTrack ops t).totalHits + 1
      rw [hp.1, hp.2, ht0]
    · rw [hc, (missUpdate_hits _ _).1, (missUpdate_hits _ _).2, hp.1, hp.2]; exact ht0
  rcases hmem with h1 | h1
  · exact hA t' h1
  · rcases createdBy_mem ops s dets t' h1 with h2 | ⟨n, d, rfl⟩
    · exact hA t' h2
    · rfl

/-- C28: for every track that `TrackingSystem` holds, at every point of any sequence of
calls of `update` (and of the parameter setters) after `initialize`, `consecutiveHits`
equals `totalHits`: both are 0 on creation, a match increments both, and a miss leaves
both, so `consecutiveHits` is never reset. -/
theorem consecutiveHits_eq_totalHits (s0 : TrackingSystem K) (calls : List Call) :
    (∀ t ∈ (runCalls ops ( TrackingSystem.initialize s0) calls).tracks_,
      t.consecutiveHits = t.totalHits) ∧
    (∀ n d, (newTrack ops n d).consecutiveHits = 0 ∧ (newTrack ops n d).totalHits = 0) ∧
    (∀ (t : TrackedVehicle K) d,
      (hitUpdate ops t d).consecutiveHits = t.consecutiveHits + 1 ∧
      (hitUpdate ops t d).totalHits = t.totalHits + 1) ∧
    (∀ (t : TrackedVehicle K) maxAge,
      (missUpdate maxAge t).consecutiveHits = t.consecutiveHits ∧
      (missUpdate maxAge t).totalHits = t.totalHits) := by
  refine ⟨?_, fun _ _ => ⟨rfl, rfl⟩, fun _ _ => ⟨rfl, rfl⟩,
    fun t maxAge => missUpdate_hits maxAge t⟩
  have key : ∀ (cs : List Call) (s : TrackingSystem K),
      (∀ t ∈ s.tracks_, t.consecutiveHits = t.totalHits) →
      ∀ t ∈ (runCalls ops s cs).tracks_, t.consecutiveHits = t.totalHits := by
    intro cs
    induction cs with
    | nil => intro s h; exact h
    | cons c cs ih =>
      intro s h
      have hrun : runCalls ops s (c :: cs) = runCalls ops (c.apply ops s) cs := rfl
      rw [hrun]
      apply ih
      cases c with
      | update dets => exact update_hits ops s dets h
      | setMaxAge n => exact h
      | setMinHits n => exact h
      | setIoUThreshold q => exact h
  exact key calls _ (fun t ht => absurd ht (List.not_mem_nil t))

/-- With `maxAge_ >= 0`, a track that one iteration of the outer loop of `updateTracks`
leaves active has at most `maxAge_` consecutive misses. -/
theorem updateTrack_active_misses (maxAge : Int) (hmax : 0 ≤ maxAge) (thr : ℚ)
    (dets : List Detection) (t : TrackedVehicle K) (m : List Bool)
    (h : (updateTrack ops maxAge thr dets t m).1.isActive = true)
    (ht : t.isActive = true) :
    (updateTrack ops maxAge thr dets t m).1.consecutiveMisses ≤ maxAge := by
  rw [updateTrack_eq, if_pos ht] at h ⊢
  show (applyMatch ops maxAge dets t (matchOf thr dets t m)).consecutiveMisses ≤ maxAge
  have h' : (applyMatch ops maxAge dets t (matchOf thr dets t m)).isActive = true := h
  cases hm : matchOf thr dets t m with
  | some j => rw [applyMatch_misses]; exact hmax
  | none =>
    rw [hm] at h'
    have hcm : (applyMatch ops maxAge dets t none).consecutiveMisses = t.consecutiveMisses := by
      rw [applyMatch_misses]; rfl
    rw [hcm]
    by_contra hgt
    have hfalse := (applyMatch_isActive ops maxAge dets t none ht).mpr
      ⟨rfl, not_le.mp hgt⟩
    rw [hfalse] at h'
    exact absurd h' (by decide)

/-- With `maxAge_ >= 0`, before the stale tracks are removed a track is stale exactly
when it is inactive, whatever `minHits` is. -/
theorem stale_iff_inactive (s : TrackingSystem K) (dets : List Detection)
    (hmax : 0 ≤ s.maxAge_) (minHits : Int) (t : TrackedVehicle K)
    (h : t ∈ afterMatching ops s dets ++ createdBy ops s dets) :
    isStale s.maxAge_ minHits t = !t.isActive := by
  have hA : ∀ x ∈ afterMatching ops s dets,
      x.isActive = true → x.consecutiveMisses ≤ s.maxAge_ := by
    intro x hx hact
    obtain ⟨t0, _, m', rfl⟩ := afterMatching_mem ops s dets x hx
    by_cases hp : (predictTrack ops t0).isActive = true
    · exact updateTrack_active_misses ops s.maxAge_ hmax _ dets _ m' hact hp
    · rw [updateTrack_eq, if_neg hp] at hact
      exact absurd hact hp
  have hle : t.isActive = true → t.consecutiveMisses ≤ s.maxAge_ := by
    intro hact
    rcases List.mem_append.mp h with h1 | h1
    · exact hA t h1 hact
    · rcases createdBy_mem ops s dets t h1 with h2 | ⟨n, d, rfl⟩
      · exact hA t h2 hact
      · exact hmax
  unfold isStale
  cases hact : t.isActive with
  | false => rfl
  | true =>
    have := hle hact
    simp [not_lt.mpr this]

theorem createNewTracks_setMinHits (s : TrackingSystem K) (dets : List Detection)
    (minHits : Int) :
    createNewTracks ops (s.setMinHits minHits) dets =
      (createNewTracks ops s dets).setMinHits minHits := by
  induction dets generalizing s with
  | nil => rfl
  | cons d ds ih =>
    rw [createNewTracks_cons, createNewTracks_cons]
    have hstep : createStep ops (s.setMinHits minHits) d =
        (createStep ops s d).setMinHits minHits := by
      unfold createStep
      show (if overlapsActiveTrack s.iouThreshold_ s.tracks_ d.boundingBox = true then _
        else _) = _
      split <;> rfl
    rw [hstep, ih]

theorem update_setMinHits (s : TrackingSystem K) (dets : List Detection) (minHits : Int)
    (hmax : 0 ≤ s.maxAge_) :
    (update ops (s.setMinHits minHits) dets).1.tracks_ =
        (afterMatching ops s dets ++ createdBy ops s dets).filter (fun t => t.isActive) ∧
    (update ops (s.setMinHits minHits) dets).1.nextId_ =
        s.nextId_ + (createdBy ops s dets).length := by
  have hc : createdBy ops (s.setMinHits minHits) dets = createdBy ops s dets := by
    simp only [createdBy]
    have : updateTracks ops (predictTracks ops (s.setMinHits minHits)) dets =
        (updateTracks ops (predictTracks ops s) dets).setMinHits minHits := rfl
    rw [this, createNewTracks_setMinHits]
    rfl
  constructor
  · rw [update_tracks_eq, hc]
    show List.filter _ (afterMatching ops s dets ++ createdBy ops s dets) = _
    apply List.filter_congr
    intro t ht
    have hm : (s.setMinHits minHits).maxAge_ = s.maxAge_ := rfl
    rw [hm, stale_iff_inactive ops s dets hmax _ t ht, Bool.not_not]
  · rw [update_nextId, hc]; rfl

/-- C27: for `maxAge_ >= 0` the result of `update` does not depend on `minHits_`: two
runs that differ only in the value of `minHits_` end with the same stored tracks and the
same `nextId_` and return the same list, because before the stale tracks are removed
every active track has `consecutiveMisses <= maxAge_`, so `removeStaleTracks` removes
exactly the inactive tracks. -/
theorem update_independent_of_minHits (s : TrackingSystem K) (hmax : 0 ≤ s.maxAge_)
    (dets : List Detection) (minHits1 minHits2 : Int) :
    (update ops (s.setMinHits minHits1) dets).1.tracks_ =
      (update ops (s.setMinHits minHits2) dets).1.tracks_ ∧
    (update ops (s.setMinHits minHits1) dets).1.nextId_ =
      (update ops (s.setMinHits minHits2) dets).1.nextId_ ∧
    (update ops (s.setMinHits minHits1) dets).2 = (update ops (s.setMinHits minHits2) dets).2 ∧
    (update ops s dets).1.tracks_ =
      (afterMatching ops s dets ++ createdBy ops s dets).filter (fun t => t.isActive) := by
  obtain ⟨h1, n1⟩ := update_setMinHits ops s dets minHits1 hmax
  obtain ⟨h2, n2⟩ := update_setMinHits ops s dets minHits2 hmax
  have h0 := (update_setMinHits ops s dets s.minHits_ hmax).1
  refine ⟨h1.trans h2.symm, n1.trans n2.symm, ?_, h0⟩
  show ((update ops (s.setMinHits minHits1) dets).1.tracks_.filter fun t => t.isActive) =
    ((update ops (s.setMinHits minHits2) dets).1.tracks_.filter fun t => t.isActive)
  rw [h1, h2]

/-- C27 at a concrete input: the third end-to-end scenario with `minHits_` 1 and 10. -/
theorem update_independent_of_minHits_witness :
    0 ≤ scenario3Start.maxAge_ ∧
    (update simpleKalman (scenario3Start.setMinHits 1) [frame2Detection]).2 =
      (update simpleKalman (scenario3Start.setMinHits 10) [frame2Detection]).2 :=
  ⟨by decide,
    (update_independent_of_minHits simpleKalman scenario3Start (by decide) [frame2Detection]
      1 10).2.2.1⟩

end Hits

/-! ## Merging similar tracks (C22, C26) -/

section Merge

variable {P : Type} (vis : VisionOps P)

theorem getD_set (ts : List AdvancedTrackedVehicle) (p k : Nat)
    (x d : AdvancedTrackedVehicle) :
    (ts.set p x).getD k d = if p = k ∧ p < ts.length then x else ts.getD k d := by
  simp only [List.getD_eq_getElem?_getD, List.getElem?_set]
  by_cases hpk : p = k
  · subst hpk
    by_cases hlt : p < ts.length
    · simp [hlt]
    · simp [hlt, List.getElem?_eq_none (not_lt.mp hlt)]
  · simp [hpk]

theorem not_activeAt_of_length_le (ts : List AdvancedTrackedVehicle) (k : Nat)
    (h : ts.length ≤ k) : activeAt ts k = false := by
  unfold activeAt
  rw [List.getD_eq_getElem?_getD, List.getElem?_eq_none h]
  rfl

theorem shrinks_refl (ts : List AdvancedTrackedVehicle) : Shrinks ts ts :=
  fun _ => Or.inl rfl

theorem shrinks_trans {a b c : List AdvancedTrackedVehicle} (h1 : Shrinks a b)
    (h2 : Shrinks b c) : Shrinks a c := by
  intro k
  rcases h2 k with h | h
  · rw [h]; exact h1 k
  · rcases h1 k with h' | h'
    · rw [h, h']; exact Or.inr rfl
    · rw [h, h']; exact Or.inr rfl

theorem shrinks_active {a b : List AdvancedTrackedVehicle} (h : Shrinks a b) (k : Nat)
    (hk : activeAt b k = true) : activeAt a k = true := by
  unfold activeAt at hk ⊢
  rcases h k with h' | h'
  · rw [h'] at hk; exact hk
  · rw [h'] at hk; exact absurd hk Bool.false_ne_true

theorem shrinks_similar {a b : List AdvancedTrackedVehicle} (h : Shrinks a b) (i j : Nat) :
    similarAt vis b i j = similarAt vis a i j := by
  unfold similarAt
  rcases h i with hi | hi <;> rcases h j with hj | hj <;> rw [hi, hj] <;> rfl

/-- Deactivating the track at one position: the vector shrinks and the position is
inactive afterwards. -/
theorem shrinks_set (ts : List AdvancedTrackedVehicle) (p : Nat) :
    Shrinks ts
      (ts.set p { ts.getD p AdvancedTrackedVehicle.new with isActive := false }) ∧
    activeAt (ts.set p { ts.getD p AdvancedTrackedVehicle.new with isActive := false }) p =
      false := by
  constructor
  · intro k
    rw [getD_set]
    by_cases h : p = k ∧ p < ts.length
    · rw [if_pos h, h.1]; exact Or.inr rfl
    · rw [if_neg h]; exact Or.inl rfl
  · unfold activeAt
    rw [getD_set]
    by_cases h : p < ts.length
    · rw [if_pos ⟨rfl, h⟩]
    · rw [if_neg (fun hc => h hc.2), List.getD_eq_getElem?_getD,
        List.getElem?_eq_none (not_lt.mp h)]
      rfl

theorem mergeInner_cons (i j : Nat) (rest : List Nat) (ts : List AdvancedTrackedVehicle) :
    mergeInner vis i (j :: rest) ts =
      if (activeAt ts i && activeAt ts j && similarAt vis ts i j) = true then
        if (ts.getD i AdvancedTrackedVehicle.new).confidence >
            (ts.getD j AdvancedTrackedVehicle.new).confidence then
          mergeInner vis i rest
            (ts.set j { ts.getD j AdvancedTrackedVehicle.new with isActive := false })
        else ts.set i { ts.getD i AdvancedTrackedVehicle.new with isActive := false }
      else mergeInner vis i rest ts := rfl

/-- The inner loop of `mergeSimilarTracks` for the position `i`: the vector shrinks, and
if the track at `i` is still active, no visited track that is still active is similar
to it. -/
theorem mergeInner_post (i : Nat) (js : List Nat) :
    ∀ ts : List AdvancedTrackedVehicle,
      (mergeInner vis i js ts).length = ts.length ∧
      Shrinks ts (mergeInner vis i js ts) ∧
      (activeAt (mergeInner vis i js ts) i = true →
        ∀ j ∈ js, activeAt (mergeInner vis i js ts) j = true →
          similarAt vis ts i j = false) := by
  induction js with
  | nil =>
    intro ts
    exact ⟨rfl, shrinks_refl ts, fun _ j hj => absurd hj (List.not_mem_nil j)⟩
  | cons j rest ih =>
    intro ts
    rw [mergeInner_cons]
    by_cases hc : (activeAt ts i && activeAt ts j && similarAt vis ts i j) = true
    · rw [if_pos hc]
      by_cases hgt : (ts.getD i AdvancedTrackedVehicle.new).confidence >
          (ts.getD j AdvancedTrackedVehicle.new).confidence
      · rw [if_pos hgt]
        obtain ⟨hs, hoff⟩ := shrinks_set ts j
        obtain ⟨hlen, hsh, hpost⟩ := ih
          (ts.set j { ts.getD j AdvancedTrackedVehicle.new with isActive := false })
        refine ⟨by rw [hlen, List.length_set], shrinks_trans hs hsh, fun hi j' hj' hact => ?_⟩
        rcases List.mem_cons.mp hj' with rfl | hmem
        · have := shrinks_active hsh _ hact
          rw [hoff] at this
          exact absurd this (by decide)
        · rw [← shrinks_similar vis hs i j']
          exact hpost hi j' hmem hact
      · rw [if_neg hgt]
        obtain ⟨hs, hoff⟩ := shrinks_set ts i
        refine ⟨List.length_set _ _ _, hs, fun hi => ?_⟩
        rw [hoff] at hi
        exact absurd hi (by decide)
    · rw [if_neg hc]
      obtain ⟨hlen, hsh, hpost⟩ := ih ts
      refine ⟨hlen, hsh, fun hi j' hj' hact => ?_⟩
      rcases List.mem_cons.mp hj' with rfl | hmem
      · have h1 := shrinks_active hsh _ hi
        have h2 := shrinks_active hsh _ hact
        rw [h1, h2, Bool.true_and, Bool.true_and] at hc
        simpa using hc
      · exact hpost hi j' hmem hact

/-- The outer loop of `mergeSimilarTracks` after its first `m` iterations. -/
theorem mergeOuter_inv (ts0 : List AdvancedTrackedVehicle) (m : Nat) :
    ((List.range m).foldl
        (fun ts i => mergeInner vis i (List.range' (i + 1) (ts0.length - (i + 1))) ts)
        ts0).length = ts0.length ∧
    Shrinks ts0 ((List.range m).foldl
        (fun ts i => mergeInner vis i (List.range' (i + 1) (ts0.length - (i + 1))) ts) ts0) ∧
    ∀ a b, a < m → a < b → b < ts0.length →
      activeAt ((List.range m).foldl
        (fun ts i => mergeInner vis i (List.range' (i + 1) (ts0.length - (i + 1))) ts) ts0) a
          = true →
      activeAt ((List.range m).foldl
        (fun ts i => mergeInner vis i (List.range' (i + 1) (ts0.length - (i + 1))) ts) ts0) b
          = true →
      similarAt vis ts0 a b = false := by
  induction m with
  | zero =>
    exact ⟨rfl, shrinks_refl ts0, fun a b ha => absurd ha (Nat.not_lt_zero a)⟩
  | succ m ih =>
    obtain ⟨hlen, hsh, hinv⟩ := ih
    rw [List.range_succ, List.foldl_append]
    simp only [List.foldl_cons, List.foldl_nil]
    obtain ⟨plen, psh, ppost⟩ := mergeInner_post vis m
      (List.range' (m + 1) (ts0.length - (m + 1)))
      ((List.range m).foldl
        (fun ts i => mergeInner vis i (List.range' (i + 1) (ts0.length - (i + 1))) ts) ts0)
    refine ⟨plen.trans hlen, shrinks_trans hsh psh, fun a b ha hab hb hact hbct => ?_⟩
    rcases Nat.lt_succ_iff_lt_or_eq.mp ha with hlt | rfl
    · exact hinv a b hlt hab hb (shrinks_active psh _ hact) (shrinks_active psh _ hbct)
    · rw [← shrinks_similar vis hsh a b]
      refine ppost hact b ?_ hbct
      rw [List.mem_range'_1]
      omega

theorem getElem?_eq_some_getD (ts : List AdvancedTrackedVehicle) (k : Nat)
    (d : AdvancedTrackedVehicle) (h : k < ts.length) : ts[k]? = some (ts.getD k d) := by
  rw [List.getD_eq_getElem?_getD, List.getElem?_eq_getElem h]
  rfl

theorem getD_of_getElem? (ts : List AdvancedTrackedVehicle) (k : Nat)
    (d t : AdvancedTrackedVehicle) (h : ts[k]? = some t) : ts.getD k d = t := by
  rw [List.getD_eq_getElem?_getD, h]
  rfl

theorem activeAt_set_of_ne (ts : List AdvancedTrackedVehicle) (p k : Nat)
    (x : AdvancedTrackedVehicle) (h : p ≠ k) : activeAt (ts.set p x) k = activeAt ts k := by
  unfold activeAt
  rw [getD_set, if_neg (fun hc => h hc.1)]

/-- C22 (the claim as stated fails): two active tracks of the same class, size and
descriptor with equal confidence 0.8 are judged similar, and `mergeSimilarTracks`
deactivates the earlier one (id 0) and keeps the later one (id 1) active. -/
theorem merge_tie_deactivates_earlier :
    (tiedPair.map fun t => (t.id, t.isActive, t.confidence)) =
      [(0, true, 8 / 10), (1, true, 8 / 10)] ∧
    similarAt simpleVision tiedPair 0 1 = true ∧
    ((mergeSimilarTracks simpleVision tiedPair).map fun t => (t.id, t.isActive)) =
      [(0, false), (1, true)] := by
  refine ⟨by decide!, by decide!, by decide!⟩

/-- C22 (amended): when the inner loop of `mergeSimilarTracks` compares the active track
at position `i` (`it1`) with the active track at a later position `j` (`it2`) and judges
them similar, then: if the confidence of `it1` is strictly higher, `it2` is deactivated,
`it1` is still active and the loop goes on with the remaining positions; otherwise (the
confidence of `it1` is lower or equal) `it1` is deactivated, `it2` stays active and the
inner loop stops. For a vector of two such tracks this is the whole effect of
`mergeSimilarTracks`. -/
theorem merge_deactivates_by_confidence (ts : List AdvancedTrackedVehicle) (i j : Nat)
    (rest : List Nat) (hij : i < j) (hi : activeAt ts i = true) (hj : activeAt ts j = true)
    (hs : similarAt vis ts i j = true) :
    ((ts.getD i AdvancedTrackedVehicle.new).confidence >
        (ts.getD j AdvancedTrackedVehicle.new).confidence →
      mergeInner vis i (j :: rest) ts =
        mergeInner vis i rest
          (ts.set j { ts.getD j AdvancedTrackedVehicle.new with isActive := false }) ∧
      activeAt
        (ts.set j { ts.getD j AdvancedTrackedVehicle.new with isActive := false }) i = true ∧
      activeAt
        (ts.set j { ts.getD j AdvancedTrackedVehicle.new with isActive := false }) j =
          false) ∧
    ((ts.getD i AdvancedTrackedVehicle.new).confidence ≤
        (ts.getD j AdvancedTrackedVehicle.new).confidence →
      mergeInner vis i (j :: rest) ts =
        ts.set i { ts.getD i AdvancedTrackedVehicle.new with isActive := false } ∧
      activeAt
        (ts.set i { ts.getD i AdvancedTrackedVehicle.new with isActive := false }) i =
          false ∧
      activeAt
        (ts.set i { ts.getD i AdvancedTrackedVehicle.new with isActive := false }) j =
          true) ∧
    (∀ a b : AdvancedTrackedVehicle, ts = [a, b] →
      mergeSimilarTracks vis ts =
        if a.confidence > b.confidence then [a, { b with isActive := false }]
        else [{ a with isActive := false }, b]) := by
  have hc : (activeAt ts i && activeAt ts j && similarAt vis ts i j) = true := by
    rw [hi, hj, hs]; rfl
  refine ⟨fun hgt => ⟨?_, ?_, (shrinks_set ts j).2⟩, fun hle => ⟨?_, (shrinks_set ts i).2, ?_⟩,
    ?_⟩
  · rw [mergeInner_cons, if_pos hc, if_pos hgt]
  · rw [activeAt_set_of_ne ts j i _ (Nat.ne_of_gt hij)]; exact hi
  · rw [mergeInner_cons, if_pos hc, if_neg (not_lt.mpr hle)]
  · rw [activeAt_set_of_ne ts i j _ (Nat.ne_of_lt hij)]; exact hj
  · rintro a b rfl
    have h0 : i = 0 := by
      have := not_activeAt_of_length_le [a, b] j
      by_contra hne
      have h2 : ([a, b] : List AdvancedTrackedVehicle).length ≤ j := by
        simp only [List.length_cons, List.length_nil]; omega
      rw [this h2] at hj
      exact absurd hj Bool.false_ne_true
    have h1 : j = 1 := by
      by_contra hne
      have h2 : ([a, b] : List AdvancedTrackedVehicle).length ≤ j := by
        simp only [List.length_cons, List.length_nil]; omega
      rw [not_activeAt_of_length_le [a, b] j h2] at hj
      exact absurd hj Bool.false_ne_true
    subst h0; subst h1
    have hc2 : (activeAt [a, b] 0 && activeAt [a, b] 1 && similarAt vis [a, b] 0 1) = true := hc
    show mergeInner vis 1 [] (mergeInner vis 0 [1] [a, b]) = _
    rw [mergeInner_cons, if_pos hc2]
    show mergeInner vis 1 []
        (if a.confidence > b.confidence then
          mergeInner vis 0 [] ([a, b].set 1 { b with isActive := false })
        else [a, b].set 0 { a with isActive := false }) = _
    by_cases hgt : a.confidence > b.confidence
    · rw [if_pos hgt, if_pos hgt]; rfl
    · rw [if_neg hgt, if_neg hgt]; rfl

theorem merge_deactivates_by_confidence_witness :
    (0 : Nat) < 1 ∧ activeAt tiedPair 0 = true ∧ activeAt tiedPair 1 = true ∧
    similarAt simpleVision tiedPair 0 1 = true ∧
    (tiedPair.getD 0 AdvancedTrackedVehicle.new).confidence ≤
      (tiedPair.getD 1 AdvancedTrackedVehicle.new).confidence ∧
    mergeInner simpleVision 0 (1 :: []) tiedPair =
      tiedPair.set 0
        { tiedPair.getD 0 AdvancedTrackedVehicle.new with isActive := false } ∧
    activeAt (tiedPair.set 0
        { tiedPair.getD 0 AdvancedTrackedVehicle.new with isActive := false }) 0 = false ∧
    activeAt (tiedPair.set 0
        { tiedPair.getD 0 AdvancedTrackedVehicle.new with isActive := false }) 1 = true :=
  ⟨by decide, by decide!, by decide!, by decide!, by decide!,
    (merge_deactivates_by_confidence simpleVision tiedPair 0 1 [] (by decide) (by decide!)
      (by decide!) (by decide!)).2.1 (by decide!)⟩

/-- C26: after `mergeSimilarTracks`, for every pair of tracks at positions `i < j` of
`advancedTracks_` that are both still active, `isSimilarVehicle(track_i, track_j)` is
false. -/
theorem mergeSimilarTracks_no_duplicates (ts : List AdvancedTrackedVehicle) (i j : Nat)
    (ti tj : AdvancedTrackedVehicle) (hij : i < j)
    (hi : (mergeSimilarTracks vis ts)[i]? = some ti)
    (hj : (mergeSimilarTracks vis ts)[j]? = some tj)
    (hai : ti.isActive = true) (haj : tj.isActive = true) :
    isSimilarVehicle vis ti tj = false := by
  obtain ⟨hlen, hsh, hinv⟩ := mergeOuter_inv vis ts ts.length
  have hgi := getD_of_getElem? _ i AdvancedTrackedVehicle.new ti hi
  have hgj := getD_of_getElem? _ j AdvancedTrackedVehicle.new tj hj
  have hjlt : j < ts.length := by
    have := (List.getElem?_eq_some_iff.mp hj).1
    exact lt_of_lt_of_eq this hlen
  have h := hinv i j (lt_trans hij hjlt) hij hjlt
    (by unfold activeAt; rw [← hai, ← hgi]; rfl) (by unfold activeAt; rw [← haj, ← hgj]; rfl)
  rw [← shrinks_similar vis hsh i j] at h
  rw [← hgi, ← hgj]
  exact h

theorem mergeSimilarTracks_no_duplicates_witness :
    ((mergeSimilarTracks simpleVision mixedTriple).map fun t => (t.id, t.isActive)) =
      [(0, true), (1, false), (2, true)] ∧
    isSimilarVehicle simpleVision
      ((mergeSimilarTracks simpleVision mixedTriple).getD 0 AdvancedTrackedVehicle.new)
      ((mergeSimilarTracks simpleVision mixedTriple).getD 2 AdvancedTrackedVehicle.new) =
        false :=
  ⟨by decide!,
    mergeSimilarTracks_no_duplicates simpleVision mixedTriple 0 2 _ _ (by decide)
      (getElem?_eq_some_getD _ 0 _ (by decide!)) (getElem?_eq_some_getD _ 2 _ (by decide!))
      (by decide!) (by decide!)⟩

end Merge

end CarChase
